import Mathlib

/-!
# Playmaker backend: artist-catalog synchronisation

A shallow embedding of `handlers/playmaker.go` and `handlers/modify.go`.

* Go strings are Lean strings; `strings.Split` and the ordering of strings are
  written out on the underlying characters.
* Go maps are association lists with unique keys (`mapSet`, `mapGet`); the
  order in which `range` visits a map is a parameter (`RangeOrder`).
* The outside world (the music service and the Redis store) is explicit:
  `Env` holds what the outside answers, `World` holds the store contents and
  the trace of every external interaction made so far.
* The `for nextURL != ""` loops take fuel; `none` means the fuel ran out.
* A GET is sent only when `http.NewRequest` accepts the URL
  (`Env.requestError`); a rejected URL gives an error and no interaction.
* Redis is a store that answers: `Get` fails only for a key that is missing
  or expired, `Set` always stores. `json.Marshal` and `json.Unmarshal` are
  answers of the outside (`Env.marshal`, `Env.unmarshal`).
* `log.Printf` calls are not modelled.
-/

set_option autoImplicit false

namespace Playmaker

/-! ## Go primitives -/

/-- Segments of a character list around every occurrence of `sep`
(`strings.Split` with a one-character separator). -/
def splitChars (sep : Char) : List Char → List (List Char)
  | [] => [[]]
  | c :: cs =>
    if c = sep then [] :: splitChars sep cs
    else
      match splitChars sep cs with
      | [] => [[c]]
      | seg :: rest => (c :: seg) :: rest

/-- Go `strings.Split(s, "/")`. -/
def stringsSplit (s : String) : List String :=
  (splitChars '/' s.data).map String.mk

/-- Go `a < b` on strings, on character lists: lexicographic, a proper
leading part of a string is smaller. -/
def charsLt : List Char → List Char → Bool
  | [], [] => false
  | [], _ :: _ => true
  | _ :: _, [] => false
  | a :: as, b :: bs =>
    if a.toNat < b.toNat then true
    else if b.toNat < a.toNat then false
    else charsLt as bs

/-- Go `a < b` on strings. -/
def strLt (a b : String) : Bool := charsLt a.data b.data

/-- Go `a > b` on strings. -/
def strGt (a b : String) : Bool := strLt b a

/-- Go `a <= b` on strings. -/
def strLe (a b : String) : Bool := !strLt b a

/-- Go `m[k] = v` on a map kept as an association list with unique keys:
an existing key keeps its place, a new key goes to the end. -/
def mapSet {ν : Type} : List (String × ν) → String → ν → List (String × ν)
  | [], k, v => [(k, v)]
  | (k0, v0) :: rest, k, v =>
    if k0 = k then (k, v) :: rest else (k0, v0) :: mapSet rest k v

/-- Go `v, found := m[k]`. -/
def mapGet {ν : Type} : List (String × ν) → String → Option ν
  | [], _ => none
  | (k0, v0) :: rest, k => if k0 = k then some v0 else mapGet rest k

/-- One step of Go's `insertionSortLessFunc`: the new element `x` moves left
past every element it is `less` than; the sorted part is held last-first. -/
def insertLeft {α : Type} (less : α → α → Bool) (x : α) : List α → List α
  | [] => [x]
  | y :: ys => if less x y then y :: insertLeft less x ys else x :: y :: ys

/-- Go `sort.Slice(data, less)` as the insertion sort that `pdqsort_func` runs
on slices of at most 12 elements, for which this is exact. On longer slices Go
runs an unstable pdqsort: its result is likewise a permutation ordered by
`less`, but the order among elements that `less` does not separate may differ
from the one computed here. -/
def sortSlice {α : Type} (less : α → α → Bool) (data : List α) : List α :=
  (data.foldl (fun sorted x => insertLeft less x sorted) []).reverse

/-! ## Data model (`handlers/playmaker.go`, lines 27-71) -/

structure CreatePlaylistRequest where
  Name : String
  ArtistURL : String
  deriving DecidableEq, Repr

structure SimplifiedAlbum where
  ID : String
  ReleaseDate : String
  deriving DecidableEq, Repr

structure ArtistAlbumsResponse where
  Items : List SimplifiedAlbum
  Next : String
  deriving DecidableEq, Repr

structure TrackArtist where
  ID : String
  deriving DecidableEq, Repr

structure SimplifiedTrack where
  Name : String
  ID : String
  URI : String
  AlbumID : String
  Artists : List TrackArtist
  deriving DecidableEq, Repr

structure AlbumTracksResponse where
  Items : List SimplifiedTrack
  Next : String
  deriving DecidableEq, Repr

structure TrackWithDate where
  Track : SimplifiedTrack
  ReleaseDate : String
  deriving DecidableEq, Repr

/-- Item of `PlaylistTracksResponse` (`handlers/modify.go`, lines 118-123). -/
structure PlaylistItem where
  Track : SimplifiedTrack
  deriving DecidableEq, Repr

structure PlaylistTracksResponse where
  Items : List PlaylistItem
  Next : String
  deriving DecidableEq, Repr

/-- Request body of `ModifyPlaylist` (`handlers/modify.go`, lines 32-35). -/
structure ModifyPlaylistRequest where
  PlaylistID : String
  ArtistURL : String
  deriving DecidableEq, Repr

/-- The `middleware.User` record. -/
structure User where
  ID : String
  TOKEN : String
  deriving DecidableEq, Repr

/-- What `c.Locals("user")` holds: nothing, a value that is not a
`middleware.User`, or a user. -/
inductive Locals where
  | absent
  | other
  | user (u : User)
  deriving DecidableEq, Repr

/-- A value of a `fiber.Map` sent as JSON. -/
inductive JVal where
  | str (s : String)
  | num (n : Nat)
  | withStack (err : String)
  deriving DecidableEq, Repr

/-- The answer of a handler: status code and JSON body. -/
structure Response where
  status : Nat
  body : List (String × JVal)
  deriving DecidableEq, Repr

/-! ## The outside world -/

/-- The Go type a `makeAPIRequest` body is decoded into. -/
inductive Target where
  | artistAlbums
  | albumTracks
  | playlistTracks
  deriving DecidableEq, Repr

/-- One interaction with the outside. -/
inductive Event where
  | apiGet (target : Target) (url token : String)
  | createPlaylist (userID name token : String)
  | addTracks (playlistID : String) (uris : List String) (token : String)
  | redisGet (key : String)
  | redisSet (key data : String) (ttl : Nat)
  deriving DecidableEq, Repr

/-- A stored Redis value and the time at which it expires. -/
structure RedisEntry where
  data : String
  expiresAt : Nat
  deriving DecidableEq, Repr

/-- Store contents and the interactions made so far, oldest first. -/
structure World where
  redis : List (String × RedisEntry)
  trace : List Event
  deriving DecidableEq, Repr

/-- The order in which a Go `range` visits the entries of a map: some
rearrangement of the entries. -/
structure RangeOrder where
  visit : List (String × SimplifiedTrack) → List (String × SimplifiedTrack)
  perm : ∀ l, (visit l).Perm l

/-- What the outside answers. Reads are answered from one snapshot of the
remote catalogue; an add-tracks write and the clock may depend on how many
interactions came before. -/
structure Env where
  /-- GET of `url` with `token`, decoded as an `ArtistAlbumsResponse`. -/
  artistAlbums : String → String → Except String ArtistAlbumsResponse
  /-- GET of `url` with `token`, decoded as an `AlbumTracksResponse`. -/
  albumTracks : String → String → Except String AlbumTracksResponse
  /-- GET of `url` with `token`, decoded as a `PlaylistTracksResponse`. -/
  playlistTracks : String → String → Except String PlaylistTracksResponse
  /-- Error of `http.NewRequest` for a GET of `url`, raised before anything is
  sent; `none` when the request can be built. -/
  requestError : String → Option String
  /-- POST creating a playlist: the new playlist ID or an error. -/
  createPlaylist : String → String → String → Except String String
  /-- POST adding tracks, as interaction number `n`: `none` on success. -/
  addTracks : Nat → String → List String → String → Option String
  /-- Time, in nanoseconds, of interaction number `n`. -/
  clock : Nat → Nat
  /-- The call `json.Marshal` on a track list. -/
  marshal : List SimplifiedTrack → Except String String
  /-- The call `json.Unmarshal` into a track list. -/
  unmarshal : String → Except String (List SimplifiedTrack)
  /-- Visiting order of `range uniqueTracks`. -/
  range : RangeOrder

def spotifyApiURL : String := "https://api.spotify.com"

/-- Go `time.Hour`, in nanoseconds. -/
def timeHour : Nat := 3600 * 1000000000

/-! ## Utility functions -/

/-- The `for i, part := range parts` loop of `extractArtistID`; `rest` is
`parts` from index `i` on. -/
def extractArtistIDLoop (parts : List String) : List String → Nat → String
  | [], _ => ""
  | part :: rest, i =>
    if part = "artist" ∧ i + 1 < parts.length then parts.getD (i + 1) ""
    else extractArtistIDLoop parts rest (i + 1)

/-- Source: `extractArtistID` (`handlers/playmaker.go`, lines 75-83). -/
def extractArtistID (artistURL : String) : String :=
  let parts := stringsSplit artistURL
  extractArtistIDLoop parts parts 0

/-! ## Interactions with the outside -/

/-- Source: `makeAPIRequest` (`handlers/playmaker.go`, lines 335-351). When
`http.NewRequest` rejects the URL its error is returned and nothing is sent;
otherwise one authenticated GET is made and its body decoded into `target`,
`fetch` being the answer of the outside for that target type. -/
def makeAPIRequest {α : Type} (env : Env) (target : Target)
    (fetch : String → String → Except String α) (url token : String)
    (w : World) : Except String α × World :=
  match env.requestError url with
  | some err => (Except.error err, w)
  | none =>
    (fetch url token, { w with trace := w.trace ++ [Event.apiGet target url token] })

/-- Source: `createPlaylist` (`handlers/playmaker.go`, lines 281-308). The
event records the call; `env.createPlaylist` answers for the whole function,
a request that could not be built or sent included. -/
def createPlaylist (env : Env) (userID name token : String) (w : World) :
    Except String String × World :=
  (env.createPlaylist userID name token,
    { w with trace := w.trace ++ [Event.createPlaylist userID name token] })

/-- Source: `addTracksToPlaylist` (`handlers/playmaker.go`, lines 310-333):
`none` is the nil error. The event records the call; `env.addTracks` answers
for the whole function, a request that could not be built or sent included. -/
def addTracksToPlaylist (env : Env) (playlistID : String) (uris : List String)
    (token : String) (w : World) : Option String × World :=
  (env.addTracks w.trace.length playlistID uris token,
    { w with trace := w.trace ++ [Event.addTracks playlistID uris token] })

/-- Redis `client.Get(ctx, key).Result()`: the stored data when the key is
present and not yet expired, `none` (an error) otherwise. -/
def redisGet (env : Env) (key : String) (w : World) : Option String × World :=
  let now := env.clock w.trace.length
  let found :=
    match mapGet w.redis key with
    | some entry => if now < entry.expiresAt then some entry.data else none
    | none => none
  (found, { w with trace := w.trace ++ [Event.redisGet key] })

/-- Redis `client.Set(ctx, key, data, ttl)`. -/
def redisSet (env : Env) (key data : String) (ttl : Nat) (w : World) : World :=
  let now := env.clock w.trace.length
  { redis := mapSet w.redis key { data := data, expiresAt := now + ttl }
    trace := w.trace ++ [Event.redisSet key data ttl] }

/-! ## Helper functions of `handlers/playmaker.go` -/

/-- Start URL of the album listing of an artist. -/
def artistAlbumsURL (artistID : String) : String :=
  spotifyApiURL ++ "/v1/artists/" ++ artistID ++ "/albums?include_groups=album,single&limit=50"

/-- Start URL of the track listing of an album. -/
def albumTracksURL (albumID : String) : String :=
  spotifyApiURL ++ "/v1/albums/" ++ albumID ++ "/tracks?limit=50"

/-- Start URL of the track listing of a playlist. -/
def playlistTracksURL (playlistID : String) : String :=
  spotifyApiURL ++ "/v1/playlists/" ++ playlistID ++ "/tracks?limit=100"

/-- The `for nextURL != ""` loop of `getArtistAlbumsReleaseDates`. -/
def getArtistAlbumsReleaseDatesLoop (env : Env) (token : String) :
    Nat → String → List (String × String) → World →
    Option (Except String (List (String × String)) × World)
  | 0, _, _, _ => none
  | fuel + 1, nextURL, albumReleaseDates, w =>
    if nextURL = "" then some (Except.ok albumReleaseDates, w)
    else
      match makeAPIRequest env Target.artistAlbums env.artistAlbums nextURL token w with
      | (Except.error err, w1) => some (Except.error err, w1)
      | (Except.ok albumsResponse, w1) =>
        getArtistAlbumsReleaseDatesLoop env token fuel albumsResponse.Next
          (albumsResponse.Items.foldl
            (fun m album => mapSet m album.ID album.ReleaseDate) albumReleaseDates) w1

/-- Source: `getArtistAlbumsReleaseDates` (`handlers/playmaker.go`, lines 192-207). -/
def getArtistAlbumsReleaseDates (env : Env) (artistID token : String) (fuel : Nat)
    (w : World) : Option (Except String (List (String × String)) × World) :=
  getArtistAlbumsReleaseDatesLoop env token fuel (artistAlbumsURL artistID) [] w

/-- The `for nextURL != ""` loop of `getArtistAlbumIDs`. -/
def getArtistAlbumIDsLoop (env : Env) (token : String) :
    Nat → String → List String → World → Option (Except String (List String) × World)
  | 0, _, _, _ => none
  | fuel + 1, nextURL, albumIDs, w =>
    if nextURL = "" then some (Except.ok albumIDs, w)
    else
      match makeAPIRequest env Target.artistAlbums env.artistAlbums nextURL token w with
      | (Except.error err, w1) => some (Except.error err, w1)
      | (Except.ok albumsResponse, w1) =>
        getArtistAlbumIDsLoop env token fuel albumsResponse.Next
          (albumsResponse.Items.foldl (fun ids album => ids ++ [album.ID]) albumIDs) w1

/-- Source: `getArtistAlbumIDs` (`handlers/playmaker.go`, lines 234-249). -/
def getArtistAlbumIDs (env : Env) (artistID token : String) (fuel : Nat) (w : World) :
    Option (Except String (List String) × World) :=
  getArtistAlbumIDsLoop env token fuel (artistAlbumsURL artistID) [] w

/-- The inner `for _, artist := range track.Artists` loop with its `break`. -/
def containsArtist (targetArtistID : String) : List TrackArtist → Bool
  | [] => false
  | artist :: rest =>
    if artist.ID = targetArtistID then true else containsArtist targetArtistID rest

/-- Body of `for _, track := range tracksResponse.Items`: tag the track with
the album, keep it when the target artist is credited. -/
def keepTrack (albumID targetArtistID : String) (tracks : List SimplifiedTrack)
    (track : SimplifiedTrack) : List SimplifiedTrack :=
  let track := { track with AlbumID := albumID }
  if containsArtist targetArtistID track.Artists then tracks ++ [track] else tracks

/-- The `for nextURL != ""` loop of `getAlbumTracksWithAlbumID`. -/
def getAlbumTracksWithAlbumIDLoop (env : Env) (albumID token targetArtistID : String) :
    Nat → String → List SimplifiedTrack → World →
    Option (Except String (List SimplifiedTrack) × World)
  | 0, _, _, _ => none
  | fuel + 1, nextURL, tracks, w =>
    if nextURL = "" then some (Except.ok tracks, w)
    else
      match makeAPIRequest env Target.albumTracks env.albumTracks nextURL token w with
      | (Except.error err, w1) => some (Except.error err, w1)
      | (Except.ok tracksResponse, w1) =>
        getAlbumTracksWithAlbumIDLoop env albumID token targetArtistID fuel
          tracksResponse.Next
          (tracksResponse.Items.foldl (keepTrack albumID targetArtistID) tracks) w1

/-- Source: `getAlbumTracksWithAlbumID` (`handlers/playmaker.go`, lines 251-279). -/
def getAlbumTracksWithAlbumID (env : Env) (albumID token targetArtistID : String)
    (fuel : Nat) (w : World) : Option (Except String (List SimplifiedTrack) × World) :=
  getAlbumTracksWithAlbumIDLoop env albumID token targetArtistID fuel
    (albumTracksURL albumID) [] w

/-- Body of `for _, track := range tracks` in `getAllArtistTracksWithAlbumID`. -/
def mergeTrack (uniqueTracks : List (String × SimplifiedTrack)) (track : SimplifiedTrack) :
    List (String × SimplifiedTrack) :=
  if track.ID ≠ "" then mapSet uniqueTracks track.ID track else uniqueTracks

/-- The `for _, albumID := range albumIDs` loop of
`getAllArtistTracksWithAlbumID`: a failed album is skipped. -/
def mergeAlbums (env : Env) (artistID token : String) (fuel : Nat) :
    List String → List (String × SimplifiedTrack) → World →
    Option (List (String × SimplifiedTrack) × World)
  | [], uniqueTracks, w => some (uniqueTracks, w)
  | albumID :: rest, uniqueTracks, w =>
    match getAlbumTracksWithAlbumID env albumID token artistID fuel w with
    | none => none
    | some (Except.error _, w1) => mergeAlbums env artistID token fuel rest uniqueTracks w1
    | some (Except.ok tracks, w1) =>
      mergeAlbums env artistID token fuel rest (tracks.foldl mergeTrack uniqueTracks) w1

/-- Source: `getAllArtistTracksWithAlbumID` (`handlers/playmaker.go`, lines 209-232). -/
def getAllArtistTracksWithAlbumID (env : Env) (artistID token : String) (fuel : Nat)
    (w : World) : Option (Except String (List SimplifiedTrack) × World) :=
  match getArtistAlbumIDs env artistID token fuel w with
  | none => none
  | some (Except.error err, w1) => some (Except.error err, w1)
  | some (Except.ok albumIDs, w1) =>
    match mergeAlbums env artistID token fuel albumIDs [] w1 with
    | none => none
    | some (uniqueTracks, w2) =>
      some (Except.ok
        ((env.range.visit uniqueTracks).foldl (fun result kv => result ++ [kv.2]) []), w2)

/-- Source: `getCachedArtistTracks` (`handlers/playmaker.go`, lines 354-386). -/
def getCachedArtistTracks (env : Env) (artistID token : String) (fuel : Nat) (w : World) :
    Option (Except String (List SimplifiedTrack) × World) :=
  let cacheKey := "artist_tracks:" ++ artistID
  match redisGet env cacheKey w with
  | (result, w1) =>
    let hit : Option (List SimplifiedTrack) :=
      match result with
      | some data =>
        match env.unmarshal data with
        | Except.ok tracks => some tracks
        | Except.error _ => none
      | none => none
    match hit with
    | some tracks => some (Except.ok tracks, w1)
    | none =>
      match getAllArtistTracksWithAlbumID env artistID token fuel w1 with
      | none => none
      | some (Except.error err, w2) => some (Except.error err, w2)
      | some (Except.ok tracks, w2) =>
        match env.marshal tracks with
        | Except.ok data =>
          some (Except.ok tracks, redisSet env cacheKey data (6 * timeHour) w2)
        | Except.error _ => some (Except.ok tracks, w2)

/-! ## Batched writes -/

/-- The answer `c.Status(status).JSON(fiber.Map{"error": msg})`. -/
def errorResponse (status : Nat) (msg : String) : Response :=
  { status := status, body := [("error", JVal.str msg)] }

/-- The constant `batchSize` of both handlers. -/
def batchSize : Nat := 100

/-- The `for i := 0; i < len(uris); i += batchSize` loop of `CreatePlaylist`
(`handlers/playmaker.go`, lines 165-181) and of `ModifyPlaylist`
(`handlers/modify.go`, lines 91-108), from index `i` on: `some err` is the
error of the first failed write, at which the handler returns. -/
def addInBatches (env : Env) (playlistID token : String) (uris : List String)
    (i : Nat) (w : World) : Option String × World :=
  if i < uris.length then
    let endIdx := if i + batchSize > uris.length then uris.length else i + batchSize
    let batch := (uris.take endIdx).drop i
    match addTracksToPlaylist env playlistID batch token w with
    | (some err, w1) => (some err, w1)
    | (none, w1) => addInBatches env playlistID token uris (i + batchSize) w1
  else (none, w)
termination_by uris.length - i
decreasing_by simp only [batchSize]; omega

/-- Step 7 and the closing answer of `CreatePlaylist`
(`handlers/playmaker.go`, lines 165-187): the batched writes, then either the
500 answer of the first failed write or the 200 answer with the count. -/
def createBatches (env : Env) (playlistID token name : String) (uris : List String)
    (w : World) : Response × World :=
  match addInBatches env playlistID token uris 0 w with
  | (some err, w1) => (errorResponse 500 ("Failed to add tracks: " ++ err), w1)
  | (none, w1) =>
    ({ status := 200,
       body := [("message", JVal.str ("Playlist \x27" ++ name ++ "\x27 created and " ++
                   toString uris.length ++ " tracks added.")),
                ("playlist", JVal.str playlistID),
                ("count", JVal.num uris.length)] }, w1)

/-- Step 4 and the closing answer of `ModifyPlaylist`
(`handlers/modify.go`, lines 91-113). -/
def modifyBatches (env : Env) (playlistID token : String) (missingURIs : List String)
    (w : World) : Response × World :=
  match addInBatches env playlistID token missingURIs 0 w with
  | (some err, w1) => (errorResponse 500 ("Failed to add tracks to playlist: " ++ err), w1)
  | (none, w1) =>
    ({ status := 200,
       body := [("message", JVal.str ("Added " ++ toString missingURIs.length ++
                   " missing artist tracks to playlist " ++ playlistID)),
                ("added_count", JVal.num missingURIs.length)] }, w1)

/-! ## `CreatePlaylist` -/

/-- Steps 3 and 4 of `CreatePlaylist` (`handlers/playmaker.go`, lines 135-148):
pair every track with the release date of its album, then `sort.Slice` with
`less(i, j) = sortableTracks[i].ReleaseDate > sortableTracks[j].ReleaseDate`. -/
def sortTracksByDate (tracks : List SimplifiedTrack)
    (albumReleaseDates : List (String × String)) : List TrackWithDate :=
  let sortableTracks := tracks.foldl
    (fun acc t =>
      acc ++ [{ Track := t, ReleaseDate := (mapGet albumReleaseDates t.AlbumID).getD "" }])
    ([] : List TrackWithDate)
  sortSlice (fun a b => strGt a.ReleaseDate b.ReleaseDate) sortableTracks

/-- Step 5 of `CreatePlaylist` (`handlers/playmaker.go`, lines 150-154). -/
def sortedURIs (tracks : List SimplifiedTrack)
    (albumReleaseDates : List (String × String)) : List String :=
  (sortTracksByDate tracks albumReleaseDates).foldl (fun uris td => uris ++ [td.Track.URI]) []

/-- Source: `CreatePlaylist` (`handlers/playmaker.go`, lines 86-188). `locals`
is `c.Locals("user")`, `body` the bound request body (`none` when binding
fails). -/
def CreatePlaylist (env : Env) (locals : Locals) (body : Option CreatePlaylistRequest)
    (fuel : Nat) (w : World) : Option (Response × World) :=
  match locals with
  | Locals.absent => some (errorResponse 401 "User not authenticated - no token", w)
  | Locals.other => some (errorResponse 500 "Invalid token data type", w)
  | Locals.user user =>
    if user.TOKEN = "" ∨ user.ID = "" then
      some (errorResponse 401 "User not authenticated - empty token", w)
    else
      match body with
      | none => some (errorResponse 400 "Invalid request body", w)
      | some req =>
        let artistID := extractArtistID req.ArtistURL
        if artistID = "" then some (errorResponse 400 "Invalid artist URL", w)
        else
          match getCachedArtistTracks env artistID user.TOKEN fuel w with
          | none => none
          | some (Except.error err, w1) =>
            some ({ status := 500, body := [("error", JVal.withStack err)] }, w1)
          | some (Except.ok tracks, w1) =>
            if tracks.length = 0 then
              some (errorResponse 404 "No tracks found for this artist", w1)
            else
              match getArtistAlbumsReleaseDates env artistID user.TOKEN fuel w1 with
              | none => none
              | some (Except.error _, w2) =>
                some (errorResponse 500 "Failed to get album release dates", w2)
              | some (Except.ok albumReleaseDates, w2) =>
                let uris := sortedURIs tracks albumReleaseDates
                match createPlaylist env user.ID req.Name user.TOKEN w2 with
                | (Except.error err, w3) =>
                  some (errorResponse 500 ("Failed to create playlist: " ++ err), w3)
                | (Except.ok playlistID, w3) =>
                  some (createBatches env playlistID user.TOKEN req.Name uris w3)

/-! ## `ModifyPlaylist` -/

/-- The `for nextURL != ""` loop of `getPlaylistTracks`. -/
def getPlaylistTracksLoop (env : Env) (token : String) :
    Nat → String → List SimplifiedTrack → World →
    Option (Except String (List SimplifiedTrack) × World)
  | 0, _, _, _ => none
  | fuel + 1, nextURL, tracks, w =>
    if nextURL = "" then some (Except.ok tracks, w)
    else
      match makeAPIRequest env Target.playlistTracks env.playlistTracks nextURL token w with
      | (Except.error err, w1) => some (Except.error err, w1)
      | (Except.ok response, w1) =>
        getPlaylistTracksLoop env token fuel response.Next
          (response.Items.foldl
            (fun acc item => if item.Track.ID ≠ "" then acc ++ [item.Track] else acc) tracks) w1

/-- Source: `getPlaylistTracks` (`handlers/modify.go`, lines 117-142). -/
def getPlaylistTracks (env : Env) (playlistID token : String) (fuel : Nat) (w : World) :
    Option (Except String (List SimplifiedTrack) × World) :=
  getPlaylistTracksLoop env token fuel (playlistTracksURL playlistID) [] w

/-- The set `existingTrackIDs` (`handlers/modify.go`, lines 70-73). -/
def existingTrackIDs (playlistTracks : List SimplifiedTrack) : List (String × Unit) :=
  playlistTracks.foldl (fun m pt => mapSet m pt.ID ()) []

/-- The pair `(missingURIs, missingNames)` (`handlers/modify.go`, lines 75-82). -/
def missingTracks (artistTracks playlistTracks : List SimplifiedTrack) :
    List String × List String :=
  artistTracks.foldl
    (fun acc t =>
      match mapGet (existingTrackIDs playlistTracks) t.ID with
      | some _ => acc
      | none => (acc.1 ++ [t.URI], acc.2 ++ [t.Name]))
    (([] : List String), ([] : List String))

/-- Source: `ModifyPlaylist` (`handlers/modify.go`, lines 11-114). -/
def ModifyPlaylist (env : Env) (locals : Locals) (body : Option ModifyPlaylistRequest)
    (fuel : Nat) (w : World) : Option (Response × World) :=
  match locals with
  | Locals.absent => some (errorResponse 401 "User not authenticated - no token", w)
  | Locals.other => some (errorResponse 500 "Invalid token data type", w)
  | Locals.user user =>
    if user.TOKEN = "" then
      some (errorResponse 401 "User not authenticated - empty token", w)
    else
      match body with
      | none => some (errorResponse 400 "Invalid request body", w)
      | some req =>
        if req.PlaylistID = "" ∨ req.ArtistURL = "" then
          some (errorResponse 400 "playlist_id and artist_url are required", w)
        else
          let artistID := extractArtistID req.ArtistURL
          if artistID = "" then some (errorResponse 400 "Invalid artist URL", w)
          else
            match getCachedArtistTracks env artistID user.TOKEN fuel w with
            | none => none
            | some (Except.error err, w1) =>
              some (errorResponse 500 ("Failed to fetch artist tracks: " ++ err), w1)
            | some (Except.ok artistTracks, w1) =>
              if artistTracks.length = 0 then
                some (errorResponse 404 "No tracks found for this artist", w1)
              else
                match getPlaylistTracks env req.PlaylistID user.TOKEN fuel w1 with
                | none => none
                | some (Except.error err, w2) =>
                  some (errorResponse 500 ("Failed to fetch playlist tracks: " ++ err), w2)
                | some (Except.ok playlistTracks, w2) =>
                  let missingURIs := (missingTracks artistTracks playlistTracks).1
                  if missingURIs.length = 0 then
                    some ({ status := 200,
                            body := [("message",
                                       JVal.str "All artist tracks are already in the playlist"),
                                     ("added_count", JVal.num 0)] }, w2)
                  else
                    some (modifyBatches env req.PlaylistID user.TOKEN missingURIs w2)

/-! ## Scenario: two albums with one track each -/

/-- Track of the album dated 2020-01-01. -/
def track2020 : SimplifiedTrack :=
  { Name := "Later", ID := "t2020", URI := "spotify:track:t2020", AlbumID := "a2020",
    Artists := [{ ID := "art1" }] }

/-- Track of the album dated 2019-05-01. -/
def track2019 : SimplifiedTrack :=
  { Name := "Earlier", ID := "t2019", URI := "spotify:track:t2019", AlbumID := "a2019",
    Artists := [{ ID := "art1" }] }

/-- The album-to-release-date index of the scenario. -/
def twoAlbumDates : List (String × String) :=
  [("a2020", "2020-01-01"), ("a2019", "2019-05-01")]

/-- A range order that visits a map in insertion order. -/
def insertionOrder : RangeOrder :=
  { visit := fun l => l, perm := fun l => List.Perm.refl l }

/-- A range order that visits a map in reverse insertion order. -/
def reverseOrder : RangeOrder :=
  { visit := fun l => l.reverse, perm := fun l => List.reverse_perm l }

/-- The remote of the scenario: artist `art1` has the albums `a2020` and
`a2019`, each with one track crediting `art1`; every write succeeds and the
new playlist is `p1`. -/
def twoAlbumEnv : Env :=
  { artistAlbums := fun url _ =>
      if url = artistAlbumsURL "art1" then
        Except.ok { Items := [{ ID := "a2020", ReleaseDate := "2020-01-01" },
                              { ID := "a2019", ReleaseDate := "2019-05-01" }], Next := "" }
      else Except.error "404"
    albumTracks := fun url _ =>
      if url = albumTracksURL "a2020" then
        Except.ok { Items := [{ track2020 with AlbumID := "" }], Next := "" }
      else if url = albumTracksURL "a2019" then
        Except.ok { Items := [{ track2019 with AlbumID := "" }], Next := "" }
      else Except.error "404"
    playlistTracks := fun _ _ => Except.error "404"
    requestError := fun _ => none
    createPlaylist := fun _ _ _ => Except.ok "p1"
    addTracks := fun _ _ _ _ => none
    clock := fun n => n
    marshal := fun _ => Except.ok "cached"
    unmarshal := fun _ => Except.error "bad json"
    range := insertionOrder }

/-- The scenario with the catalog visited in the other order. -/
def twoAlbumEnvReversed : Env := { twoAlbumEnv with range := reverseOrder }

/-- An authenticated user. -/
def someUser : User := { ID := "u1", TOKEN := "tok" }

/-- A request for a playlist of artist `art1`. -/
def mixRequest : CreatePlaylistRequest :=
  { Name := "Mix", ArtistURL := "https://open.spotify.com/artist/art1" }

/-- A world with an empty store and no interaction yet. -/
def emptyWorld : World := { redis := [], trace := [] }

/-- The chunk with index `k` (from 0) of a URI list cut into pieces of
`batchSize`. -/
def chunkAt (uris : List String) (k : Nat) : List String :=
  (uris.drop (k * batchSize)).take batchSize

/-- The add-tracks interactions for the chunks `s, s+1, ..., s+d-1`, in order. -/
def chunkEvents (playlistID token : String) (uris : List String) (s d : Nat) : List Event :=
  (List.range d).map (fun j => Event.addTracks playlistID (chunkAt uris (s + j)) token)

/-- Number of URIs carried by the add-tracks interactions of a trace. -/
def urisSent : List Event → Nat
  | [] => 0
  | Event.addTracks _ uris _ :: rest => uris.length + urisSent rest
  | _ :: rest => urisSent rest

/-- Number of add-tracks interactions of a trace. -/
def addCalls : List Event → Nat
  | [] => 0
  | Event.addTracks _ _ _ :: rest => 1 + addCalls rest
  | _ :: rest => addCalls rest

instance exceptDecEq {ε α : Type} [DecidableEq ε] [DecidableEq α] :
    DecidableEq (Except ε α) := fun x y =>
  match x, y with
  | Except.ok a, Except.ok b =>
    if h : a = b then isTrue (by rw [h]) else isFalse (fun h2 => h (by cases h2; rfl))
  | Except.error a, Except.error b =>
    if h : a = b then isTrue (by rw [h]) else isFalse (fun h2 => h (by cases h2; rfl))
  | Except.ok _, Except.error _ => isFalse (fun h => by cases h)
  | Except.error _, Except.ok _ => isFalse (fun h => by cases h)

/-- An outside whose add-tracks write fails with "boom" exactly as
interaction number `n`; everything else is as in `twoAlbumEnv`. -/
def failingEnv (n : Nat) : Env :=
  { twoAlbumEnv with addTracks := fun m _ _ _ => if m = n then some "boom" else none }

/-- A list of 150 URIs. -/
def manyURIs : List String :=
  (List.range 150).map (fun n => "spotify:track:" ++ toString n)

/-- A catalog of three tracks with distinct identities. -/
def threeTracks : List SimplifiedTrack :=
  [{ Name := "One", ID := "t1", URI := "spotify:track:t1", AlbumID := "a1", Artists := [] },
   { Name := "Two", ID := "t2", URI := "spotify:track:t2", AlbumID := "a1", Artists := [] },
   { Name := "Three", ID := "t3", URI := "spotify:track:t3", AlbumID := "a2", Artists := [] }]

/-- A request whose artist URL has no `artist` segment. -/
def albumURL : String := "https://open.spotify.com/album/xyz"

/-- A remote whose only album `a1` holds one track that credits `art1` and
has an empty identity, next to a track with identity `t1`. -/
def emptyIDEnv : Env :=
  { twoAlbumEnv with
    artistAlbums := fun url _ =>
      if url = artistAlbumsURL "art1" then
        Except.ok { Items := [{ ID := "a1", ReleaseDate := "2021" }], Next := "" }
      else Except.error "404"
    albumTracks := fun url _ =>
      if url = albumTracksURL "a1" then
        Except.ok
          { Items := [{ Name := "Local file", ID := "", URI := "spotify:local:x", AlbumID := "",
                        Artists := [{ ID := "art1" }] },
                      { Name := "One", ID := "t1", URI := "spotify:track:t1", AlbumID := "",
                        Artists := [{ ID := "art1" }] }],
            Next := "" }
      else Except.error "404" }

/-- The track with the empty identity, as tagged with album `a1`. -/
def localTrack : SimplifiedTrack :=
  { Name := "Local file", ID := "", URI := "spotify:local:x", AlbumID := "a1",
    Artists := [{ ID := "art1" }] }

/-- The track `t1`, as tagged with album `a1`. -/
def oneTrack : SimplifiedTrack :=
  { Name := "One", ID := "t1", URI := "spotify:track:t1", AlbumID := "a1",
    Artists := [{ ID := "art1" }] }

/-- Interactions that belong to the catalog lookup: Redis reads and writes,
and GETs decoded as album listings or album tracks. Creating a playlist,
adding tracks and reading the tracks of a playlist are not among them. -/
def isCatalogEvent : Event → Bool
  | Event.redisGet _ => true
  | Event.redisSet _ _ _ => true
  | Event.apiGet Target.artistAlbums _ _ => true
  | Event.apiGet Target.albumTracks _ _ => true
  | _ => false

/-- The trace of `w1` is the trace of `w` followed by catalog interactions
only. -/
def catalogOnly (w w1 : World) : Prop :=
  ∃ events, w1.trace = w.trace ++ events ∧ ∀ e ∈ events, isCatalogEvent e = true

/-- A remote in which every artist has no album at all. -/
def noAlbumsEnv : Env :=
  { twoAlbumEnv with
    artistAlbums := fun _ _ => Except.ok { Items := [], Next := "" } }

/-- The Redis key under which the catalog of an artist is cached. -/
def cacheKey (artistID : String) : String := "artist_tracks:" ++ artistID

/-- The store of `w` has no usable entry for the artist at the time of the
next interaction: the entry is missing, or expired, or its data does not
decode into a track list. -/
def noUsableEntry (env : Env) (artistID : String) (w : World) : Prop :=
  match mapGet w.redis (cacheKey artistID) with
  | none => True
  | some entry =>
    entry.expiresAt ≤ env.clock w.trace.length ∨
      ∃ err, env.unmarshal entry.data = Except.error err

/-- The world `w` after one more interaction `e` that leaves the store alone. -/
def World.after (w : World) (e : Event) : World :=
  { redis := w.redis, trace := w.trace ++ [e] }

/-- From `w` to `w1` the store is unchanged and the trace grew by GET
requests only. -/
def readsOnly (w w1 : World) : Prop :=
  w1.redis = w.redis ∧
    ∃ events, w1.trace = w.trace ++ events ∧
      ∀ e ∈ events, ∃ target url token, e = Event.apiGet target url token

/-- The two-album remote with a codec that reads the cached data back as the
catalog of `art1`. -/
def codecEnv : Env :=
  { twoAlbumEnv with
    unmarshal := fun data =>
      if data = "cached" then Except.ok [track2020, track2019] else Except.error "bad json" }

/-- A remote whose album listing fails. -/
def listingFailsEnv : Env :=
  { twoAlbumEnv with artistAlbums := fun _ _ => Except.error "503" }

/-- A world whose store holds undecodable data for `art1`. -/
def corruptWorld : World :=
  { redis := [(cacheKey "art1", { data := "garbage", expiresAt := 1000 })], trace := [] }

/-- Three tracks of album `a1` that credit `art1`. -/
def heldTracks : List SimplifiedTrack :=
  [{ Name := "One", ID := "t1", URI := "spotify:track:t1", AlbumID := "a1",
     Artists := [{ ID := "art1" }] },
   { Name := "Two", ID := "t2", URI := "spotify:track:t2", AlbumID := "a1",
     Artists := [{ ID := "art1" }] },
   { Name := "Three", ID := "t3", URI := "spotify:track:t3", AlbumID := "a1",
     Artists := [{ ID := "art1" }] }]

/-- A remote in which the catalog of `art1` is `heldTracks` and every
playlist holds exactly these three tracks. -/
def fullPlaylistEnv : Env :=
  { twoAlbumEnv with
    artistAlbums := fun url _ =>
      if url = artistAlbumsURL "art1" then
        Except.ok { Items := [{ ID := "a1", ReleaseDate := "2021" }], Next := "" }
      else Except.error "404"
    albumTracks := fun url _ =>
      if url = albumTracksURL "a1" then Except.ok { Items := heldTracks, Next := "" }
      else Except.error "404"
    playlistTracks := fun _ _ =>
      Except.ok { Items := heldTracks.map (fun t => { Track := t }), Next := "" } }

/-- A request to complete playlist `p1` with the tracks of `art1`. -/
def modifyRequest : ModifyPlaylistRequest :=
  { PlaylistID := "p1", ArtistURL := "https://open.spotify.com/artist/art1" }

/-- The pages `pages` are the chain of pages that starts at `url`: every page
is the successful answer to the GET of the `next` cursor of the page before
it (of `url` for the first), a GET whose request can be built, and the `next`
of the last page is empty. -/
def pagesFrom {α : Type} (requestError : String → Option String)
    (fetch : String → String → Except String α) (next : α → String)
    (token : String) : String → List α → Prop
  | url, [] => url = ""
  | url, page :: rest =>
    url ≠ "" ∧ requestError url = none ∧ fetch url token = Except.ok page ∧
      pagesFrom requestError fetch next token (next page) rest

/-- The pages `pages` are read successfully from `url` on, and the GET that
follows them is made and fails with `err` (a non-success status or a body
that does not decode). -/
def pagesThenError {α : Type} (requestError : String → Option String)
    (fetch : String → String → Except String α)
    (next : α → String) (token : String) : String → List α → String → Prop
  | url, [], err => url ≠ "" ∧ requestError url = none ∧ fetch url token = Except.error err
  | url, page :: rest, err =>
    url ≠ "" ∧ requestError url = none ∧ fetch url token = Except.ok page ∧
      pagesThenError requestError fetch next token (next page) rest err

/-- The pages `pages` are read successfully from `url` on, and the request
for the URL that follows them cannot be built: `http.NewRequest` fails with
`err`. -/
def pagesThenRejected {α : Type} (requestError : String → Option String)
    (fetch : String → String → Except String α)
    (next : α → String) (token : String) : String → List α → String → Prop
  | url, [], err => url ≠ "" ∧ requestError url = some err
  | url, page :: rest, err =>
    url ≠ "" ∧ requestError url = none ∧ fetch url token = Except.ok page ∧
      pagesThenRejected requestError fetch next token (next page) rest err

/-- The URLs read to get `pages` starting at `url`, in order. -/
def pageURLs {α : Type} (next : α → String) : String → List α → List String
  | _, [] => []
  | url, page :: rest => url :: pageURLs next (next page) rest

/-- The URL reached after following `pages` from `url`. -/
def urlAfter {α : Type} (next : α → String) : String → List α → String
  | url, [] => url
  | _, page :: rest => urlAfter next (next page) rest

/-- The GET interactions for a list of URLs. -/
def getEvents (target : Target) (token : String) (urls : List String) : List Event :=
  urls.map (fun url => Event.apiGet target url token)

/-- A remote whose album listing of `art1` has two pages, the second of which
is missing in `brokenPagedEnv`. -/
def pagedEnv : Env :=
  { twoAlbumEnv with
    artistAlbums := fun url _ =>
      if url = artistAlbumsURL "art1" then
        Except.ok { Items := [{ ID := "a2020", ReleaseDate := "2020-01-01" }],
                    Next := "https://api.spotify.com/page2" }
      else if url = "https://api.spotify.com/page2" then
        Except.ok { Items := [{ ID := "a2019", ReleaseDate := "2019-05-01" }], Next := "" }
      else Except.error "404" }

/-- First page of the album listing of `art1` in `pagedEnv`. -/
def albumPage1 : ArtistAlbumsResponse :=
  { Items := [{ ID := "a2020", ReleaseDate := "2020-01-01" }],
    Next := "https://api.spotify.com/page2" }

/-- Second page of the album listing of `art1` in `pagedEnv`. -/
def albumPage2 : ArtistAlbumsResponse :=
  { Items := [{ ID := "a2019", ReleaseDate := "2019-05-01" }], Next := "" }

/-- The remote `pagedEnv` with the second page of the album listing failing. -/
def brokenPagedEnv : Env :=
  { twoAlbumEnv with
    artistAlbums := fun url _ =>
      if url = artistAlbumsURL "art1" then
        Except.ok { Items := [{ ID := "a2020", ReleaseDate := "2020-01-01" }],
                    Next := "https://api.spotify.com/page2" }
      else Except.error "500" }

/-- The two-album remote in which the tracks of album `a2020` cannot be
fetched, and album `a2019` holds, next to its track, a track that credits
`art1` and has the empty ID. -/
def oneAlbumFailsEnv : Env :=
  { twoAlbumEnv with
    albumTracks := fun url _ =>
      if url = albumTracksURL "a2019" then
        Except.ok { Items := [{ track2019 with AlbumID := "" },
                              { localTrack with AlbumID := "" }], Next := "" }
      else Except.error "500" }

/-- A remote for which no request can be built for the album listing of the
artist `100%`. -/
def rejectingEnv : Env :=
  { twoAlbumEnv with
    requestError := fun url =>
      if url = artistAlbumsURL "100%" then some "invalid URL escape" else none }

/-- A remote in which the albums `a1` and `a2` of `art1` share the track
`t1`; `a1` also holds a track that credits `art1` and has the empty ID, `a2`
also holds the track `t2`. -/
def overlapEnv : Env :=
  { twoAlbumEnv with
    artistAlbums := fun url _ =>
      if url = artistAlbumsURL "art1" then
        Except.ok { Items := [{ ID := "a1", ReleaseDate := "2021" },
                              { ID := "a2", ReleaseDate := "2022" }], Next := "" }
      else Except.error "404"
    albumTracks := fun url _ =>
      if url = albumTracksURL "a1" then
        Except.ok
          { Items := [{ Name := "Local file", ID := "", URI := "spotify:local:x", AlbumID := "",
                        Artists := [{ ID := "art1" }] },
                      { Name := "One", ID := "t1", URI := "spotify:track:t1", AlbumID := "",
                        Artists := [{ ID := "art1" }] }],
            Next := "" }
      else if url = albumTracksURL "a2" then
        Except.ok
          { Items := [{ Name := "One", ID := "t1", URI := "spotify:track:t1", AlbumID := "",
                        Artists := [{ ID := "art1" }] },
                      { Name := "Two", ID := "t2", URI := "spotify:track:t2", AlbumID := "",
                        Artists := [{ ID := "art1" }] }],
            Next := "" }
      else Except.error "404" }

/-- The track `t1` as last written to the catalog, tagged with album `a2`. -/
def sharedTrack : SimplifiedTrack :=
  { Name := "One", ID := "t1", URI := "spotify:track:t1", AlbumID := "a2",
    Artists := [{ ID := "art1" }] }

/-- The track `t2`, tagged with album `a2`. -/
def secondTrack : SimplifiedTrack :=
  { Name := "Two", ID := "t2", URI := "spotify:track:t2", AlbumID := "a2",
    Artists := [{ ID := "art1" }] }

/-! # Theorems -/

theorem addInBatches_unfold (env : Env) (playlistID token : String) (uris : List String)
    (i : Nat) (w : World) :
    addInBatches env playlistID token uris i w =
      if i < uris.length then
        match addTracksToPlaylist env playlistID
            ((uris.take (if i + batchSize > uris.length then uris.length
              else i + batchSize)).drop i) token w with
        | (some err, w1) => (some err, w1)
        | (none, w1) => addInBatches env playlistID token uris (i + batchSize) w1
      else (none, w) := by
  rw [addInBatches]

/-! ## The batching loop -/

theorem slice_eq_chunkAt (uris : List String) (k : Nat) (h : k * 100 < uris.length) :
    (uris.take (if k * 100 + 100 > uris.length then uris.length else k * 100 + 100)).drop
      (k * 100) = chunkAt uris k := by
  unfold chunkAt batchSize
  rw [List.drop_take]
  split
  · rw [List.take_of_length_le (Nat.le_of_eq (List.length_drop _ _)),
      List.take_of_length_le (by rw [List.length_drop]; omega)]
  · congr 1
    omega

theorem addInBatches_step (env : Env) (playlistID token : String) (uris : List String)
    (k : Nat) (w : World) (h : k * 100 < uris.length) :
    addInBatches env playlistID token uris (k * 100) w =
      match env.addTracks w.trace.length playlistID (chunkAt uris k) token with
      | some err =>
        (some err,
          { w with trace := w.trace ++ [Event.addTracks playlistID (chunkAt uris k) token] })
      | none =>
        addInBatches env playlistID token uris ((k + 1) * 100)
          { w with trace := w.trace ++ [Event.addTracks playlistID (chunkAt uris k) token] } := by
  rw [addInBatches_unfold, if_pos h]
  simp only [batchSize, slice_eq_chunkAt uris k h, addTracksToPlaylist]
  have e : k * 100 + 100 = (k + 1) * 100 := by ring
  rw [e]
  cases env.addTracks w.trace.length playlistID (chunkAt uris k) token <;> rfl

theorem addInBatches_done (env : Env) (playlistID token : String) (uris : List String)
    (i : Nat) (w : World) (h : uris.length ≤ i) :
    addInBatches env playlistID token uris i w = (none, w) := by
  rw [addInBatches_unfold, if_neg (by omega)]

theorem chunkEvents_succ (playlistID token : String) (uris : List String) (s d : Nat) :
    chunkEvents playlistID token uris s (d + 1) =
      Event.addTracks playlistID (chunkAt uris s) token ::
        chunkEvents playlistID token uris (s + 1) d := by
  unfold chunkEvents
  rw [List.range_succ_eq_map]
  simp only [List.map_cons, List.map_map, Nat.add_zero]
  congr 1
  apply List.map_congr_left
  intro j _
  simp only [Function.comp, Nat.succ_eq_add_one]
  congr 2
  omega

/-- The loop from chunk `s` on, when chunk `s + d` is the first that fails. -/
theorem addInBatches_first_failure (env : Env) (playlistID token : String)
    (uris : List String) (err : String) :
    ∀ (d s : Nat) (w : World), (s + d) * 100 < uris.length →
      (∀ j, j < d →
        env.addTracks (w.trace.length + j) playlistID (chunkAt uris (s + j)) token = none) →
      env.addTracks (w.trace.length + d) playlistID (chunkAt uris (s + d)) token = some err →
      addInBatches env playlistID token uris (s * 100) w =
        (some err,
          { w with trace := w.trace ++ chunkEvents playlistID token uris s (d + 1) }) := by
  intro d
  induction d with
  | zero =>
    intro s w hlt _ hfail
    rw [addInBatches_step env playlistID token uris s w (by simpa using hlt)]
    simp only [Nat.add_zero] at hfail
    rw [hfail]
    simp [chunkEvents, List.range_succ]
  | succ d ih =>
    intro s w hlt hok hfail
    have hs : s * 100 < uris.length := by
      have : s * 100 ≤ (s + (d + 1)) * 100 := Nat.mul_le_mul_right _ (by omega)
      omega
    rw [addInBatches_step env playlistID token uris s w hs]
    have h0 := hok 0 (by omega)
    simp only [Nat.add_zero] at h0
    rw [h0]
    simp only
    rw [ih (s + 1)]
    · rw [chunkEvents_succ playlistID token uris s (d + 1)]
      simp
    · have : s + 1 + d = s + (d + 1) := by omega
      rw [this]; exact hlt
    · intro j hj
      have := hok (j + 1) (by omega)
      simp only [List.length_append, List.length_singleton]
      have e1 : w.trace.length + 1 + j = w.trace.length + (j + 1) := by omega
      have e2 : s + 1 + j = s + (j + 1) := by omega
      rw [e1, e2]; exact this
    · simp only [List.length_append, List.length_singleton]
      have e1 : w.trace.length + 1 + d = w.trace.length + (d + 1) := by omega
      have e2 : s + 1 + d = s + (d + 1) := by omega
      rw [e1, e2]; exact hfail

/-- The loop from chunk `s` on, when the `d` chunks that remain all succeed. -/
theorem addInBatches_all_ok (env : Env) (playlistID token : String) (uris : List String) :
    ∀ (d s : Nat) (w : World), s + d = (uris.length + 99) / 100 →
      (∀ j, j < d →
        env.addTracks (w.trace.length + j) playlistID (chunkAt uris (s + j)) token = none) →
      addInBatches env playlistID token uris (s * 100) w =
        (none, { w with trace := w.trace ++ chunkEvents playlistID token uris s d }) := by
  intro d
  induction d with
  | zero =>
    intro s w hs _
    rw [addInBatches_done env playlistID token uris (s * 100) w (by omega)]
    simp [chunkEvents]
  | succ d ih =>
    intro s w hs hok
    rw [addInBatches_step env playlistID token uris s w (by omega)]
    have h0 := hok 0 (by omega)
    simp only [Nat.add_zero] at h0
    rw [h0]
    simp only
    rw [ih (s + 1) _ (by omega)]
    · rw [chunkEvents_succ playlistID token uris s d]
      simp
    · intro j hj
      have := hok (j + 1) (by omega)
      simp only [List.length_append, List.length_singleton]
      have e1 : w.trace.length + 1 + j = w.trace.length + (j + 1) := by omega
      have e2 : s + 1 + j = s + (j + 1) := by omega
      rw [e1, e2]; exact this

theorem chunkAt_length (uris : List String) (k : Nat) (h : k * 100 < uris.length) :
    1 ≤ (chunkAt uris k).length ∧ (chunkAt uris k).length ≤ 100 := by
  unfold chunkAt batchSize
  rw [List.length_take, List.length_drop]
  omega

theorem chunkAt_full (uris : List String) (k : Nat) (h : (k + 1) * 100 ≤ uris.length) :
    (chunkAt uris k).length = 100 := by
  unfold chunkAt batchSize
  rw [List.length_take, List.length_drop]
  omega

theorem chunks_flatten (uris : List String) (n : Nat) :
    ((List.range n).map (chunkAt uris)).flatten = uris.take (n * 100) := by
  induction n with
  | zero => simp
  | succ n ih =>
    rw [List.range_succ, List.map_append, List.flatten_append, ih]
    simp only [List.map_cons, List.map_nil, List.flatten_cons, List.flatten_nil,
      List.append_nil, chunkAt, batchSize]
    have e : (n + 1) * 100 = n * 100 + 100 := by ring
    rw [e, List.take_add]

theorem chunkEvents_eq_map (playlistID token : String) (uris : List String) (d : Nat) :
    chunkEvents playlistID token uris 0 d =
      ((List.range d).map (chunkAt uris)).map
        (fun batch => Event.addTracks playlistID batch token) := by
  unfold chunkEvents
  rw [List.map_map]
  apply List.map_congr_left
  intro j _
  simp

theorem urisSent_chunkEvents (playlistID token : String) (uris : List String) :
    ∀ (d s : Nat), (s + d) * 100 ≤ uris.length →
      urisSent (chunkEvents playlistID token uris s d) = d * 100 := by
  intro d
  induction d with
  | zero => intro s _; simp [chunkEvents, urisSent]
  | succ d ih =>
    intro s h
    rw [chunkEvents_succ, urisSent, ih (s + 1) (by
      have : s + 1 + d = s + (d + 1) := by omega
      rw [this]; exact h)]
    have hs : (s + 1) * 100 ≤ (s + (d + 1)) * 100 := Nat.mul_le_mul_right _ (by omega)
    rw [chunkAt_full uris s (by omega)]
    omega

/-- C3. When every add-tracks write issued for a list of `N` URIs succeeds,
the batching loop of `CreatePlaylist` and `ModifyPlaylist` makes exactly
`ceil(N/100)` add-tracks calls and nothing else, every call carries between 1
and 100 URIs, the batches concatenated in call order are the input list, and
both handlers end with their 200 answer carrying the count `N`. -/
theorem batching_issues_ceil_calls_in_order (env : Env) (playlistID token name : String)
    (uris : List String) (w : World)
    (hok : ∀ j, j < (uris.length + 99) / 100 →
      env.addTracks (w.trace.length + j) playlistID (chunkAt uris j) token = none) :
    ∃ batches : List (List String),
      addInBatches env playlistID token uris 0 w =
        (none, World.mk w.redis (w.trace ++
                  batches.map (fun batch => Event.addTracks playlistID batch token))) ∧
      batches.length = (uris.length + 99) / 100 ∧
      (∀ batch ∈ batches, 1 ≤ batch.length ∧ batch.length ≤ 100) ∧
      batches.flatten = uris ∧
      (createBatches env playlistID token name uris w).2 =
        (addInBatches env playlistID token uris 0 w).2 ∧
      (createBatches env playlistID token name uris w).1.status = 200 ∧
      ("count", JVal.num uris.length) ∈ (createBatches env playlistID token name uris w).1.body ∧
      (modifyBatches env playlistID token uris w).2 =
        (addInBatches env playlistID token uris 0 w).2 ∧
      (modifyBatches env playlistID token uris w).1.status = 200 ∧
      ("added_count", JVal.num uris.length) ∈
        (modifyBatches env playlistID token uris w).1.body := by
  have hrun := addInBatches_all_ok env playlistID token uris ((uris.length + 99) / 100) 0 w
    (by omega) (by
      intro j hj
      rw [Nat.zero_add]
      exact hok j hj)
  rw [Nat.zero_mul, chunkEvents_eq_map] at hrun
  refine ⟨(List.range ((uris.length + 99) / 100)).map (chunkAt uris), hrun, ?_, ?_, ?_, ?_⟩
  · simp
  · intro batch hb
    rw [List.mem_map] at hb
    obtain ⟨k, hk, rfl⟩ := hb
    rw [List.mem_range] at hk
    exact chunkAt_length uris k (by omega)
  · rw [chunks_flatten]
    exact List.take_of_length_le (by omega)
  · simp [createBatches, modifyBatches, hrun]

/-- C4 as stated fails: no function of the answer of `CreatePlaylist` gives
the number `k * 100` of tracks added before the first failed chunk `k`; a
failure at chunk 0 and a failure at chunk 1 are answered identically. -/
theorem create_error_result_does_not_identify_count :
    ¬ ∃ count : Response → Nat,
      ∀ (env : Env) (playlistID token name : String) (uris : List String) (w : World)
        (k : Nat) (err : String),
        k * 100 < uris.length →
        (∀ j, j < k →
          env.addTracks (w.trace.length + j) playlistID (chunkAt uris j) token = none) →
        env.addTracks (w.trace.length + k) playlistID (chunkAt uris k) token = some err →
        count (createBatches env playlistID token name uris w).1 = k * 100 := by
  rintro ⟨count, h⟩
  have hlen : manyURIs.length = 150 := by simp [manyURIs]
  have h0 := h (failingEnv 0) "p1" "tok" "Mix" manyURIs emptyWorld 0 "boom"
    (by rw [hlen]; decide) (by intro j hj; omega) (by simp [failingEnv, emptyWorld])
  have h1 := h (failingEnv 1) "p1" "tok" "Mix" manyURIs emptyWorld 1 "boom"
    (by rw [hlen]; decide)
    (by intro j hj; have : j = 0 := by omega
        subst this; simp [failingEnv, emptyWorld])
    (by simp [failingEnv, emptyWorld])
  have r0 := addInBatches_first_failure (failingEnv 0) "p1" "tok" manyURIs "boom" 0 0
    emptyWorld (by rw [hlen]; decide) (by intro j hj; omega)
    (by simp [failingEnv, emptyWorld])
  have r1 := addInBatches_first_failure (failingEnv 1) "p1" "tok" manyURIs "boom" 1 0
    emptyWorld (by rw [hlen]; decide)
    (by intro j hj; have : j = 0 := by omega
        subst this; simp [failingEnv, emptyWorld])
    (by simp [failingEnv, emptyWorld])
  rw [Nat.zero_mul] at r0 r1
  simp only [createBatches, r0] at h0
  simp only [createBatches, r1] at h1
  rw [h0] at h1
  omega

/-- C4, amended. When chunk `k` is the first add-tracks call that fails, with
error text `err`, `CreatePlaylist` answers 500 with the message
"Failed to add tracks: " followed by `err`, and `ModifyPlaylist` answers 500
with "Failed to add tracks to playlist: " followed by `err`; the answer holds
no count. The calls made are those of the chunks `0..k-1`, which carried
`k * 100` URIs in all, followed by the failed call of chunk `k`. -/
theorem batch_failure_answer (env : Env) (playlistID token name : String)
    (uris : List String) (w : World) (k : Nat) (err : String)
    (hk : k * 100 < uris.length)
    (hok : ∀ j, j < k →
      env.addTracks (w.trace.length + j) playlistID (chunkAt uris j) token = none)
    (hfail : env.addTracks (w.trace.length + k) playlistID (chunkAt uris k) token = some err) :
    (createBatches env playlistID token name uris w).1 =
        errorResponse 500 ("Failed to add tracks: " ++ err) ∧
      (modifyBatches env playlistID token uris w).1 =
        errorResponse 500 ("Failed to add tracks to playlist: " ++ err) ∧
      (createBatches env playlistID token name uris w).2.trace =
        w.trace ++ chunkEvents playlistID token uris 0 k ++
          [Event.addTracks playlistID (chunkAt uris k) token] ∧
      (modifyBatches env playlistID token uris w).2.trace =
        w.trace ++ chunkEvents playlistID token uris 0 k ++
          [Event.addTracks playlistID (chunkAt uris k) token] ∧
      urisSent (chunkEvents playlistID token uris 0 k) = k * 100 := by
  have hrun := addInBatches_first_failure env playlistID token uris err k 0 w
    (by rw [Nat.zero_add]; exact hk)
    (by intro j hj; rw [Nat.zero_add]; exact hok j hj)
    (by rw [Nat.zero_add]; exact hfail)
  rw [Nat.zero_mul] at hrun
  have hev : chunkEvents playlistID token uris 0 (k + 1) =
      chunkEvents playlistID token uris 0 k ++
        [Event.addTracks playlistID (chunkAt uris k) token] := by
    simp [chunkEvents, List.range_succ]
  refine ⟨?_, ?_, ?_, ?_, ?_⟩
  · simp [createBatches, hrun]
  · simp [modifyBatches, hrun]
  · simp [createBatches, hrun, hev]
  · simp [modifyBatches, hrun, hev]
  · exact urisSent_chunkEvents playlistID token uris k 0 (by omega)

/-- Witness of `batch_failure_answer`: 150 URIs, the second write fails. -/
theorem batch_failure_answer_witness :
    (createBatches (failingEnv 1) "p1" "tok" "Mix" manyURIs emptyWorld).1 =
        errorResponse 500 ("Failed to add tracks: " ++ "boom") ∧
      (modifyBatches (failingEnv 1) "p1" "tok" manyURIs emptyWorld).1 =
        errorResponse 500 ("Failed to add tracks to playlist: " ++ "boom") ∧
      (createBatches (failingEnv 1) "p1" "tok" "Mix" manyURIs emptyWorld).2.trace =
        emptyWorld.trace ++ chunkEvents "p1" "tok" manyURIs 0 1 ++
          [Event.addTracks "p1" (chunkAt manyURIs 1) "tok"] ∧
      (modifyBatches (failingEnv 1) "p1" "tok" manyURIs emptyWorld).2.trace =
        emptyWorld.trace ++ chunkEvents "p1" "tok" manyURIs 0 1 ++
          [Event.addTracks "p1" (chunkAt manyURIs 1) "tok"] ∧
      urisSent (chunkEvents "p1" "tok" manyURIs 0 1) = 1 * 100 :=
  batch_failure_answer (failingEnv 1) "p1" "tok" "Mix" manyURIs emptyWorld 1 "boom"
    (by simp [manyURIs])
    (by intro j hj; have : j = 0 := by omega
        subst this; simp [failingEnv, emptyWorld])
    (by simp [failingEnv, emptyWorld])

/-- Witness of `batching_issues_ceil_calls_in_order`: 150 URIs, every write
succeeds. -/
theorem batching_issues_ceil_calls_in_order_witness :
    ∃ batches : List (List String),
      addInBatches twoAlbumEnv "p1" "tok" manyURIs 0 emptyWorld =
        (none, World.mk emptyWorld.redis (emptyWorld.trace ++
                  batches.map (fun batch => Event.addTracks "p1" batch "tok"))) ∧
      batches.length = (manyURIs.length + 99) / 100 ∧
      (∀ batch ∈ batches, 1 ≤ batch.length ∧ batch.length ≤ 100) ∧
      batches.flatten = manyURIs ∧
      (createBatches twoAlbumEnv "p1" "tok" "Mix" manyURIs emptyWorld).2 =
        (addInBatches twoAlbumEnv "p1" "tok" manyURIs 0 emptyWorld).2 ∧
      (createBatches twoAlbumEnv "p1" "tok" "Mix" manyURIs emptyWorld).1.status = 200 ∧
      ("count", JVal.num manyURIs.length) ∈
        (createBatches twoAlbumEnv "p1" "tok" "Mix" manyURIs emptyWorld).1.body ∧
      (modifyBatches twoAlbumEnv "p1" "tok" manyURIs emptyWorld).2 =
        (addInBatches twoAlbumEnv "p1" "tok" manyURIs 0 emptyWorld).2 ∧
      (modifyBatches twoAlbumEnv "p1" "tok" manyURIs emptyWorld).1.status = 200 ∧
      ("added_count", JVal.num manyURIs.length) ∈
        (modifyBatches twoAlbumEnv "p1" "tok" manyURIs emptyWorld).1.body :=
  batching_issues_ceil_calls_in_order twoAlbumEnv "p1" "tok" "Mix" manyURIs emptyWorld
    (by intro j _; rfl)

/-- C5. When chunk `k` is the first add-tracks call that fails, the loop makes
exactly the calls for the chunks `0, 1, ..., k`, each once and in that order,
and nothing after the failed call; both handlers then answer 500 with only an
"error" entry in the body, not the 200 answer with a count. -/
theorem batch_failure_stops_at_first_failed_chunk (env : Env)
    (playlistID token name : String) (uris : List String) (w : World) (k : Nat)
    (err : String) (hk : k * 100 < uris.length)
    (hok : ∀ j, j < k →
      env.addTracks (w.trace.length + j) playlistID (chunkAt uris j) token = none)
    (hfail : env.addTracks (w.trace.length + k) playlistID (chunkAt uris k) token = some err) :
    addInBatches env playlistID token uris 0 w =
        (some err,
          World.mk w.redis (w.trace ++ (List.range (k + 1)).map
              (fun j => Event.addTracks playlistID (chunkAt uris j) token))) ∧
      (createBatches env playlistID token name uris w).2 =
        (addInBatches env playlistID token uris 0 w).2 ∧
      (modifyBatches env playlistID token uris w).2 =
        (addInBatches env playlistID token uris 0 w).2 ∧
      (createBatches env playlistID token name uris w).1.status = 500 ∧
      (createBatches env playlistID token name uris w).1.body.map Prod.fst = ["error"] ∧
      (modifyBatches env playlistID token uris w).1.status = 500 ∧
      (modifyBatches env playlistID token uris w).1.body.map Prod.fst = ["error"] := by
  have hrun := addInBatches_first_failure env playlistID token uris err k 0 w
    (by rw [Nat.zero_add]; exact hk)
    (by intro j hj; rw [Nat.zero_add]; exact hok j hj)
    (by rw [Nat.zero_add]; exact hfail)
  rw [Nat.zero_mul] at hrun
  have hev : chunkEvents playlistID token uris 0 (k + 1) =
      (List.range (k + 1)).map
        (fun j => Event.addTracks playlistID (chunkAt uris j) token) := by
    simp [chunkEvents]
  rw [hev] at hrun
  refine ⟨hrun, ?_, ?_, ?_, ?_, ?_, ?_⟩ <;>
    simp [createBatches, modifyBatches, hrun, errorResponse]

/-- Witness of `batch_failure_stops_at_first_failed_chunk`: 150 URIs, the
second write fails. -/
theorem batch_failure_stops_at_first_failed_chunk_witness :
    addInBatches (failingEnv 1) "p1" "tok" manyURIs 0 emptyWorld =
        (some "boom",
          World.mk emptyWorld.redis (emptyWorld.trace ++ (List.range (1 + 1)).map
              (fun j => Event.addTracks "p1" (chunkAt manyURIs j) "tok"))) ∧
      (createBatches (failingEnv 1) "p1" "tok" "Mix" manyURIs emptyWorld).2 =
        (addInBatches (failingEnv 1) "p1" "tok" manyURIs 0 emptyWorld).2 ∧
      (modifyBatches (failingEnv 1) "p1" "tok" manyURIs emptyWorld).2 =
        (addInBatches (failingEnv 1) "p1" "tok" manyURIs 0 emptyWorld).2 ∧
      (createBatches (failingEnv 1) "p1" "tok" "Mix" manyURIs emptyWorld).1.status = 500 ∧
      (createBatches (failingEnv 1) "p1" "tok" "Mix" manyURIs emptyWorld).1.body.map
        Prod.fst = ["error"] ∧
      (modifyBatches (failingEnv 1) "p1" "tok" manyURIs emptyWorld).1.status = 500 ∧
      (modifyBatches (failingEnv 1) "p1" "tok" manyURIs emptyWorld).1.body.map
        Prod.fst = ["error"] :=
  batch_failure_stops_at_first_failed_chunk (failingEnv 1) "p1" "tok" "Mix" manyURIs
    emptyWorld 1 "boom" (by simp [manyURIs])
    (by intro j hj; have : j = 0 := by omega
        subst this; simp [failingEnv, emptyWorld])
    (by simp [failingEnv, emptyWorld])

theorem addInBatches_single (env : Env) (playlistID token : String) (uris : List String)
    (w : World) (h0 : 0 < uris.length) (h1 : uris.length ≤ 100)
    (hok : env.addTracks w.trace.length playlistID uris token = none) :
    addInBatches env playlistID token uris 0 w =
      (none, World.mk w.redis (w.trace ++ [Event.addTracks playlistID uris token])) := by
  have hc : chunkAt uris 0 = uris := by
    unfold chunkAt batchSize
    simp only [Nat.zero_mul, List.drop_zero]
    exact List.take_of_length_le h1
  have hrun := addInBatches_all_ok env playlistID token uris 1 0 w (by omega) (by
    intro j hj
    have : j = 0 := by omega
    subst this
    simpa [hc] using hok)
  rw [Nat.zero_mul] at hrun
  rw [hrun]
  simp [chunkEvents, List.range_succ, hc]

/-! ## Ordering of the created playlist -/

theorem charsLt_asymm : ∀ a b : List Char, charsLt a b = true → charsLt b a = false
  | [], [], h => by simp [charsLt] at h
  | [], _ :: _, _ => by simp [charsLt]
  | _ :: _, [], h => by simp [charsLt] at h
  | a :: as, b :: bs, h => by
    unfold charsLt at h ⊢
    by_cases h1 : a.toNat < b.toNat
    · have h2 : ¬ b.toNat < a.toNat := by omega
      simp [h1, h2]
    · by_cases h2 : b.toNat < a.toNat
      · simp [h1, h2] at h
      · simp only [h1, h2, if_false] at h ⊢
        exact charsLt_asymm as bs h

theorem insertLeft_ne_nil {α : Type} (less : α → α → Bool) (x : α) (l : List α) :
    insertLeft less x l ≠ [] := by
  cases l with
  | nil => simp [insertLeft]
  | cons y ys =>
    unfold insertLeft
    split <;> simp

theorem insertLeft_head {α : Type} (less : α → α → Bool) (x : α) (l : List α) :
    ∀ z ∈ (insertLeft less x l).head?, z = x ∨ z ∈ l.head? := by
  cases l with
  | nil => simp [insertLeft]
  | cons y ys =>
    unfold insertLeft
    split <;> simp

/-- Held last-first, the sorted part stays ordered: no element is `less` than
the element placed before it. -/
theorem insertLeft_chain {α : Type} (less : α → α → Bool)
    (hasymm : ∀ a b, less a b = true → less b a = false) (x : α) :
    ∀ l : List α, List.Chain' (fun later earlier => less later earlier = false) l →
      List.Chain' (fun later earlier => less later earlier = false) (insertLeft less x l)
  | [], _ => by simp [insertLeft]
  | y :: ys, h => by
    unfold insertLeft
    by_cases hxy : less x y = true
    · rw [if_pos hxy]
      have ih := insertLeft_chain less hasymm x ys h.tail
      apply List.Chain'.cons' ih
      intro z hz
      rcases insertLeft_head less x ys z hz with rfl | hz2
      · exact hasymm _ _ hxy
      · exact (List.chain'_cons'.mp h).1 z hz2
    · rw [if_neg hxy]
      apply List.Chain'.cons' h
      intro z hz
      simp only [List.head?_cons, Option.mem_def, Option.some.injEq] at hz
      subst hz
      simpa using hxy

theorem sortSlice_chain {α : Type} (less : α → α → Bool)
    (hasymm : ∀ a b, less a b = true → less b a = false) (data : List α) :
    List.Chain' (fun earlier later => less later earlier = false) (sortSlice less data) := by
  unfold sortSlice
  rw [List.chain'_reverse]
  have key : ∀ (l acc : List α),
      List.Chain' (fun later earlier => less later earlier = false) acc →
      List.Chain' (fun later earlier => less later earlier = false)
        (l.foldl (fun sorted x => insertLeft less x sorted) acc) := by
    intro l
    induction l with
    | nil => intro acc h; exact h
    | cons x xs ih =>
      intro acc h
      exact ih _ (insertLeft_chain less hasymm x acc h)
  exact key data [] List.chain'_nil

/-- For every catalog and every index, in the order given by
`sortTracksByDate` no entry has a release date smaller than the one after it,
so the list is newest first. (The property does not depend on the order among
equal dates, the one point where Go may differ above 12 elements.) -/
theorem sortTracksByDate_newest_first (tracks : List SimplifiedTrack)
    (albumReleaseDates : List (String × String)) :
    List.Chain' (fun earlier later => strLt earlier.ReleaseDate later.ReleaseDate = false)
      (sortTracksByDate tracks albumReleaseDates) := by
  unfold sortTracksByDate
  exact sortSlice_chain (fun (a b : TrackWithDate) => strGt a.ReleaseDate b.ReleaseDate)
    (fun a b h => charsLt_asymm b.ReleaseDate.data a.ReleaseDate.data h) _

/-- C1, the code at the scenario of the claim. With the albums dated
"2020-01-01" and "2019-05-01", one track each, the URI list of
`CreatePlaylist` is [2020 track, 2019 track] whichever way the catalog is
ordered, the reverse of the ascending order of the claim, and that is the
list the handler writes to the new playlist. -/
theorem createPlaylist_two_albums_newest_first :
    sortedURIs [track2020, track2019] twoAlbumDates =
        ["spotify:track:t2020", "spotify:track:t2019"] ∧
      sortedURIs [track2019, track2020] twoAlbumDates =
        ["spotify:track:t2020", "spotify:track:t2019"] ∧
      strLt "2019-05-01" "2020-01-01" = true ∧
      ∃ resp w,
        CreatePlaylist twoAlbumEnv (Locals.user someUser) (some mixRequest) 3 emptyWorld =
          some (resp, w) ∧
        resp.status = 200 ∧
        w.trace.getLast? =
          some (Event.addTracks "p1" ["spotify:track:t2020", "spotify:track:t2019"] "tok") := by
  refine ⟨by decide, by decide, by decide, ?_⟩
  obtain ⟨w1, h1⟩ : ∃ w1, getCachedArtistTracks twoAlbumEnv
      (extractArtistID mixRequest.ArtistURL) someUser.TOKEN 3 emptyWorld =
      some (Except.ok [track2020, track2019], w1) := ⟨_, rfl⟩
  obtain ⟨w2, h2⟩ : ∃ w2, getArtistAlbumsReleaseDates twoAlbumEnv
      (extractArtistID mixRequest.ArtistURL) someUser.TOKEN 3 w1 =
      some (Except.ok twoAlbumDates, w2) := ⟨_, rfl⟩
  have hu : ¬ (someUser.TOKEN = "" ∨ someUser.ID = "") := by decide
  have ha : ¬ extractArtistID mixRequest.ArtistURL = "" := by decide
  have hs : sortedURIs [track2020, track2019] twoAlbumDates =
      ["spotify:track:t2020", "spotify:track:t2019"] := by decide
  have hcp : twoAlbumEnv.createPlaylist someUser.ID mixRequest.Name someUser.TOKEN =
      Except.ok "p1" := rfl
  have hb := addInBatches_single twoAlbumEnv "p1" someUser.TOKEN
    ["spotify:track:t2020", "spotify:track:t2019"]
    (World.mk w2.redis
      (w2.trace ++ [Event.createPlaylist someUser.ID mixRequest.Name someUser.TOKEN]))
    (by decide) (by decide) rfl
  simp only [CreatePlaylist, if_neg hu, if_neg ha, h1, h2, hs, createPlaylist, hcp,
    createBatches, hb, List.length_cons, List.length_nil]
  refine ⟨_, _, rfl, rfl, ?_⟩
  simp [someUser]

/-! ## Go maps -/

theorem mapGet_mapSet {ν : Type} (m : List (String × ν)) (k : String) (v : ν) (k2 : String) :
    mapGet (mapSet m k v) k2 = if k = k2 then some v else mapGet m k2 := by
  induction m with
  | nil => simp [mapSet, mapGet]
  | cons kv rest ih =>
    obtain ⟨k0, v0⟩ := kv
    unfold mapSet
    by_cases h : k0 = k
    · subst h
      simp only [if_true, mapGet]
      by_cases h2 : k0 = k2 <;> simp [h2]
    · simp only [if_neg h, mapGet, ih]
      by_cases h2 : k0 = k2
      · subst h2
        have : ¬ k = k0 := fun e => h e.symm
        simp [this]
      · simp [h2]

theorem mapGet_existingTrackIDs_aux (E : List SimplifiedTrack) :
    ∀ (m : List (String × Unit)) (id : String),
      (mapGet (E.foldl (fun m pt => mapSet m pt.ID ()) m) id).isSome =
        ((mapGet m id).isSome || decide (id ∈ E.map (fun e => e.ID))) := by
  induction E with
  | nil => intro m id; simp
  | cons e rest ih =>
    intro m id
    rw [List.foldl_cons, ih, mapGet_mapSet]
    by_cases h : e.ID = id
    · simp [h]
    · have h2 : ¬ id = e.ID := fun e2 => h e2.symm
      simp [h, h2]

theorem mapGet_existingTrackIDs (E : List SimplifiedTrack) (id : String) :
    mapGet (existingTrackIDs E) id = none ↔ ∀ e ∈ E, e.ID ≠ id := by
  have h := mapGet_existingTrackIDs_aux E [] id
  unfold existingTrackIDs
  cases hg : mapGet (E.foldl (fun m pt => mapSet m pt.ID ()) []) id with
  | none =>
    rw [hg] at h
    simp only [Option.isSome_none, mapGet, Bool.false_or] at h
    have h3 : ¬ id ∈ E.map (fun e => e.ID) := by
      intro hm
      simp [hm] at h
    simp only [true_iff]
    intro e he heq
    exact h3 (List.mem_map.mpr ⟨e, he, heq⟩)
  | some u =>
    rw [hg] at h
    simp only [Option.isSome_some, mapGet, Option.isSome_none, Bool.false_or] at h
    have h3 : id ∈ E.map (fun e => e.ID) := by
      simpa using h.symm
    obtain ⟨e, he, heq⟩ := List.mem_map.mp h3
    simp only [false_iff, reduceCtorEq]
    intro hall
    exact hall e he heq

/-! ## The missing tracks of `ModifyPlaylist` -/

theorem missingTracks_foldl (E : List SimplifiedTrack) :
    ∀ (C : List SimplifiedTrack) (acc : List String × List String),
      C.foldl
        (fun acc t =>
          match mapGet (existingTrackIDs E) t.ID with
          | some _ => acc
          | none => (acc.1 ++ [t.URI], acc.2 ++ [t.Name])) acc =
        (acc.1 ++ (C.filter (fun t => (mapGet (existingTrackIDs E) t.ID).isNone)).map
            (fun t => t.URI),
         acc.2 ++ (C.filter (fun t => (mapGet (existingTrackIDs E) t.ID).isNone)).map
            (fun t => t.Name)) := by
  intro C
  induction C with
  | nil => intro acc; simp
  | cons t rest ih =>
    intro acc
    rw [List.foldl_cons, ih]
    cases h : mapGet (existingTrackIDs E) t.ID with
    | none => simp [List.filter_cons, h]
    | some u => simp [List.filter_cons, h]

/-- C2. For a catalog `C` with pairwise distinct identities and the tracks `E`
already in the playlist, the missing URIs and names of `ModifyPlaylist` are
those of a list `missing` of tracks that is `C` with entries left out (so in
catalog order, nothing from outside `C`), holds exactly the tracks of `C`
whose identity is the identity of no track of `E`, and holds each once. -/
theorem missingTracks_exact (C E : List SimplifiedTrack)
    (hC : (C.map (fun t => t.ID)).Nodup) :
    ∃ missing : List SimplifiedTrack,
      missingTracks C E = (missing.map (fun t => t.URI), missing.map (fun t => t.Name)) ∧
      missing.Sublist C ∧
      (∀ t, t ∈ missing ↔ (t ∈ C ∧ ∀ e ∈ E, e.ID ≠ t.ID)) ∧
      (∀ t ∈ missing, missing.count t = 1) := by
  refine ⟨C.filter (fun t => (mapGet (existingTrackIDs E) t.ID).isNone), ?_, ?_, ?_, ?_⟩
  · unfold missingTracks
    rw [missingTracks_foldl]
    simp
  · exact List.filter_sublist C
  · intro t
    rw [List.mem_filter, Option.isNone_iff_eq_none, mapGet_existingTrackIDs]
  · intro t ht
    have hnd : C.Nodup := List.Nodup.of_map _ hC
    exact List.count_eq_one_of_mem (hnd.filter _) ht

/-- Witness of `missingTracks_exact`: three catalog tracks, the second already
in the playlist. -/
theorem missingTracks_exact_witness :
    ∃ missing : List SimplifiedTrack,
      missingTracks threeTracks [track2020, threeTracks.getD 1 track2020] =
        (missing.map (fun t => t.URI), missing.map (fun t => t.Name)) ∧
      missing.Sublist threeTracks ∧
      (∀ t, t ∈ missing ↔
        (t ∈ threeTracks ∧ ∀ e ∈ [track2020, threeTracks.getD 1 track2020], e.ID ≠ t.ID)) ∧
      (∀ t ∈ missing, missing.count t = 1) :=
  missingTracks_exact threeTracks [track2020, threeTracks.getD 1 track2020] (by decide)

/-! ## `extractArtistID` -/

theorem extractArtistIDLoop_found (x : String) (t : List String) :
    ∀ (P Q : List String), (∀ seg ∈ P, seg ≠ "artist") →
      extractArtistIDLoop (Q ++ (P ++ "artist" :: x :: t)) (P ++ "artist" :: x :: t)
        Q.length = x := by
  intro P
  induction P with
  | nil =>
    intro Q _
    rw [List.nil_append]
    unfold extractArtistIDLoop
    have hlen : Q.length + 1 < (Q ++ "artist" :: x :: t).length := by
      simp only [List.length_append, List.length_cons]
      omega
    rw [if_pos ⟨rfl, hlen⟩, List.getD_append_right _ _ _ _ (by omega)]
    have e : Q.length + 1 - Q.length = 1 := by omega
    rw [e]
    rfl
  | cons p P ih =>
    intro Q hP
    have hp : p ≠ "artist" := hP p (List.mem_cons_self _ _)
    simp only [List.cons_append, extractArtistIDLoop]
    rw [if_neg (fun h => hp h.1)]
    have := ih (Q ++ [p]) (fun seg hseg => hP seg (List.mem_cons_of_mem _ hseg))
    simp only [List.append_assoc, List.singleton_append, List.length_append,
      List.length_singleton] at this
    exact this

theorem extractArtistIDLoop_absent :
    ∀ (rest Q : List String), (∀ P x t, rest ≠ P ++ "artist" :: x :: t) →
      extractArtistIDLoop (Q ++ rest) rest Q.length = "" := by
  intro rest
  induction rest with
  | nil => intro Q _; rfl
  | cons part rest ih =>
    intro Q hno
    unfold extractArtistIDLoop
    by_cases hc : part = "artist" ∧ Q.length + 1 < (Q ++ part :: rest).length
    · exfalso
      obtain ⟨hpart, hlen⟩ := hc
      cases rest with
      | nil =>
        simp only [List.length_append, List.length_cons, List.length_nil] at hlen
        omega
      | cons x t => exact hno [] x t (by rw [hpart]; rfl)
    · rw [if_neg hc]
      have := ih (Q ++ [part]) (fun P x t h => hno (part :: P) x t (by rw [h]; rfl))
      simp only [List.append_assoc, List.singleton_append, List.length_append,
        List.length_singleton] at this
      exact this

/-- A list of segments either has no "artist" segment with a successor, or
splits at the first "artist" segment, which then has a successor. -/
theorem first_artist_split :
    ∀ L : List String,
      (∀ P x t, L ≠ P ++ "artist" :: x :: t) ∨
        ∃ P x t, L = P ++ "artist" :: x :: t ∧ ∀ seg ∈ P, seg ≠ "artist"
  | [] => Or.inl (fun P x t h => by simp at h)
  | [p] => Or.inl (fun P x t h => by
      have := congrArg List.length h
      simp only [List.length_cons, List.length_nil, List.length_append] at this
      omega)
  | p :: q :: rest => by
    by_cases hp : p = "artist"
    · exact Or.inr ⟨[], q, rest, by rw [hp]; rfl, fun seg h => absurd h (List.not_mem_nil seg)⟩
    · rcases first_artist_split (q :: rest) with h | ⟨P, x, t, h1, h2⟩
      · left
        intro P x t hdec
        cases P with
        | nil =>
          simp only [List.nil_append, List.cons.injEq] at hdec
          exact hp hdec.1
        | cons p2 P2 =>
          simp only [List.cons_append, List.cons.injEq] at hdec
          exact h P2 x t hdec.2
      · right
        refine ⟨p :: P, x, t, by rw [h1]; rfl, ?_⟩
        intro seg hseg
        rcases List.mem_cons.mp hseg with h3 | h3
        · rw [h3]; exact hp
        · exact h2 seg h3

theorem extractArtistID_found (s x : String) (P t : List String)
    (h : stringsSplit s = P ++ "artist" :: x :: t) (hP : ∀ seg ∈ P, seg ≠ "artist") :
    extractArtistID s = x := by
  unfold extractArtistID
  simp only [h]
  exact extractArtistIDLoop_found x t P [] hP

theorem extractArtistID_absent (s : String)
    (h : ∀ P x t, stringsSplit s ≠ P ++ "artist" :: x :: t) :
    extractArtistID s = "" := by
  unfold extractArtistID
  exact extractArtistIDLoop_absent (stringsSplit s) [] h

theorem createBatches_status (env : Env) (playlistID token name : String)
    (uris : List String) (w : World) :
    (createBatches env playlistID token name uris w).1.status = 500 ∨
      (createBatches env playlistID token name uris w).1.status = 200 := by
  unfold createBatches
  rcases h : addInBatches env playlistID token uris 0 w with ⟨_ | err, w1⟩
  · right; rfl
  · left; rfl

theorem modifyBatches_status (env : Env) (playlistID token : String)
    (uris : List String) (w : World) :
    (modifyBatches env playlistID token uris w).1.status = 500 ∨
      (modifyBatches env playlistID token uris w).1.status = 200 := by
  unfold modifyBatches
  rcases h : addInBatches env playlistID token uris 0 w with ⟨_ | err, w1⟩
  · right; rfl
  · left; rfl

theorem createBatches_status_ne (env : Env) (playlistID token name : String)
    (uris : List String) (w : World) :
    (createBatches env playlistID token name uris w).1.status ≠ 400 := by
  rcases createBatches_status env playlistID token name uris w with h | h <;> rw [h] <;> decide

theorem modifyBatches_status_ne (env : Env) (playlistID token : String)
    (uris : List String) (w : World) :
    (modifyBatches env playlistID token uris w).1.status ≠ 400 := by
  rcases modifyBatches_status env playlistID token uris w with h | h <;> rw [h] <;> decide

/-- Past the artist check no answer of `CreatePlaylist` is the 400
"Invalid artist URL" answer. -/
theorem CreatePlaylist_not_invalid_of_artist (env : Env) (user : User)
    (req : CreatePlaylistRequest) (fuel : Nat) (w : World) (resp : Response) (w2 : World)
    (ha : extractArtistID req.ArtistURL ≠ "")
    (h : CreatePlaylist env (Locals.user user) (some req) fuel w = some (resp, w2)) :
    resp ≠ errorResponse 400 "Invalid artist URL" := by
  unfold CreatePlaylist at h
  simp only [if_neg ha] at h
  repeat' split at h
  all_goals first
    | exact Option.noConfusion h
    | (simp only [Option.some.injEq, Prod.mk.injEq] at h
       intro hc
       subst hc
       first
        | (obtain ⟨h1, _⟩ := h
           first
            | exact absurd h1 (by decide)
            | (have hst := congrArg Response.status h1
               simp [errorResponse] at hst))
        | (have hst := congrArg (fun p => p.1.status) h
           exact absurd hst (createBatches_status_ne _ _ _ _ _ _)))

/-- Past the artist check no answer of `ModifyPlaylist` is the 400
"Invalid artist URL" answer. -/
theorem ModifyPlaylist_not_invalid_of_artist (env : Env) (user : User)
    (req : ModifyPlaylistRequest) (fuel : Nat) (w : World) (resp : Response) (w2 : World)
    (ha : extractArtistID req.ArtistURL ≠ "")
    (h : ModifyPlaylist env (Locals.user user) (some req) fuel w = some (resp, w2)) :
    resp ≠ errorResponse 400 "Invalid artist URL" := by
  unfold ModifyPlaylist at h
  simp only [if_neg ha] at h
  repeat' split at h
  all_goals first
    | exact Option.noConfusion h
    | (simp only [Option.some.injEq, Prod.mk.injEq] at h
       intro hc
       subst hc
       first
        | (obtain ⟨h1, _⟩ := h
           first
            | exact absurd h1 (by decide)
            | (have hst := congrArg Response.status h1
               simp [errorResponse] at hst))
        | (have hst := congrArg (fun p => p.1.status) h
           exact absurd hst (modifyBatches_status_ne _ _ _ _ _)))

/-- C8 as stated fails for `ModifyPlaylist`: with the empty artist URL the
value of `extractArtistID` is empty, yet the answer to an authenticated request
with a playlist ID is 400 "playlist_id and artist_url are required", not
400 "Invalid artist URL". -/
theorem modify_empty_artist_url_is_answered_as_missing_field :
    ¬ ∀ (env : Env) (user : User) (playlistID s : String) (fuel : Nat) (w : World),
      user.TOKEN ≠ "" → playlistID ≠ "" →
      ((∃ w2, ModifyPlaylist env (Locals.user user)
          (some { PlaylistID := playlistID, ArtistURL := s }) fuel w =
        some (errorResponse 400 "Invalid artist URL", w2)) ↔ extractArtistID s = "") := by
  intro h
  have hrun : ModifyPlaylist twoAlbumEnv (Locals.user someUser)
      (some { PlaylistID := "p1", ArtistURL := "" }) 3 emptyWorld =
      some (errorResponse 400 "playlist_id and artist_url are required", emptyWorld) := rfl
  obtain ⟨w2, h2⟩ := (h twoAlbumEnv someUser "p1" "" 3 emptyWorld (by decide) (by decide)).mpr
    (by decide)
  rw [hrun] at h2
  simp only [Option.some.injEq, Prod.mk.injEq] at h2
  exact absurd h2.1 (by decide)

/-- C8, amended. For every string `s`: when the segments of `s` around "/" are
`P`, then "artist", then `x`, then `t`, with no segment of `P` equal to
"artist", `extractArtistID s` is `x`; when no "artist" segment has a successor
it is the empty string; one of the two is always the case. For an
authenticated request whose body binds, `CreatePlaylist` with artist URL `s`
answers 400 "Invalid artist URL" exactly when `extractArtistID s` is empty;
`ModifyPlaylist` answers so exactly when the playlist ID and `s` are non-empty
and `extractArtistID s` is empty, and answers
400 "playlist_id and artist_url are required" when the playlist ID or `s` is
empty. With either answer the store and the trace are untouched. -/
theorem extractArtistID_segment_and_guard (s : String) (env : Env) (user : User)
    (name playlistID : String) (fuel : Nat) (w : World)
    (hu : user.TOKEN ≠ "") :
    (∀ P x t, stringsSplit s = P ++ "artist" :: x :: t → (∀ seg ∈ P, seg ≠ "artist") →
        extractArtistID s = x) ∧
      ((∀ P x t, stringsSplit s ≠ P ++ "artist" :: x :: t) → extractArtistID s = "") ∧
      ((∀ P x t, stringsSplit s ≠ P ++ "artist" :: x :: t) ∨
        ∃ P x t, stringsSplit s = P ++ "artist" :: x :: t ∧ ∀ seg ∈ P, seg ≠ "artist") ∧
      (user.ID ≠ "" →
        ((∃ w2, CreatePlaylist env (Locals.user user)
            (some { Name := name, ArtistURL := s }) fuel w =
          some (errorResponse 400 "Invalid artist URL", w2)) ↔ extractArtistID s = "") ∧
        (extractArtistID s = "" →
          CreatePlaylist env (Locals.user user)
              (some { Name := name, ArtistURL := s }) fuel w =
            some (errorResponse 400 "Invalid artist URL", w))) ∧
      ((∃ w2, ModifyPlaylist env (Locals.user user)
            (some { PlaylistID := playlistID, ArtistURL := s }) fuel w =
          some (errorResponse 400 "Invalid artist URL", w2)) ↔
        (playlistID ≠ "" ∧ s ≠ "" ∧ extractArtistID s = "")) ∧
      (playlistID ≠ "" → s ≠ "" → extractArtistID s = "" →
        ModifyPlaylist env (Locals.user user)
            (some { PlaylistID := playlistID, ArtistURL := s }) fuel w =
          some (errorResponse 400 "Invalid artist URL", w)) ∧
      ((playlistID = "" ∨ s = "") →
        ModifyPlaylist env (Locals.user user)
            (some { PlaylistID := playlistID, ArtistURL := s }) fuel w =
          some (errorResponse 400 "playlist_id and artist_url are required", w)) := by
  have hm : playlistID ≠ "" → s ≠ "" → extractArtistID s = "" →
      ModifyPlaylist env (Locals.user user)
          (some { PlaylistID := playlistID, ArtistURL := s }) fuel w =
        some (errorResponse 400 "Invalid artist URL", w) := by
    intro hp hs he
    have hp2 : ¬ (playlistID = "" ∨ s = "") := fun h => h.elim hp hs
    simp only [ModifyPlaylist, if_neg hu, if_neg hp2, he, if_true]
  have hreq : (playlistID = "" ∨ s = "") →
      ModifyPlaylist env (Locals.user user)
          (some { PlaylistID := playlistID, ArtistURL := s }) fuel w =
        some (errorResponse 400 "playlist_id and artist_url are required", w) := by
    intro hp
    simp only [ModifyPlaylist, if_neg hu, if_pos hp]
  refine ⟨fun P x t h hP => extractArtistID_found s x P t h hP,
    extractArtistID_absent s, first_artist_split (stringsSplit s), ?_, ?_, hm, hreq⟩
  · intro hid
    have hc : extractArtistID s = "" →
        CreatePlaylist env (Locals.user user) (some { Name := name, ArtistURL := s }) fuel w =
          some (errorResponse 400 "Invalid artist URL", w) := by
      intro he
      have hu2 : ¬ (user.TOKEN = "" ∨ user.ID = "") := fun h => h.elim hu hid
      simp only [CreatePlaylist, if_neg hu2, he, if_true]
    refine ⟨⟨?_, fun he => ⟨w, hc he⟩⟩, hc⟩
    rintro ⟨w2, h⟩
    by_contra ha
    exact CreatePlaylist_not_invalid_of_artist env user _ fuel w _ w2 ha h rfl
  · constructor
    · rintro ⟨w2, h⟩
      by_cases hp : playlistID = "" ∨ s = ""
      · rw [hreq hp] at h
        simp only [Option.some.injEq, Prod.mk.injEq] at h
        exact absurd h.1 (by decide)
      · have hp1 : playlistID ≠ "" := fun e => hp (Or.inl e)
        have hp2 : s ≠ "" := fun e => hp (Or.inr e)
        refine ⟨hp1, hp2, ?_⟩
        by_contra ha
        exact ModifyPlaylist_not_invalid_of_artist env user _ fuel w _ w2 ha h rfl
    · rintro ⟨hp, hs, he⟩
      exact ⟨w, hm hp hs he⟩

/-- Witness of `extractArtistID_segment_and_guard`: an album URL, and the
empty artist URL, sent by an authenticated user. -/
theorem extractArtistID_segment_and_guard_witness :
    extractArtistID albumURL = "" ∧
      CreatePlaylist twoAlbumEnv (Locals.user someUser)
          (some { Name := "Mix", ArtistURL := albumURL }) 3 emptyWorld =
        some (errorResponse 400 "Invalid artist URL", emptyWorld) ∧
      ModifyPlaylist twoAlbumEnv (Locals.user someUser)
          (some { PlaylistID := "p1", ArtistURL := albumURL }) 3 emptyWorld =
        some (errorResponse 400 "Invalid artist URL", emptyWorld) ∧
      ModifyPlaylist twoAlbumEnv (Locals.user someUser)
          (some { PlaylistID := "p1", ArtistURL := "" }) 3 emptyWorld =
        some (errorResponse 400 "playlist_id and artist_url are required", emptyWorld) :=
  have h := extractArtistID_segment_and_guard albumURL twoAlbumEnv someUser "Mix" "p1" 3
    emptyWorld (by decide)
  have h0 := extractArtistID_segment_and_guard "" twoAlbumEnv someUser "Mix" "p1" 3
    emptyWorld (by decide)
  ⟨by decide, (h.2.2.2.1 (by decide)).2 (by decide),
    h.2.2.2.2.2.1 (by decide) (by decide) (by decide),
    h0.2.2.2.2.2.2 (Or.inr rfl)⟩

/-! ## `strings.Split` on a URL -/

theorem splitChars_ne_nil (sep : Char) (cs : List Char) : splitChars sep cs ≠ [] := by
  cases cs with
  | nil => simp [splitChars]
  | cons c cs =>
    unfold splitChars
    split
    · simp
    · split <;> simp

theorem splitChars_cons (sep c : Char) (cs : List Char) :
    splitChars sep (c :: cs) =
      if c = sep then [] :: splitChars sep cs
      else
        match splitChars sep cs with
        | [] => [[c]]
        | seg :: rest => (c :: seg) :: rest := by
  rw [splitChars]

theorem splitChars_append_sep (sep : Char) (b : List Char) :
    ∀ a : List Char,
      splitChars sep (a ++ sep :: b) = splitChars sep a ++ splitChars sep b := by
  intro a
  induction a with
  | nil => simp [splitChars]
  | cons c a ih =>
    rw [List.cons_append, splitChars_cons, splitChars_cons, ih]
    by_cases hc : c = sep
    · simp only [if_pos hc, List.cons_append]
    · simp only [if_neg hc]
      cases hs : splitChars sep a with
      | nil => exact absurd hs (splitChars_ne_nil sep a)
      | cons seg rest => simp

theorem splitChars_append_of_not_mem (sep : Char) (b hd : List Char) (tl : List (List Char))
    (hb : splitChars sep b = hd :: tl) :
    ∀ a : List Char, sep ∉ a → splitChars sep (a ++ b) = (a ++ hd) :: tl := by
  intro a
  induction a with
  | nil => intro _; simpa using hb
  | cons c a ih =>
    intro hmem
    have hc : ¬ c = sep := fun h => hmem (by rw [h]; exact List.mem_cons_self _ _)
    have ha : sep ∉ a := fun h => hmem (List.mem_cons_of_mem _ h)
    rw [List.cons_append, splitChars_cons, if_neg hc, ih ha]
    rfl

/-- The segments of `pre/artist/id rest`, for an `id` without "/": those of
`pre`, then "artist", then `id` followed by the first segment of `rest`, then
the other segments of `rest`. -/
theorem stringsSplit_artist_url (pre id rest : String) (hid : '/' ∉ id.data) :
    stringsSplit (pre ++ "/artist/" ++ id ++ rest) =
      stringsSplit pre ++
        "artist" :: (id ++ (stringsSplit rest).headD "") :: (stringsSplit rest).tail := by
  unfold stringsSplit
  have hdata : (pre ++ "/artist/" ++ id ++ rest).data =
      pre.data ++ '/' :: ("artist".data ++ '/' :: (id.data ++ rest.data)) := by
    simp
  rw [hdata, splitChars_append_sep, splitChars_append_sep]
  have hart : splitChars '/' "artist".data = ["artist".data] := by decide
  rw [hart]
  cases hs : splitChars '/' rest.data with
  | nil => exact absurd hs (splitChars_ne_nil _ _)
  | cons hd tl =>
    rw [splitChars_append_of_not_mem '/' rest.data hd tl hs id.data hid]
    simp only [List.map_append, List.map_cons, List.map_nil, List.singleton_append,
      List.headD_cons, List.tail_cons]
    rfl

/-- C9 as stated fails: with a query string right after the identity, the
value of `extractArtistID` is the identity followed by the query string. -/
theorem extractArtistID_keeps_query_string :
    ¬ ∀ pre id rest : String,
      (∀ seg ∈ stringsSplit pre, seg ≠ "artist") →
      id ≠ "" →
      (∀ c ∈ id.data, c ≠ '/' ∧ c ≠ '?' ∧ c ≠ '#') →
      (rest = "" ∨ ∃ c tail, rest.data = c :: tail ∧ (c = '/' ∨ c = '?' ∨ c = '#')) →
      extractArtistID (pre ++ "/artist/" ++ id ++ rest) = id := by
  intro h
  have h1 := h "https://open.spotify.com" "abc" "?si=xyz" (by decide) (by decide)
    (by decide) (Or.inr ⟨'?', "si=xyz".data, rfl, Or.inr (Or.inl rfl)⟩)
  have h2 : extractArtistID ("https://open.spotify.com" ++ "/artist/" ++ "abc" ++ "?si=xyz") =
      "abc?si=xyz" := by decide
  rw [h2] at h1
  exact absurd h1 (by decide)

/-- C9, amended. For a URL `pre/artist/id rest` in which no segment of `pre`
is "artist" and `id` has no "/", `extractArtistID` returns `id` followed by
`rest` up to its first "/"; so it returns exactly `id` when `rest` is empty or
begins with "/", and `id` with the query string or fragment attached when
`rest` begins with "?" or "#". -/
theorem extractArtistID_of_artist_url (pre id rest : String)
    (hpre : ∀ seg ∈ stringsSplit pre, seg ≠ "artist") (hid : '/' ∉ id.data) :
    extractArtistID (pre ++ "/artist/" ++ id ++ rest) = id ++ (stringsSplit rest).headD "" ∧
      ((rest = "" ∨ ∃ tail, rest.data = '/' :: tail) →
        extractArtistID (pre ++ "/artist/" ++ id ++ rest) = id) := by
  have hmain : extractArtistID (pre ++ "/artist/" ++ id ++ rest) =
      id ++ (stringsSplit rest).headD "" :=
    extractArtistID_found _ _ (stringsSplit pre) (stringsSplit rest).tail
      (stringsSplit_artist_url pre id rest hid) hpre
  refine ⟨hmain, ?_⟩
  intro hrest
  rw [hmain]
  have hhead : (stringsSplit rest).headD "" = "" := by
    rcases hrest with h | ⟨tail, h⟩
    · subst h; rfl
    · unfold stringsSplit
      rw [h]
      simp [splitChars]
  rw [hhead]
  exact String.append_empty id

/-- Witness of `extractArtistID_of_artist_url`: an artist URL followed by a
path. -/
theorem extractArtistID_of_artist_url_witness :
    extractArtistID ("https://open.spotify.com" ++ "/artist/" ++ "abc" ++ "/albums") =
        "abc" ++ (stringsSplit "/albums").headD "" ∧
      (("/albums" = "" ∨ ∃ tail, "/albums".data = '/' :: tail) →
        extractArtistID ("https://open.spotify.com" ++ "/artist/" ++ "abc" ++ "/albums") =
          "abc") :=
  extractArtistID_of_artist_url "https://open.spotify.com" "abc" "/albums"
    (by decide) (by decide)

/-! ## The catalog: album tracks -/

theorem keepTrack_foldl_mem (albumID targetArtistID : String) :
    ∀ (items acc : List SimplifiedTrack) (t : SimplifiedTrack),
      t ∈ items.foldl (keepTrack albumID targetArtistID) acc →
      t ∈ acc ∨ (t.AlbumID = albumID ∧ containsArtist targetArtistID t.Artists = true ∧
        ∃ item ∈ items, t = { item with AlbumID := albumID }) := by
  intro items
  induction items with
  | nil => intro acc t h; exact Or.inl h
  | cons item items ih =>
    intro acc t h
    rw [List.foldl_cons] at h
    rcases ih _ t h with h1 | ⟨h1, h2, i2, hi2, h3⟩
    · unfold keepTrack at h1
      by_cases hc : containsArtist targetArtistID item.Artists = true
      · simp only [hc, if_true, List.mem_append, List.mem_singleton] at h1
        rcases h1 with h1 | h1
        · exact Or.inl h1
        · right
          subst h1
          exact ⟨rfl, hc, item, List.mem_cons_self _ _, rfl⟩
      · simp only [hc] at h1
        exact Or.inl h1
    · exact Or.inr ⟨h1, h2, i2, List.mem_cons_of_mem _ hi2, h3⟩

theorem keepTrack_foldl_mono (albumID targetArtistID : String) :
    ∀ (items acc : List SimplifiedTrack) (t : SimplifiedTrack),
      t ∈ acc → t ∈ items.foldl (keepTrack albumID targetArtistID) acc := by
  intro items
  induction items with
  | nil => intro acc t h; exact h
  | cons item items ih =>
    intro acc t h
    rw [List.foldl_cons]
    apply ih
    unfold keepTrack
    simp only
    split
    · exact List.mem_append_left _ h
    · exact h

/-- Every track that `getAlbumTracksWithAlbumID` adds to its result carries
the album identity and credits the target artist. -/
theorem getAlbumTracksWithAlbumIDLoop_mem (env : Env) (albumID token targetArtistID : String) :
    ∀ (fuel : Nat) (nextURL : String) (acc : List SimplifiedTrack) (w : World)
      (tracks : List SimplifiedTrack) (w1 : World),
      getAlbumTracksWithAlbumIDLoop env albumID token targetArtistID fuel nextURL acc w =
        some (Except.ok tracks, w1) →
      ∀ t ∈ tracks, t ∈ acc ∨
        (t.AlbumID = albumID ∧ containsArtist targetArtistID t.Artists = true) := by
  intro fuel
  induction fuel with
  | zero => intro nextURL acc w tracks w1 h; simp [getAlbumTracksWithAlbumIDLoop] at h
  | succ fuel ih =>
    intro nextURL acc w tracks w1 h t ht
    unfold getAlbumTracksWithAlbumIDLoop at h
    by_cases hn : nextURL = ""
    · simp only [hn, if_true, Option.some.injEq, Prod.mk.injEq, Except.ok.injEq] at h
      rw [← h.1] at ht
      exact Or.inl ht
    · simp only [hn, if_false, makeAPIRequest] at h
      cases hq : env.requestError nextURL with
      | some rerr => simp [hq] at h
      | none =>
        simp only [hq] at h
        cases hf : env.albumTracks nextURL token with
        | error err => simp [hf] at h
        | ok page =>
          simp only [hf] at h
          rcases ih _ _ _ _ _ h t ht with h1 | h1
          · rcases keepTrack_foldl_mem albumID targetArtistID _ _ t h1 with h2 | ⟨h2, h3, _⟩
            · exact Or.inl h2
            · exact Or.inr ⟨h2, h3⟩
          · exact Or.inr h1

theorem getAlbumTracksWithAlbumID_mem (env : Env) (albumID token targetArtistID : String)
    (fuel : Nat) (w : World) (tracks : List SimplifiedTrack) (w1 : World)
    (h : getAlbumTracksWithAlbumID env albumID token targetArtistID fuel w =
      some (Except.ok tracks, w1)) :
    ∀ t ∈ tracks, t.AlbumID = albumID ∧ containsArtist targetArtistID t.Artists = true := by
  intro t ht
  rcases getAlbumTracksWithAlbumIDLoop_mem env albumID token targetArtistID fuel _ [] w
    tracks w1 h t ht with h1 | h1
  · simp at h1
  · exact h1

theorem containsArtist_iff (targetArtistID : String) (artists : List TrackArtist) :
    containsArtist targetArtistID artists = true ↔ ∃ a ∈ artists, a.ID = targetArtistID := by
  induction artists with
  | nil => simp [containsArtist]
  | cons a rest ih =>
    unfold containsArtist
    by_cases h : a.ID = targetArtistID
    · simp [h]
    · simp [h, ih]

/-- The answer of `getAlbumTracksWithAlbumID` does not depend on the world it
starts from. -/
theorem getAlbumTracksWithAlbumIDLoop_world (env : Env)
    (albumID token targetArtistID : String) :
    ∀ (fuel : Nat) (nextURL : String) (acc : List SimplifiedTrack) (w w0 : World),
      (getAlbumTracksWithAlbumIDLoop env albumID token targetArtistID fuel nextURL acc w).map
          Prod.fst =
        (getAlbumTracksWithAlbumIDLoop env albumID token targetArtistID fuel nextURL acc
          w0).map Prod.fst := by
  intro fuel
  induction fuel with
  | zero => intro nextURL acc w w0; rfl
  | succ fuel ih =>
    intro nextURL acc w w0
    unfold getAlbumTracksWithAlbumIDLoop
    by_cases hn : nextURL = ""
    · simp [hn]
    · simp only [hn, if_false, makeAPIRequest]
      cases hq : env.requestError nextURL with
      | some rerr => simp
      | none =>
        simp only
        cases hf : env.albumTracks nextURL token with
        | error err => simp
        | ok page => exact ih _ _ _ _

/-! ## The catalog: merging by identity -/

theorem mem_mapSet {ν : Type} (m : List (String × ν)) (k : String) (v : ν)
    (kv : String × ν) (h : kv ∈ mapSet m k v) : kv = (k, v) ∨ kv ∈ m := by
  induction m with
  | nil => simp [mapSet] at h; exact Or.inl h
  | cons p rest ih =>
    obtain ⟨k0, v0⟩ := p
    unfold mapSet at h
    by_cases hk : k0 = k
    · simp only [if_pos hk, List.mem_cons] at h
      rcases h with h | h
      · exact Or.inl h
      · exact Or.inr (List.mem_cons_of_mem _ h)
    · simp only [if_neg hk, List.mem_cons] at h
      rcases h with h | h
      · exact Or.inr (by rw [h]; exact List.mem_cons_self _ _)
      · rcases ih h with h2 | h2
        · exact Or.inl h2
        · exact Or.inr (List.mem_cons_of_mem _ h2)

theorem mapSet_keys {ν : Type} (m : List (String × ν)) (k : String) (v : ν) :
    (mapSet m k v).map Prod.fst =
      if k ∈ m.map Prod.fst then m.map Prod.fst else m.map Prod.fst ++ [k] := by
  induction m with
  | nil => simp [mapSet]
  | cons p rest ih =>
    obtain ⟨k0, v0⟩ := p
    unfold mapSet
    by_cases hk : k0 = k
    · subst hk
      simp
    · have hk2 : ¬ k = k0 := fun e => hk e.symm
      simp only [if_neg hk, List.map_cons, ih, List.mem_cons, hk2, false_or]
      split <;> simp

theorem mapSet_keys_nodup {ν : Type} (m : List (String × ν)) (k : String) (v : ν)
    (h : (m.map Prod.fst).Nodup) : ((mapSet m k v).map Prod.fst).Nodup := by
  rw [mapSet_keys]
  split
  · exact h
  · rename_i hk
    exact List.Nodup.append h (List.nodup_singleton k) (by
      intro x hx hx2
      rw [List.mem_singleton] at hx2
      subst hx2
      exact hk hx)

theorem mapSet_keys_mem {ν : Type} (m : List (String × ν)) (k : String) (v : ν) :
    k ∈ (mapSet m k v).map Prod.fst := by
  rw [mapSet_keys]
  split
  · assumption
  · simp

theorem mapSet_keys_mono {ν : Type} (m : List (String × ν)) (k : String) (v : ν)
    (k2 : String) (h : k2 ∈ m.map Prod.fst) : k2 ∈ (mapSet m k v).map Prod.fst := by
  rw [mapSet_keys]
  split
  · exact h
  · exact List.mem_append_left _ h

/-- What merging a list of tracks does to the map `uniqueTracks`. -/
theorem mergeTrack_foldl (tracks : List SimplifiedTrack) :
    ∀ m : List (String × SimplifiedTrack),
      ((m.map Prod.fst).Nodup → ((tracks.foldl mergeTrack m).map Prod.fst).Nodup) ∧
      ((∀ kv ∈ m, kv.1 = kv.2.ID) → ∀ kv ∈ tracks.foldl mergeTrack m, kv.1 = kv.2.ID) ∧
      (∀ kv ∈ tracks.foldl mergeTrack m, kv ∈ m ∨ kv.2 ∈ tracks) ∧
      (∀ k ∈ m.map Prod.fst, k ∈ (tracks.foldl mergeTrack m).map Prod.fst) ∧
      (∀ t ∈ tracks, t.ID ≠ "" → t.ID ∈ (tracks.foldl mergeTrack m).map Prod.fst) := by
  induction tracks with
  | nil =>
    intro m
    exact ⟨fun h => h, fun h => h, fun kv h => Or.inl h, fun k h => h,
      fun t ht => absurd ht (List.not_mem_nil t)⟩
  | cons t rest ih =>
    intro m
    rw [List.foldl_cons]
    obtain ⟨i1, i2, i3, i4, i5⟩ := ih (mergeTrack m t)
    have hmem : ∀ kv ∈ mergeTrack m t, kv ∈ m ∨ kv = (t.ID, t) := by
      intro kv hkv
      unfold mergeTrack at hkv
      split at hkv
      · rcases mem_mapSet m t.ID t kv hkv with h | h
        · exact Or.inr h
        · exact Or.inl h
      · exact Or.inl hkv
    have hmono : ∀ k ∈ m.map Prod.fst, k ∈ (mergeTrack m t).map Prod.fst := by
      intro k hk
      unfold mergeTrack
      split
      · exact mapSet_keys_mono m t.ID t k hk
      · exact hk
    refine ⟨?_, ?_, ?_, ?_, ?_⟩
    · intro h
      apply i1
      unfold mergeTrack
      split
      · exact mapSet_keys_nodup m t.ID t h
      · exact h
    · intro h
      apply i2
      intro kv hkv
      rcases hmem kv hkv with h1 | h1
      · exact h kv h1
      · rw [h1]
    · intro kv hkv
      rcases i3 kv hkv with h1 | h1
      · rcases hmem kv h1 with h2 | h2
        · exact Or.inl h2
        · right
          rw [h2]
          exact List.mem_cons_self _ _
      · exact Or.inr (List.mem_cons_of_mem _ h1)
    · intro k hk
      exact i4 k (hmono k hk)
    · intro t2 ht2 hne
      rcases List.mem_cons.mp ht2 with h1 | h1
      · subst h1
        apply i4
        unfold mergeTrack
        rw [if_pos hne]
        exact mapSet_keys_mem m t2.ID t2
      · exact i5 t2 h1 hne

/-- What the loop over the albums does to the map `uniqueTracks`. -/
theorem mergeAlbums_spec (env : Env) (artistID token : String) (fuel : Nat) :
    ∀ (albumIDs : List String) (m : List (String × SimplifiedTrack)) (w : World)
      (m2 : List (String × SimplifiedTrack)) (w2 : World),
      mergeAlbums env artistID token fuel albumIDs m w = some (m2, w2) →
      ((m.map Prod.fst).Nodup → (m2.map Prod.fst).Nodup) ∧
      ((∀ kv ∈ m, kv.1 = kv.2.ID) → ∀ kv ∈ m2, kv.1 = kv.2.ID) ∧
      (∀ kv ∈ m2, kv ∈ m ∨ ∃ a ∈ albumIDs, ∃ w0 tracks w1,
        getAlbumTracksWithAlbumID env a token artistID fuel w0 = some (Except.ok tracks, w1) ∧
        kv.2 ∈ tracks) ∧
      (∀ k ∈ m.map Prod.fst, k ∈ m2.map Prod.fst) ∧
      (∀ a ∈ albumIDs, ∀ w0 tracks w1,
        getAlbumTracksWithAlbumID env a token artistID fuel w0 = some (Except.ok tracks, w1) →
        ∀ t ∈ tracks, t.ID ≠ "" → t.ID ∈ m2.map Prod.fst) := by
  intro albumIDs
  induction albumIDs with
  | nil =>
    intro m w m2 w2 h
    simp only [mergeAlbums, Option.some.injEq, Prod.mk.injEq] at h
    obtain ⟨rfl, _⟩ := h
    exact ⟨fun h => h, fun h => h, fun kv h => Or.inl h, fun k h => h,
      fun a ha => absurd ha (List.not_mem_nil a)⟩
  | cons a rest ih =>
    intro m w m2 w2 h
    unfold mergeAlbums at h
    cases hr : getAlbumTracksWithAlbumID env a token artistID fuel w with
    | none => simp [hr] at h
    | some r =>
      obtain ⟨res, w1⟩ := r
      cases res with
      | error err =>
        simp only [hr] at h
        obtain ⟨i1, i2, i3, i4, i5⟩ := ih m w1 m2 w2 h
        refine ⟨i1, i2, ?_, i4, ?_⟩
        · intro kv hkv
          rcases i3 kv hkv with h1 | ⟨a2, ha2, h2⟩
          · exact Or.inl h1
          · exact Or.inr ⟨a2, List.mem_cons_of_mem _ ha2, h2⟩
        · intro a2 ha2 w0 tracks w0b hget t ht hne
          rcases List.mem_cons.mp ha2 with h1 | h1
          · subst h1
            have hw := getAlbumTracksWithAlbumIDLoop_world env a2 token artistID fuel
              (albumTracksURL a2) [] w w0
            unfold getAlbumTracksWithAlbumID at hr hget
            rw [hr, hget] at hw
            simp at hw
          · exact i5 a2 h1 w0 tracks w0b hget t ht hne
      | ok tracks =>
        simp only [hr] at h
        obtain ⟨i1, i2, i3, i4, i5⟩ := ih (tracks.foldl mergeTrack m) w1 m2 w2 h
        obtain ⟨f1, f2, f3, f4, f5⟩ := mergeTrack_foldl tracks m
        refine ⟨fun hn => i1 (f1 hn), fun hk => i2 (f2 hk), ?_, fun k hk => i4 k (f4 k hk), ?_⟩
        · intro kv hkv
          rcases i3 kv hkv with h1 | ⟨a2, ha2, h2⟩
          · rcases f3 kv h1 with h3 | h3
            · exact Or.inl h3
            · exact Or.inr ⟨a, List.mem_cons_self _ _, w, tracks, w1, hr, h3⟩
          · exact Or.inr ⟨a2, List.mem_cons_of_mem _ ha2, h2⟩
        · intro a2 ha2 w0 tracks2 w0b hget t ht hne
          rcases List.mem_cons.mp ha2 with h1 | h1
          · subst h1
            have hw := getAlbumTracksWithAlbumIDLoop_world env a2 token artistID fuel
              (albumTracksURL a2) [] w w0
            unfold getAlbumTracksWithAlbumID at hr hget
            rw [hr, hget] at hw
            simp only [Option.map_some', Option.some.injEq, Except.ok.injEq] at hw
            subst hw
            exact i4 _ (f5 t ht hne)
          · exact i5 a2 h1 w0 tracks2 w0b hget t ht hne

theorem foldl_append_values (l : List (String × SimplifiedTrack)) :
    ∀ acc : List SimplifiedTrack,
      l.foldl (fun result kv => result ++ [kv.2]) acc = acc ++ l.map Prod.snd := by
  induction l with
  | nil => intro acc; simp
  | cons kv rest ih => intro acc; rw [List.foldl_cons, ih]; simp

/-- The parts of a successful run of `getAllArtistTracksWithAlbumID`: the
album listing, the merged map, and the result as the values of the map in
visiting order. -/
theorem getAllArtistTracksWithAlbumID_ok (env : Env) (artistID token : String) (fuel : Nat)
    (w : World) (result : List SimplifiedTrack) (w2 : World)
    (h : getAllArtistTracksWithAlbumID env artistID token fuel w =
      some (Except.ok result, w2)) :
    ∃ albumIDs w1 m,
      getArtistAlbumIDs env artistID token fuel w = some (Except.ok albumIDs, w1) ∧
      mergeAlbums env artistID token fuel albumIDs [] w1 = some (m, w2) ∧
      result = (env.range.visit m).map Prod.snd := by
  unfold getAllArtistTracksWithAlbumID at h
  cases h1 : getArtistAlbumIDs env artistID token fuel w with
  | none => simp [h1] at h
  | some r =>
    obtain ⟨res, w1⟩ := r
    cases res with
    | error err => simp [h1] at h
    | ok albumIDs =>
      simp only [h1] at h
      cases h2 : mergeAlbums env artistID token fuel albumIDs [] w1 with
      | none => simp [h2] at h
      | some r2 =>
        obtain ⟨m, w3⟩ := r2
        simp only [h2, Option.some.injEq, Prod.mk.injEq, Except.ok.injEq] at h
        obtain ⟨h3, h4⟩ := h
        subst h4
        refine ⟨albumIDs, w1, m, rfl, h2, ?_⟩
        rw [← h3, foldl_append_values]
        simp

theorem mergeTrack_keys_ne (m : List (String × SimplifiedTrack)) (t : SimplifiedTrack)
    (h : ∀ kv ∈ m, kv.1 ≠ "") : ∀ kv ∈ mergeTrack m t, kv.1 ≠ "" := by
  intro kv hkv
  unfold mergeTrack at hkv
  split at hkv
  · rename_i hne
    rcases mem_mapSet m t.ID t kv hkv with h1 | h1
    · rw [h1]; exact hne
    · exact h kv h1
  · exact h kv hkv

theorem mergeTrack_foldl_keys_ne (tracks : List SimplifiedTrack) :
    ∀ m : List (String × SimplifiedTrack), (∀ kv ∈ m, kv.1 ≠ "") →
      ∀ kv ∈ tracks.foldl mergeTrack m, kv.1 ≠ "" := by
  induction tracks with
  | nil => intro m h; exact h
  | cons t rest ih =>
    intro m h
    rw [List.foldl_cons]
    exact ih _ (mergeTrack_keys_ne m t h)

theorem mergeAlbums_keys_ne (env : Env) (artistID token : String) (fuel : Nat) :
    ∀ (albumIDs : List String) (m : List (String × SimplifiedTrack)) (w : World)
      (m2 : List (String × SimplifiedTrack)) (w2 : World),
      mergeAlbums env artistID token fuel albumIDs m w = some (m2, w2) →
      (∀ kv ∈ m, kv.1 ≠ "") → ∀ kv ∈ m2, kv.1 ≠ "" := by
  intro albumIDs
  induction albumIDs with
  | nil =>
    intro m w m2 w2 h hm
    simp only [mergeAlbums, Option.some.injEq, Prod.mk.injEq] at h
    rw [← h.1]
    exact hm
  | cons a rest ih =>
    intro m w m2 w2 h hm
    unfold mergeAlbums at h
    cases hr : getAlbumTracksWithAlbumID env a token artistID fuel w with
    | none => simp [hr] at h
    | some r =>
      obtain ⟨res, w1⟩ := r
      cases res with
      | error err =>
        simp only [hr] at h
        exact ih m w1 m2 w2 h hm
      | ok tracks =>
        simp only [hr] at h
        exact ih _ w1 m2 w2 h (mergeTrack_foldl_keys_ne tracks m hm)

/-- No entry of a built catalog has the empty ID. -/
theorem catalog_ids_nonempty (env : Env) (artistID token : String) (fuel : Nat)
    (w : World) (result : List SimplifiedTrack) (w2 : World)
    (h : getAllArtistTracksWithAlbumID env artistID token fuel w =
      some (Except.ok result, w2)) :
    ∀ r ∈ result, r.ID ≠ "" := by
  obtain ⟨albumIDs, w1, m, hal, hm, hres⟩ :=
    getAllArtistTracksWithAlbumID_ok env artistID token fuel w result w2 h
  obtain ⟨_, i2, _, _, _⟩ := mergeAlbums_spec env artistID token fuel albumIDs [] w1 m w2 hm
  have hkeys : ∀ kv ∈ m, kv.1 = kv.2.ID := i2 (fun kv hkv => absurd hkv (List.not_mem_nil kv))
  have hne := mergeAlbums_keys_ne env artistID token fuel albumIDs [] w1 m w2 hm
    (fun kv hkv => absurd hkv (List.not_mem_nil kv))
  intro r hr
  rw [hres] at hr
  obtain ⟨kv, hkv, hsnd⟩ := List.mem_map.mp hr
  have hkv2 : kv ∈ m := (env.range.perm m).mem_iff.mp hkv
  rw [← hsnd, ← hkeys kv hkv2]
  exact hne kv hkv2

/-- C6 as stated fails: a kept track with the empty identity is fetched from
the album but its identity is absent from the catalog. -/
theorem catalog_drops_empty_identity :
    ¬ ∀ (env : Env) (artistID token : String) (fuel : Nat) (w : World)
        (result : List SimplifiedTrack) (w2 : World),
      getAllArtistTracksWithAlbumID env artistID token fuel w = some (Except.ok result, w2) →
      (result.map (fun t => t.ID)).Nodup ∧
      ∀ albumIDs w1, getArtistAlbumIDs env artistID token fuel w =
          some (Except.ok albumIDs, w1) →
        ∀ a ∈ albumIDs, ∀ w0 tracks w3,
          getAlbumTracksWithAlbumID env a token artistID fuel w0 =
            some (Except.ok tracks, w3) →
          ∀ t ∈ tracks, ∃ r ∈ result, r.ID = t.ID := by
  intro h
  obtain ⟨w2, hrun⟩ : ∃ w2, getAllArtistTracksWithAlbumID emptyIDEnv "art1" "tok" 3 emptyWorld =
      some (Except.ok [oneTrack], w2) := ⟨_, rfl⟩
  obtain ⟨w1, hal⟩ : ∃ w1, getArtistAlbumIDs emptyIDEnv "art1" "tok" 3 emptyWorld =
      some (Except.ok ["a1"], w1) := ⟨_, rfl⟩
  obtain ⟨w3, htr⟩ : ∃ w3, getAlbumTracksWithAlbumID emptyIDEnv "a1" "tok" "art1" 3
      emptyWorld = some (Except.ok [localTrack, oneTrack], w3) := ⟨_, rfl⟩
  obtain ⟨r, hr, hid⟩ := (h _ _ _ _ _ _ _ hrun).2 _ _ hal "a1" (List.mem_cons_self _ _)
    _ _ _ htr localTrack (List.mem_cons_self _ _)
  simp only [List.mem_singleton] at hr
  subst hr
  exact absurd hid (by decide)

/-- C6, amended. In a catalog returned by `getAllArtistTracksWithAlbumID` no
two entries have the same ID, no entry has the empty ID (a kept track whose ID
is empty is left out), and every non-empty identity of a kept track of a
listed album whose tracks were fetched occurs in it. -/
theorem catalog_identities_unique (env : Env) (artistID token : String) (fuel : Nat)
    (w : World) (result : List SimplifiedTrack) (w2 : World)
    (h : getAllArtistTracksWithAlbumID env artistID token fuel w =
      some (Except.ok result, w2)) :
    (result.map (fun t => t.ID)).Nodup ∧
      (∀ r ∈ result, r.ID ≠ "") ∧
      ∀ albumIDs w1, getArtistAlbumIDs env artistID token fuel w =
          some (Except.ok albumIDs, w1) →
        ∀ a ∈ albumIDs, ∀ w0 tracks w3,
          getAlbumTracksWithAlbumID env a token artistID fuel w0 =
            some (Except.ok tracks, w3) →
          ∀ t ∈ tracks, t.ID ≠ "" → ∃ r ∈ result, r.ID = t.ID := by
  obtain ⟨albumIDs, w1, m, hal, hm, hres⟩ :=
    getAllArtistTracksWithAlbumID_ok env artistID token fuel w result w2 h
  obtain ⟨i1, i2, _, _, i5⟩ := mergeAlbums_spec env artistID token fuel albumIDs [] w1 m w2 hm
  have hkeys : ∀ kv ∈ m, kv.1 = kv.2.ID := i2 (fun kv hkv => absurd hkv (List.not_mem_nil kv))
  have hperm := env.range.perm m
  refine ⟨?_, catalog_ids_nonempty env artistID token fuel w result w2 h, ?_⟩
  · have e : result.map (fun t => t.ID) = (env.range.visit m).map Prod.fst := by
      rw [hres, List.map_map]
      apply List.map_congr_left
      intro kv hkv
      exact (hkeys kv (hperm.mem_iff.mp hkv)).symm
    rw [e]
    exact (hperm.map Prod.fst).nodup_iff.mpr (i1 List.nodup_nil)
  · intro albumIDs2 w1b hal2 a ha w0 tracks w3 hget t ht hne
    rw [hal] at hal2
    simp only [Option.some.injEq, Prod.mk.injEq, Except.ok.injEq] at hal2
    obtain ⟨rfl, _⟩ := hal2
    have hk := i5 a ha w0 tracks w3 hget t ht hne
    obtain ⟨kv, hkv, hfst⟩ := List.mem_map.mp hk
    refine ⟨kv.2, ?_, ?_⟩
    · rw [hres]
      exact List.mem_map.mpr ⟨kv, hperm.mem_iff.mpr hkv, rfl⟩
    · rw [← hkeys kv hkv, hfst]

/-- Witness of `catalog_identities_unique`: two albums that share the track
`t1`, the first of which also holds a kept track with the empty ID. -/
theorem catalog_identities_unique_witness :
    ∃ result w2,
      getAllArtistTracksWithAlbumID overlapEnv "art1" "tok" 3 emptyWorld =
        some (Except.ok result, w2) ∧
      result = [sharedTrack, secondTrack] ∧
      (result.map (fun t => t.ID)).Nodup ∧
      (∀ r ∈ result, r.ID ≠ "") ∧
      ∀ albumIDs w1, getArtistAlbumIDs overlapEnv "art1" "tok" 3 emptyWorld =
          some (Except.ok albumIDs, w1) →
        ∀ a ∈ albumIDs, ∀ w0 tracks w3,
          getAlbumTracksWithAlbumID overlapEnv a "tok" "art1" 3 w0 =
            some (Except.ok tracks, w3) →
          ∀ t ∈ tracks, t.ID ≠ "" → ∃ r ∈ result, r.ID = t.ID :=
  ⟨_, _, rfl, rfl,
    catalog_identities_unique overlapEnv "art1" "tok" 3 emptyWorld _ _ rfl⟩

/-- C7. Every track returned by `getAlbumTracksWithAlbumID` credits the
target artist and carries the identity of the album asked for; every track of
a catalog built by `getAllArtistTracksWithAlbumID` credits the target artist
and carries the identity of a listed album among whose fetched tracks it is. -/
theorem catalog_tracks_credit_artist_and_carry_album (env : Env)
    (artistID token : String) (fuel : Nat) (w : World) :
    (∀ albumID tracks w1,
        getAlbumTracksWithAlbumID env albumID token artistID fuel w =
          some (Except.ok tracks, w1) →
        ∀ t ∈ tracks, (∃ a ∈ t.Artists, a.ID = artistID) ∧ t.AlbumID = albumID) ∧
      (∀ result w2,
        getAllArtistTracksWithAlbumID env artistID token fuel w =
          some (Except.ok result, w2) →
        ∀ t ∈ result, (∃ a ∈ t.Artists, a.ID = artistID) ∧
          ∃ albumIDs w1, getArtistAlbumIDs env artistID token fuel w =
              some (Except.ok albumIDs, w1) ∧
            t.AlbumID ∈ albumIDs ∧
            ∃ w0 tracks w3,
              getAlbumTracksWithAlbumID env t.AlbumID token artistID fuel w0 =
                some (Except.ok tracks, w3) ∧
              t ∈ tracks) := by
  constructor
  · intro albumID tracks w1 h t ht
    obtain ⟨h1, h2⟩ := getAlbumTracksWithAlbumID_mem env albumID token artistID fuel w
      tracks w1 h t ht
    exact ⟨(containsArtist_iff artistID t.Artists).mp h2, h1⟩
  · intro result w2 h t ht
    obtain ⟨albumIDs, w1, m, hal, hm, hres⟩ :=
      getAllArtistTracksWithAlbumID_ok env artistID token fuel w result w2 h
    obtain ⟨_, _, i3, _, _⟩ := mergeAlbums_spec env artistID token fuel albumIDs [] w1 m w2 hm
    rw [hres] at ht
    obtain ⟨kv, hkv, hsnd⟩ := List.mem_map.mp ht
    have hkv2 : kv ∈ m := (env.range.perm m).mem_iff.mp hkv
    rcases i3 kv hkv2 with h1 | ⟨a, ha, w0, tracks, w3, hget, hin⟩
    · exact absurd h1 (List.not_mem_nil kv)
    · rw [hsnd] at hin
      obtain ⟨h1, h2⟩ := getAlbumTracksWithAlbumID_mem env a token artistID fuel w0
        tracks w3 hget t hin
      refine ⟨(containsArtist_iff artistID t.Artists).mp h2, albumIDs, w1, hal, ?_, w0,
        tracks, w3, ?_, hin⟩
      · rw [h1]; exact ha
      · rw [h1]; exact hget

/-- Witness of `catalog_tracks_credit_artist_and_carry_album`: the 2019 track
of the two-album artist. -/
theorem catalog_tracks_credit_artist_and_carry_album_witness :
    (∃ a ∈ track2019.Artists, a.ID = "art1") ∧
      ∃ albumIDs w1, getArtistAlbumIDs twoAlbumEnv "art1" "tok" 3 emptyWorld =
          some (Except.ok albumIDs, w1) ∧
        track2019.AlbumID ∈ albumIDs ∧
        ∃ w0 tracks w3,
          getAlbumTracksWithAlbumID twoAlbumEnv track2019.AlbumID "tok" "art1" 3 w0 =
            some (Except.ok tracks, w3) ∧
          track2019 ∈ tracks :=
  (catalog_tracks_credit_artist_and_carry_album twoAlbumEnv "art1" "tok" 3 emptyWorld).2
    [track2020, track2019] _ rfl track2019 (by decide)

/-! ## Interactions of the catalog lookup -/

theorem catalogOnly_refl (w : World) : catalogOnly w w := ⟨[], by simp, by simp⟩

theorem catalogOnly_trans {w w1 w2 : World} (h1 : catalogOnly w w1) (h2 : catalogOnly w1 w2) :
    catalogOnly w w2 := by
  obtain ⟨e1, t1, c1⟩ := h1
  obtain ⟨e2, t2, c2⟩ := h2
  refine ⟨e1 ++ e2, by rw [t2, t1, List.append_assoc], ?_⟩
  intro e he
  rcases List.mem_append.mp he with h | h
  · exact c1 e h
  · exact c2 e h

theorem catalogOnly_step (w : World) (redis : List (String × RedisEntry)) (e : Event)
    (he : isCatalogEvent e = true) :
    catalogOnly w { redis := redis, trace := w.trace ++ [e] } :=
  ⟨[e], rfl, by intro e2 h2; rw [List.mem_singleton] at h2; rw [h2]; exact he⟩

theorem getArtistAlbumIDsLoop_catalogOnly (env : Env) (token : String) :
    ∀ (fuel : Nat) (nextURL : String) (acc : List String) (w : World)
      (res : Except String (List String)) (w1 : World),
      getArtistAlbumIDsLoop env token fuel nextURL acc w = some (res, w1) →
      catalogOnly w w1 := by
  intro fuel
  induction fuel with
  | zero => intro nextURL acc w res w1 h; simp [getArtistAlbumIDsLoop] at h
  | succ fuel ih =>
    intro nextURL acc w res w1 h
    unfold getArtistAlbumIDsLoop at h
    by_cases hn : nextURL = ""
    · simp only [hn, if_true, Option.some.injEq, Prod.mk.injEq] at h
      rw [← h.2]
      exact catalogOnly_refl w
    · simp only [hn, if_false, makeAPIRequest] at h
      have hstep := catalogOnly_step w w.redis (Event.apiGet Target.artistAlbums nextURL token) rfl
      cases hq : env.requestError nextURL with
      | some rerr =>
        simp only [hq, Option.some.injEq, Prod.mk.injEq] at h
        rw [← h.2]
        exact catalogOnly_refl w
      | none =>
        simp only [hq] at h
        cases hf : env.artistAlbums nextURL token with
        | error err =>
          simp only [hf, Option.some.injEq, Prod.mk.injEq] at h
          rw [← h.2]
          exact hstep
        | ok page =>
          simp only [hf] at h
          exact catalogOnly_trans hstep (ih _ _ _ _ _ h)

theorem getAlbumTracksWithAlbumIDLoop_catalogOnly (env : Env)
    (albumID token targetArtistID : String) :
    ∀ (fuel : Nat) (nextURL : String) (acc : List SimplifiedTrack) (w : World)
      (res : Except String (List SimplifiedTrack)) (w1 : World),
      getAlbumTracksWithAlbumIDLoop env albumID token targetArtistID fuel nextURL acc w =
        some (res, w1) →
      catalogOnly w w1 := by
  intro fuel
  induction fuel with
  | zero => intro nextURL acc w res w1 h; simp [getAlbumTracksWithAlbumIDLoop] at h
  | succ fuel ih =>
    intro nextURL acc w res w1 h
    unfold getAlbumTracksWithAlbumIDLoop at h
    by_cases hn : nextURL = ""
    · simp only [hn, if_true, Option.some.injEq, Prod.mk.injEq] at h
      rw [← h.2]
      exact catalogOnly_refl w
    · simp only [hn, if_false, makeAPIRequest] at h
      have hstep := catalogOnly_step w w.redis (Event.apiGet Target.albumTracks nextURL token) rfl
      cases hq : env.requestError nextURL with
      | some rerr =>
        simp only [hq, Option.some.injEq, Prod.mk.injEq] at h
        rw [← h.2]
        exact catalogOnly_refl w
      | none =>
        simp only [hq] at h
        cases hf : env.albumTracks nextURL token with
        | error err =>
          simp only [hf, Option.some.injEq, Prod.mk.injEq] at h
          rw [← h.2]
          exact hstep
        | ok page =>
          simp only [hf] at h
          exact catalogOnly_trans hstep (ih _ _ _ _ _ h)

theorem mergeAlbums_catalogOnly (env : Env) (artistID token : String) (fuel : Nat) :
    ∀ (albumIDs : List String) (m : List (String × SimplifiedTrack)) (w : World)
      (m2 : List (String × SimplifiedTrack)) (w2 : World),
      mergeAlbums env artistID token fuel albumIDs m w = some (m2, w2) →
      catalogOnly w w2 := by
  intro albumIDs
  induction albumIDs with
  | nil =>
    intro m w m2 w2 h
    simp only [mergeAlbums, Option.some.injEq, Prod.mk.injEq] at h
    rw [← h.2]
    exact catalogOnly_refl w
  | cons a rest ih =>
    intro m w m2 w2 h
    unfold mergeAlbums at h
    cases hr : getAlbumTracksWithAlbumID env a token artistID fuel w with
    | none => simp [hr] at h
    | some r =>
      obtain ⟨res, w1⟩ := r
      have h1 := getAlbumTracksWithAlbumIDLoop_catalogOnly env a token artistID fuel _ _ _ _ _ hr
      cases res with
      | error err =>
        simp only [hr] at h
        exact catalogOnly_trans h1 (ih _ _ _ _ h)
      | ok tracks =>
        simp only [hr] at h
        exact catalogOnly_trans h1 (ih _ _ _ _ h)

theorem getAllArtistTracksWithAlbumID_catalogOnly (env : Env) (artistID token : String)
    (fuel : Nat) (w : World) (res : Except String (List SimplifiedTrack)) (w2 : World)
    (h : getAllArtistTracksWithAlbumID env artistID token fuel w = some (res, w2)) :
    catalogOnly w w2 := by
  unfold getAllArtistTracksWithAlbumID at h
  cases h1 : getArtistAlbumIDs env artistID token fuel w with
  | none => simp [h1] at h
  | some r =>
    obtain ⟨res1, w1⟩ := r
    have c1 := getArtistAlbumIDsLoop_catalogOnly env token fuel _ _ _ _ _ h1
    cases res1 with
    | error err =>
      simp only [h1, Option.some.injEq, Prod.mk.injEq] at h
      rw [← h.2]
      exact c1
    | ok albumIDs =>
      simp only [h1] at h
      cases h2 : mergeAlbums env artistID token fuel albumIDs [] w1 with
      | none => simp [h2] at h
      | some r2 =>
        obtain ⟨m, w3⟩ := r2
        simp only [h2, Option.some.injEq, Prod.mk.injEq] at h
        rw [← h.2]
        exact catalogOnly_trans c1 (mergeAlbums_catalogOnly env artistID token fuel _ _ _ _ _ h2)

theorem getCachedArtistTracks_catalogOnly (env : Env) (artistID token : String)
    (fuel : Nat) (w : World) (res : Except String (List SimplifiedTrack)) (w2 : World)
    (h : getCachedArtistTracks env artistID token fuel w = some (res, w2)) :
    catalogOnly w w2 := by
  unfold getCachedArtistTracks at h
  simp only [redisGet] at h
  have c0 := catalogOnly_step w w.redis (Event.redisGet ("artist_tracks:" ++ artistID)) rfl
  split at h
  · simp only [Option.some.injEq, Prod.mk.injEq] at h
    rw [← h.2]
    exact c0
  · split at h
    · simp at h
    · simp only [Option.some.injEq, Prod.mk.injEq] at h
      rename_i hget
      rw [← h.2]
      exact catalogOnly_trans c0 (getAllArtistTracksWithAlbumID_catalogOnly _ _ _ _ _ _ _ hget)
    · rename_i hget
      have c1 := getAllArtistTracksWithAlbumID_catalogOnly _ _ _ _ _ _ _ hget
      split at h
      · simp only [Option.some.injEq, Prod.mk.injEq] at h
        rw [← h.2]
        exact catalogOnly_trans (catalogOnly_trans c0 c1)
          (catalogOnly_step _ _ (Event.redisSet _ _ _) rfl)
      · simp only [Option.some.injEq, Prod.mk.injEq] at h
        rw [← h.2]
        exact catalogOnly_trans c0 c1

/-! ## Empty catalog -/

/-- C10. For an authenticated request with a valid artist URL (and, for
`ModifyPlaylist`, a playlist ID) whose catalog lookup, from the cache or from
a fresh build, gives zero tracks, `CreatePlaylist` and `ModifyPlaylist` both
answer 404 "No tracks found for this artist" and stop right after the lookup:
the interactions made are those of the lookup, none of which creates a
playlist, adds tracks or reads the tracks of a playlist. -/
theorem empty_catalog_is_not_found (env : Env) (user : User) (name playlistID s : String)
    (fuel : Nat) (w w1 : World)
    (hu : user.TOKEN ≠ "" ∧ user.ID ≠ "") (hp : playlistID ≠ "" ∧ s ≠ "")
    (ha : extractArtistID s ≠ "")
    (hcat : getCachedArtistTracks env (extractArtistID s) user.TOKEN fuel w =
      some (Except.ok [], w1)) :
    CreatePlaylist env (Locals.user user) (some { Name := name, ArtistURL := s }) fuel w =
        some (errorResponse 404 "No tracks found for this artist", w1) ∧
      ModifyPlaylist env (Locals.user user)
          (some { PlaylistID := playlistID, ArtistURL := s }) fuel w =
        some (errorResponse 404 "No tracks found for this artist", w1) ∧
      ∃ events, w1.trace = w.trace ++ events ∧
        ∀ e ∈ events,
          (∀ userID n token, e ≠ Event.createPlaylist userID n token) ∧
          (∀ pid uris token, e ≠ Event.addTracks pid uris token) ∧
          (∀ url token, e ≠ Event.apiGet Target.playlistTracks url token) := by
  have hu2 : ¬ (user.TOKEN = "" ∨ user.ID = "") := fun h => h.elim hu.1 hu.2
  have hp2 : ¬ (playlistID = "" ∨ s = "") := fun h => h.elim hp.1 hp.2
  refine ⟨?_, ?_, ?_⟩
  · simp only [CreatePlaylist, if_neg hu2, if_neg ha, hcat, List.length_nil, if_true]
  · simp only [ModifyPlaylist, if_neg hu.1, if_neg hp2, if_neg ha, hcat, List.length_nil,
      if_true]
  · obtain ⟨events, ht, hc⟩ := getCachedArtistTracks_catalogOnly env _ _ fuel w _ w1 hcat
    refine ⟨events, ht, ?_⟩
    intro e he
    have hce := hc e he
    refine ⟨?_, ?_, ?_⟩
    · intro userID n token heq
      rw [heq] at hce
      simp [isCatalogEvent] at hce
    · intro pid uris token heq
      rw [heq] at hce
      simp [isCatalogEvent] at hce
    · intro url token heq
      rw [heq] at hce
      simp [isCatalogEvent] at hce

/-- Witness of `empty_catalog_is_not_found`: an artist without albums. -/
theorem empty_catalog_is_not_found_witness :
    ∃ w1,
      getCachedArtistTracks noAlbumsEnv (extractArtistID mixRequest.ArtistURL)
          someUser.TOKEN 3 emptyWorld = some (Except.ok [], w1) ∧
      CreatePlaylist noAlbumsEnv (Locals.user someUser)
          (some { Name := "Mix", ArtistURL := mixRequest.ArtistURL }) 3 emptyWorld =
        some (errorResponse 404 "No tracks found for this artist", w1) ∧
      ModifyPlaylist noAlbumsEnv (Locals.user someUser)
          (some { PlaylistID := "p1", ArtistURL := mixRequest.ArtistURL }) 3 emptyWorld =
        some (errorResponse 404 "No tracks found for this artist", w1) :=
  ⟨_, rfl,
    (empty_catalog_is_not_found noAlbumsEnv someUser "Mix" "p1" mixRequest.ArtistURL 3
      emptyWorld _ (by decide) (by decide) (by decide) rfl).1,
    (empty_catalog_is_not_found noAlbumsEnv someUser "Mix" "p1" mixRequest.ArtistURL 3
      emptyWorld _ (by decide) (by decide) (by decide) rfl).2.1⟩

/-! ## Traversals only read -/

theorem readsOnly_refl (w : World) : readsOnly w w := ⟨rfl, [], by simp, by simp⟩

theorem readsOnly_trans {w w1 w2 : World} (h1 : readsOnly w w1) (h2 : readsOnly w1 w2) :
    readsOnly w w2 := by
  obtain ⟨r1, e1, t1, c1⟩ := h1
  obtain ⟨r2, e2, t2, c2⟩ := h2
  refine ⟨by rw [r2, r1], e1 ++ e2, by rw [t2, t1, List.append_assoc], ?_⟩
  intro e he
  rcases List.mem_append.mp he with h | h
  · exact c1 e h
  · exact c2 e h

theorem readsOnly_step (w : World) (target : Target) (url token : String) :
    readsOnly w { redis := w.redis, trace := w.trace ++ [Event.apiGet target url token] } :=
  ⟨rfl, [Event.apiGet target url token], rfl, by
    intro e he
    rw [List.mem_singleton] at he
    exact ⟨target, url, token, he⟩⟩

theorem getArtistAlbumIDsLoop_readsOnly (env : Env) (token : String) :
    ∀ (fuel : Nat) (nextURL : String) (acc : List String) (w : World)
      (res : Except String (List String)) (w1 : World),
      getArtistAlbumIDsLoop env token fuel nextURL acc w = some (res, w1) →
      readsOnly w w1 := by
  intro fuel
  induction fuel with
  | zero => intro nextURL acc w res w1 h; simp [getArtistAlbumIDsLoop] at h
  | succ fuel ih =>
    intro nextURL acc w res w1 h
    unfold getArtistAlbumIDsLoop at h
    by_cases hn : nextURL = ""
    · simp only [hn, if_true, Option.some.injEq, Prod.mk.injEq] at h
      rw [← h.2]
      exact readsOnly_refl w
    · simp only [hn, if_false, makeAPIRequest] at h
      have hstep := readsOnly_step w Target.artistAlbums nextURL token
      cases hq : env.requestError nextURL with
      | some rerr =>
        simp only [hq, Option.some.injEq, Prod.mk.injEq] at h
        rw [← h.2]
        exact readsOnly_refl w
      | none =>
        simp only [hq] at h
        cases hf : env.artistAlbums nextURL token with
        | error err =>
          simp only [hf, Option.some.injEq, Prod.mk.injEq] at h
          rw [← h.2]
          exact hstep
        | ok page =>
          simp only [hf] at h
          exact readsOnly_trans hstep (ih _ _ _ _ _ h)

theorem getAlbumTracksWithAlbumIDLoop_readsOnly (env : Env)
    (albumID token targetArtistID : String) :
    ∀ (fuel : Nat) (nextURL : String) (acc : List SimplifiedTrack) (w : World)
      (res : Except String (List SimplifiedTrack)) (w1 : World),
      getAlbumTracksWithAlbumIDLoop env albumID token targetArtistID fuel nextURL acc w =
        some (res, w1) →
      readsOnly w w1 := by
  intro fuel
  induction fuel with
  | zero => intro nextURL acc w res w1 h; simp [getAlbumTracksWithAlbumIDLoop] at h
  | succ fuel ih =>
    intro nextURL acc w res w1 h
    unfold getAlbumTracksWithAlbumIDLoop at h
    by_cases hn : nextURL = ""
    · simp only [hn, if_true, Option.some.injEq, Prod.mk.injEq] at h
      rw [← h.2]
      exact readsOnly_refl w
    · simp only [hn, if_false, makeAPIRequest] at h
      have hstep := readsOnly_step w Target.albumTracks nextURL token
      cases hq : env.requestError nextURL with
      | some rerr =>
        simp only [hq, Option.some.injEq, Prod.mk.injEq] at h
        rw [← h.2]
        exact readsOnly_refl w
      | none =>
        simp only [hq] at h
        cases hf : env.albumTracks nextURL token with
        | error err =>
          simp only [hf, Option.some.injEq, Prod.mk.injEq] at h
          rw [← h.2]
          exact hstep
        | ok page =>
          simp only [hf] at h
          exact readsOnly_trans hstep (ih _ _ _ _ _ h)

theorem getPlaylistTracksLoop_readsOnly (env : Env) (token : String) :
    ∀ (fuel : Nat) (nextURL : String) (acc : List SimplifiedTrack) (w : World)
      (res : Except String (List SimplifiedTrack)) (w1 : World),
      getPlaylistTracksLoop env token fuel nextURL acc w = some (res, w1) →
      readsOnly w w1 := by
  intro fuel
  induction fuel with
  | zero => intro nextURL acc w res w1 h; simp [getPlaylistTracksLoop] at h
  | succ fuel ih =>
    intro nextURL acc w res w1 h
    unfold getPlaylistTracksLoop at h
    by_cases hn : nextURL = ""
    · simp only [hn, if_true, Option.some.injEq, Prod.mk.injEq] at h
      rw [← h.2]
      exact readsOnly_refl w
    · simp only [hn, if_false, makeAPIRequest] at h
      have hstep := readsOnly_step w Target.playlistTracks nextURL token
      cases hq : env.requestError nextURL with
      | some rerr =>
        simp only [hq, Option.some.injEq, Prod.mk.injEq] at h
        rw [← h.2]
        exact readsOnly_refl w
      | none =>
        simp only [hq] at h
        cases hf : env.playlistTracks nextURL token with
        | error err =>
          simp only [hf, Option.some.injEq, Prod.mk.injEq] at h
          rw [← h.2]
          exact hstep
        | ok page =>
          simp only [hf] at h
          exact readsOnly_trans hstep (ih _ _ _ _ _ h)

theorem mergeAlbums_readsOnly (env : Env) (artistID token : String) (fuel : Nat) :
    ∀ (albumIDs : List String) (m : List (String × SimplifiedTrack)) (w : World)
      (m2 : List (String × SimplifiedTrack)) (w2 : World),
      mergeAlbums env artistID token fuel albumIDs m w = some (m2, w2) →
      readsOnly w w2 := by
  intro albumIDs
  induction albumIDs with
  | nil =>
    intro m w m2 w2 h
    simp only [mergeAlbums, Option.some.injEq, Prod.mk.injEq] at h
    rw [← h.2]
    exact readsOnly_refl w
  | cons a rest ih =>
    intro m w m2 w2 h
    unfold mergeAlbums at h
    cases hr : getAlbumTracksWithAlbumID env a token artistID fuel w with
    | none => simp [hr] at h
    | some r =>
      obtain ⟨res, w1⟩ := r
      have h1 := getAlbumTracksWithAlbumIDLoop_readsOnly env a token artistID fuel _ _ _ _ _ hr
      cases res with
      | error err =>
        simp only [hr] at h
        exact readsOnly_trans h1 (ih _ _ _ _ h)
      | ok tracks =>
        simp only [hr] at h
        exact readsOnly_trans h1 (ih _ _ _ _ h)

theorem getAllArtistTracksWithAlbumID_readsOnly (env : Env) (artistID token : String)
    (fuel : Nat) (w : World) (res : Except String (List SimplifiedTrack)) (w2 : World)
    (h : getAllArtistTracksWithAlbumID env artistID token fuel w = some (res, w2)) :
    readsOnly w w2 := by
  unfold getAllArtistTracksWithAlbumID at h
  cases h1 : getArtistAlbumIDs env artistID token fuel w with
  | none => simp [h1] at h
  | some r =>
    obtain ⟨res1, w1⟩ := r
    have c1 := getArtistAlbumIDsLoop_readsOnly env token fuel _ _ _ _ _ h1
    cases res1 with
    | error err =>
      simp only [h1, Option.some.injEq, Prod.mk.injEq] at h
      rw [← h.2]
      exact c1
    | ok albumIDs =>
      simp only [h1] at h
      cases h2 : mergeAlbums env artistID token fuel albumIDs [] w1 with
      | none => simp [h2] at h
      | some r2 =>
        obtain ⟨m, w3⟩ := r2
        simp only [h2, Option.some.injEq, Prod.mk.injEq] at h
        rw [← h.2]
        exact readsOnly_trans c1 (mergeAlbums_readsOnly env artistID token fuel _ _ _ _ _ h2)

/-! ## The catalog cache -/

theorem redisGet_of_noUsableEntry (env : Env) (artistID : String) (w : World)
    (h : noUsableEntry env artistID w) :
    (match (redisGet env (cacheKey artistID) w).1 with
      | some data =>
        match env.unmarshal data with
        | Except.ok tracks => some tracks
        | Except.error _ => none
      | none => none) = none := by
  unfold noUsableEntry at h
  unfold redisGet
  cases hg : mapGet w.redis (cacheKey artistID) with
  | none => simp
  | some entry =>
    rw [hg] at h
    simp only
    by_cases hlive : env.clock w.trace.length < entry.expiresAt
    · rcases h with h | ⟨err, h⟩
      · omega
      · simp [hlive, h]
    · simp [hlive]

/-- On a store without usable entry `getCachedArtistTracks` is the catalog
build followed, on success, by the write of the serialized result. -/
theorem getCachedArtistTracks_miss (env : Env) (artistID token : String) (fuel : Nat)
    (w : World) (h : noUsableEntry env artistID w) :
    getCachedArtistTracks env artistID token fuel w =
      match getAllArtistTracksWithAlbumID env artistID token fuel
          (w.after (Event.redisGet (cacheKey artistID))) with
      | none => none
      | some (Except.error err, w2) => some (Except.error err, w2)
      | some (Except.ok tracks, w2) =>
        match env.marshal tracks with
        | Except.ok data =>
          some (Except.ok tracks, redisSet env (cacheKey artistID) data (6 * timeHour) w2)
        | Except.error _ => some (Except.ok tracks, w2) := by
  have hm := redisGet_of_noUsableEntry env artistID w h
  unfold getCachedArtistTracks
  simp only [cacheKey] at hm ⊢
  have hw : (redisGet env ("artist_tracks:" ++ artistID) w).2 =
      w.after (Event.redisGet ("artist_tracks:" ++ artistID)) := rfl
  rw [← hw]
  generalize redisGet env ("artist_tracks:" ++ artistID) w = r at hm ⊢
  obtain ⟨result, w1⟩ := r
  simp only at hm ⊢
  rw [hm]

theorem mapGet_redisSet (env : Env) (key data : String) (ttl : Nat) (w : World) :
    mapGet (redisSet env key data ttl w).redis key =
      some { data := data, expiresAt := env.clock w.trace.length + ttl } := by
  unfold redisSet
  simp only [mapGet_mapSet, if_true]

/-- A live entry whose data decodes is returned after a single Redis read. -/
theorem getCachedArtistTracks_hit (env : Env) (artistID token : String) (fuel : Nat)
    (w : World) (entry : RedisEntry) (tracks : List SimplifiedTrack)
    (hentry : mapGet w.redis (cacheKey artistID) = some entry)
    (hlive : env.clock w.trace.length < entry.expiresAt)
    (hdec : env.unmarshal entry.data = Except.ok tracks) :
    getCachedArtistTracks env artistID token fuel w =
      some (Except.ok tracks, w.after (Event.redisGet (cacheKey artistID))) := by
  unfold getCachedArtistTracks redisGet
  simp only [cacheKey] at hentry ⊢
  simp only [hentry, if_pos hlive, hdec]
  rfl

/-- C14. When the store has no usable entry for the artist and the catalog
build fails with `err`, `getCachedArtistTracks` returns `err`; the store is
exactly as before, and the interactions made are the Redis read followed by
GET requests only: nothing is written or deleted. -/
theorem build_failure_leaves_cache_unchanged (env : Env) (artistID token : String)
    (fuel : Nat) (w : World) (err : String) (w2 : World)
    (hmiss : noUsableEntry env artistID w)
    (hbuild : getAllArtistTracksWithAlbumID env artistID token fuel
      (w.after (Event.redisGet (cacheKey artistID))) = some (Except.error err, w2)) :
    getCachedArtistTracks env artistID token fuel w = some (Except.error err, w2) ∧
      w2.redis = w.redis ∧
      ∃ events, w2.trace = w.trace ++ Event.redisGet (cacheKey artistID) :: events ∧
        ∀ e ∈ events, ∃ target url tok, e = Event.apiGet target url tok := by
  obtain ⟨hr, events, ht, he⟩ :=
    getAllArtistTracksWithAlbumID_readsOnly env artistID token fuel _ _ _ hbuild
  refine ⟨?_, hr, events, ?_, he⟩
  · rw [getCachedArtistTracks_miss env artistID token fuel w hmiss, hbuild]
  · rw [ht]
    simp [World.after]

/-- Witness of `build_failure_leaves_cache_unchanged`: an empty store and a
remote whose album listing fails. -/
theorem build_failure_leaves_cache_unchanged_witness :
    ∃ w2,
      getCachedArtistTracks listingFailsEnv "art1" "tok" 3 emptyWorld =
        some (Except.error "503", w2) ∧
      w2.redis = emptyWorld.redis :=
  ⟨_, (build_failure_leaves_cache_unchanged listingFailsEnv "art1" "tok" 3 emptyWorld "503" _
        trivial rfl).1,
      (build_failure_leaves_cache_unchanged listingFailsEnv "art1" "tok" 3 emptyWorld "503" _
        trivial rfl).2.1⟩

/-- C13. When the entry of the artist is missing, expired or does not decode,
`getCachedArtistTracks` runs the catalog build and returns exactly what the
build returns (no result when the build has none, the build error, or the
built tracks); when the build gives `tracks` and these serialize to `data`,
the world returned is the one after the write of `data` under the key of the
artist with a TTL of 6 hours, in which the entry of the artist is `data`,
expiring 6 hours after the time of the write. -/
theorem cache_miss_returns_build_result (env : Env) (artistID token : String) (fuel : Nat)
    (w : World) (hmiss : noUsableEntry env artistID w) :
    (getAllArtistTracksWithAlbumID env artistID token fuel
        (w.after (Event.redisGet (cacheKey artistID))) = none →
      getCachedArtistTracks env artistID token fuel w = none) ∧
    (∀ res w2,
      getAllArtistTracksWithAlbumID env artistID token fuel
        (w.after (Event.redisGet (cacheKey artistID))) = some (res, w2) →
      (∃ w3, getCachedArtistTracks env artistID token fuel w = some (res, w3)) ∧
      ∀ tracks data, res = Except.ok tracks → env.marshal tracks = Except.ok data →
        getCachedArtistTracks env artistID token fuel w =
          some (Except.ok tracks,
            redisSet env (cacheKey artistID) data (6 * timeHour) w2) ∧
        mapGet (redisSet env (cacheKey artistID) data (6 * timeHour) w2).redis
            (cacheKey artistID) =
          some { data := data, expiresAt := env.clock w2.trace.length + 6 * timeHour }) := by
  have hm := getCachedArtistTracks_miss env artistID token fuel w hmiss
  constructor
  · intro hnone
    rw [hm, hnone]
  · intro res w2 hb
    rw [hb] at hm
    constructor
    · cases res with
      | error err => exact ⟨w2, hm⟩
      | ok tracks =>
        simp only at hm
        cases hmar : env.marshal tracks with
        | ok data => rw [hmar] at hm; exact ⟨_, hm⟩
        | error e => rw [hmar] at hm; exact ⟨_, hm⟩
    · intro tracks data hres hmar
      subst hres
      simp only [hmar] at hm
      exact ⟨hm, mapGet_redisSet env _ _ _ w2⟩

/-- Witness of `cache_miss_returns_build_result`: undecodable data in the
store, the two-album remote. -/
theorem cache_miss_returns_build_result_witness :
    ∃ w2,
      getAllArtistTracksWithAlbumID twoAlbumEnv "art1" "tok" 3
        (corruptWorld.after (Event.redisGet (cacheKey "art1"))) =
          some (Except.ok [track2020, track2019], w2) ∧
      getCachedArtistTracks twoAlbumEnv "art1" "tok" 3 corruptWorld =
        some (Except.ok [track2020, track2019],
          redisSet twoAlbumEnv (cacheKey "art1") "cached" (6 * timeHour) w2) :=
  ⟨_, rfl,
    (((cache_miss_returns_build_result twoAlbumEnv "art1" "tok" 3 corruptWorld
      (Or.inr ⟨"bad json", rfl⟩)).2 _ _ rfl).2 [track2020, track2019] "cached" rfl rfl).1⟩

/-- C12. After a lookup that found no usable entry built `tracks`, serialized
them to `data` and stored them at time `T` (the time of the write), with a
codec that reads `data` back as `tracks`: in every later world whose entry
for the artist is still the stored one, a lookup before `T + 6h` returns
`tracks` unchanged after a single Redis read, with no remote read, and a
lookup after `T + 6h` finds no usable entry and returns what a new build
returns. -/
theorem cached_catalog_served_until_ttl (env : Env) (artistID token : String) (fuel : Nat)
    (w : World) (tracks : List SimplifiedTrack) (w2 : World) (data : String)
    (hmiss : noUsableEntry env artistID w)
    (hbuild : getAllArtistTracksWithAlbumID env artistID token fuel
      (w.after (Event.redisGet (cacheKey artistID))) = some (Except.ok tracks, w2))
    (hmar : env.marshal tracks = Except.ok data)
    (hround : env.unmarshal data = Except.ok tracks) :
    getCachedArtistTracks env artistID token fuel w =
        some (Except.ok tracks, redisSet env (cacheKey artistID) data (6 * timeHour) w2) ∧
      mapGet (redisSet env (cacheKey artistID) data (6 * timeHour) w2).redis
          (cacheKey artistID) =
        some { data := data, expiresAt := env.clock w2.trace.length + 6 * timeHour } ∧
      (∀ (later : World) (fuel2 : Nat),
        mapGet later.redis (cacheKey artistID) =
          some { data := data, expiresAt := env.clock w2.trace.length + 6 * timeHour } →
        env.clock later.trace.length < env.clock w2.trace.length + 6 * timeHour →
        getCachedArtistTracks env artistID token fuel2 later =
          some (Except.ok tracks, later.after (Event.redisGet (cacheKey artistID)))) ∧
      (∀ (later : World) (fuel2 : Nat),
        mapGet later.redis (cacheKey artistID) =
          some { data := data, expiresAt := env.clock w2.trace.length + 6 * timeHour } →
        env.clock w2.trace.length + 6 * timeHour < env.clock later.trace.length →
        noUsableEntry env artistID later ∧
        (getAllArtistTracksWithAlbumID env artistID token fuel2
            (later.after (Event.redisGet (cacheKey artistID))) = none →
          getCachedArtistTracks env artistID token fuel2 later = none) ∧
        ∀ res w3,
          getAllArtistTracksWithAlbumID env artistID token fuel2
            (later.after (Event.redisGet (cacheKey artistID))) = some (res, w3) →
          ∃ w4, getCachedArtistTracks env artistID token fuel2 later = some (res, w4)) := by
  have hm := getCachedArtistTracks_miss env artistID token fuel w hmiss
  rw [hbuild] at hm
  simp only [hmar] at hm
  refine ⟨hm, mapGet_redisSet env _ _ _ w2, ?_, ?_⟩
  · intro later fuel2 hentry hlive
    exact getCachedArtistTracks_hit env artistID token fuel2 later _ tracks hentry hlive hround
  · intro later fuel2 hentry hexp
    have hno : noUsableEntry env artistID later := by
      unfold noUsableEntry
      rw [hentry]
      exact Or.inl (Nat.le_of_lt hexp)
    have hm2 := getCachedArtistTracks_miss env artistID token fuel2 later hno
    refine ⟨hno, ?_, ?_⟩
    · intro hnone
      rw [hm2, hnone]
    · intro res w3 hb
      rw [hb] at hm2
      cases res with
      | error err => exact ⟨w3, hm2⟩
      | ok tracks2 =>
        simp only at hm2
        cases hmar2 : env.marshal tracks2 with
        | ok data2 => rw [hmar2] at hm2; exact ⟨_, hm2⟩
        | error e => rw [hmar2] at hm2; exact ⟨_, hm2⟩

/-- Witness of `cached_catalog_served_until_ttl`: the two-album artist looked
up twice in a row, first on an empty store. -/
theorem cached_catalog_served_until_ttl_witness :
    ∃ w1,
      getCachedArtistTracks codecEnv "art1" "tok" 3 emptyWorld =
        some (Except.ok [track2020, track2019], w1) ∧
      getCachedArtistTracks codecEnv "art1" "tok" 0 w1 =
        some (Except.ok [track2020, track2019],
          w1.after (Event.redisGet (cacheKey "art1"))) :=
  have h := cached_catalog_served_until_ttl codecEnv "art1" "tok" 3 emptyWorld
    [track2020, track2019] _ "cached" trivial rfl rfl rfl
  ⟨_, h.1, h.2.2.1 _ 0 h.2.1 (by decide)⟩

/-! ## `ModifyPlaylist`: nothing missing, something missing -/

theorem missingTracks_fst (C E : List SimplifiedTrack) :
    (missingTracks C E).1 =
      (C.filter (fun t => decide (∀ e ∈ E, e.ID ≠ t.ID))).map (fun t => t.URI) := by
  unfold missingTracks
  rw [missingTracks_foldl]
  simp only [List.nil_append]
  congr 1
  apply List.filter_congr
  intro t _
  by_cases h : ∀ e ∈ E, e.ID ≠ t.ID
  · rw [decide_eq_true h, (mapGet_existingTrackIDs E t.ID).mpr h]
    rfl
  · rw [decide_eq_false h]
    cases hg : mapGet (existingTrackIDs E) t.ID with
    | none => exact absurd ((mapGet_existingTrackIDs E t.ID).mp hg) h
    | some u => rfl

theorem getPlaylistTracks_readsOnly (env : Env) (playlistID token : String) (fuel : Nat)
    (w : World) (res : Except String (List SimplifiedTrack)) (w1 : World)
    (h : getPlaylistTracks env playlistID token fuel w = some (res, w1)) :
    readsOnly w w1 :=
  getPlaylistTracksLoop_readsOnly env token fuel _ _ _ _ _ h

/-- C11. For an authenticated `ModifyPlaylist` request with a valid artist
URL whose catalog lookup gives a non-empty catalog and whose playlist read
gives `playlistTracks`: when every identity of the catalog is the identity of
a playlist track, the answer is 200 with `added_count` 0 and no add-tracks
call is among the interactions made; when some catalog track is missing and
every write issued succeeds, the answer is 200 with `added_count` equal to
the number of catalog tracks whose identity is the identity of no playlist
track. -/
theorem modify_reports_missing_count (env : Env) (user : User) (playlistID s : String)
    (fuel : Nat) (w : World) (artistTracks : List SimplifiedTrack) (w1 : World)
    (playlistTracks : List SimplifiedTrack) (w2 : World)
    (hu : user.TOKEN ≠ "") (hp : playlistID ≠ "" ∧ s ≠ "")
    (ha : extractArtistID s ≠ "")
    (hcat : getCachedArtistTracks env (extractArtistID s) user.TOKEN fuel w =
      some (Except.ok artistTracks, w1))
    (hne : artistTracks ≠ [])
    (hpl : getPlaylistTracks env playlistID user.TOKEN fuel w1 =
      some (Except.ok playlistTracks, w2)) :
    ((∀ t ∈ artistTracks, ∃ e ∈ playlistTracks, e.ID = t.ID) →
      ModifyPlaylist env (Locals.user user)
          (some { PlaylistID := playlistID, ArtistURL := s }) fuel w =
        some ({ status := 200,
                body := [("message", JVal.str "All artist tracks are already in the playlist"),
                         ("added_count", JVal.num 0)] }, w2) ∧
      ∃ events, w2.trace = w.trace ++ events ∧
        ∀ e ∈ events, ∀ pid uris tok, e ≠ Event.addTracks pid uris tok) ∧
    ((∃ t ∈ artistTracks, ∀ e ∈ playlistTracks, e.ID ≠ t.ID) →
      (∀ j, j < ((missingTracks artistTracks playlistTracks).1.length + 99) / 100 →
        env.addTracks (w2.trace.length + j) playlistID
          (chunkAt (missingTracks artistTracks playlistTracks).1 j) user.TOKEN = none) →
      ∃ msg w3,
        ModifyPlaylist env (Locals.user user)
            (some { PlaylistID := playlistID, ArtistURL := s }) fuel w =
          some ({ status := 200,
                  body := [("message", JVal.str msg),
                           ("added_count", JVal.num
                             (artistTracks.filter
                               (fun t => decide (∀ e ∈ playlistTracks, e.ID ≠ t.ID))).length)] },
                w3)) := by
  have hp2 : ¬ (playlistID = "" ∨ s = "") := fun h => h.elim hp.1 hp.2
  have hlen : ¬ artistTracks.length = 0 := by
    intro h
    exact hne (List.length_eq_zero.mp h)
  have hrun : ModifyPlaylist env (Locals.user user)
      (some { PlaylistID := playlistID, ArtistURL := s }) fuel w =
      if (missingTracks artistTracks playlistTracks).1.length = 0 then
        some ({ status := 200,
                body := [("message", JVal.str "All artist tracks are already in the playlist"),
                         ("added_count", JVal.num 0)] }, w2)
      else
        some (modifyBatches env playlistID user.TOKEN
          (missingTracks artistTracks playlistTracks).1 w2) := by
    simp only [ModifyPlaylist, if_neg hu, if_neg hp2, if_neg ha, hcat, if_neg hlen, hpl]
  have hmlen : (missingTracks artistTracks playlistTracks).1.length =
      (artistTracks.filter (fun t => decide (∀ e ∈ playlistTracks, e.ID ≠ t.ID))).length := by
    rw [missingTracks_fst, List.length_map]
  constructor
  · intro hall
    have hnil : artistTracks.filter (fun t => decide (∀ e ∈ playlistTracks, e.ID ≠ t.ID)) =
        [] := by
      rw [List.filter_eq_nil_iff]
      intro t ht hd
      obtain ⟨e, he, heq⟩ := hall t ht
      exact (of_decide_eq_true hd) e he heq
    rw [hrun, if_pos (by rw [hmlen, hnil]; rfl)]
    refine ⟨rfl, ?_⟩
    obtain ⟨ev1, t1, c1⟩ := getCachedArtistTracks_catalogOnly env _ _ fuel w _ w1 hcat
    obtain ⟨_, ev2, t2, c2⟩ := getPlaylistTracks_readsOnly env _ _ fuel w1 _ w2 hpl
    refine ⟨ev1 ++ ev2, by rw [t2, t1, List.append_assoc], ?_⟩
    intro e he pid uris tok heq
    rcases List.mem_append.mp he with h | h
    · have := c1 e h
      rw [heq] at this
      simp [isCatalogEvent] at this
    · obtain ⟨target, url, token, h3⟩ := c2 e h
      rw [heq] at h3
      cases h3
  · rintro ⟨t, ht, hmissing⟩ hok
    have hpos : ¬ (missingTracks artistTracks playlistTracks).1.length = 0 := by
      rw [hmlen]
      intro h0
      have hnil := List.length_eq_zero.mp h0
      rw [List.filter_eq_nil_iff] at hnil
      exact hnil t ht (decide_eq_true hmissing)
    rw [hrun, if_neg hpos]
    have hall := addInBatches_all_ok env playlistID user.TOKEN
      (missingTracks artistTracks playlistTracks).1
      (((missingTracks artistTracks playlistTracks).1.length + 99) / 100) 0 w2 (by omega) (by
        intro j hj
        rw [Nat.zero_add]
        exact hok j hj)
    rw [Nat.zero_mul] at hall
    have hmb : modifyBatches env playlistID user.TOKEN
        (missingTracks artistTracks playlistTracks).1 w2 =
        ({ status := 200,
           body := [("message", JVal.str ("Added " ++
                       toString (missingTracks artistTracks playlistTracks).1.length ++
                       " missing artist tracks to playlist " ++ playlistID)),
                    ("added_count",
                      JVal.num (missingTracks artistTracks playlistTracks).1.length)] },
          World.mk w2.redis (w2.trace ++ chunkEvents playlistID user.TOKEN
            (missingTracks artistTracks playlistTracks).1 0
            (((missingTracks artistTracks playlistTracks).1.length + 99) / 100))) := by
      simp only [modifyBatches, hall]
    rw [hmb, hmlen]
    exact ⟨_, _, rfl⟩

/-- Witness of `modify_reports_missing_count`: a playlist that already holds
all three tracks of the catalog of the artist. -/
theorem modify_reports_missing_count_witness :
    ∃ w2,
      ModifyPlaylist fullPlaylistEnv (Locals.user someUser)
          (some { PlaylistID := "p1", ArtistURL := modifyRequest.ArtistURL }) 3 emptyWorld =
        some ({ status := 200,
                body := [("message", JVal.str "All artist tracks are already in the playlist"),
                         ("added_count", JVal.num 0)] }, w2) ∧
      ∃ events, w2.trace = emptyWorld.trace ++ events ∧
        ∀ e ∈ events, ∀ pid uris tok, e ≠ Event.addTracks pid uris tok :=
  ⟨_, (modify_reports_missing_count fullPlaylistEnv someUser "p1" modifyRequest.ArtistURL 3
        emptyWorld heldTracks _ heldTracks _ (by decide) (by decide) (by decide) rfl
        (by decide) rfl).1 (by decide)⟩

/-! ## Paginated traversals -/

theorem foldl_albumIDs (items : List SimplifiedAlbum) :
    ∀ acc : List String,
      items.foldl (fun ids album => ids ++ [album.ID]) acc =
        acc ++ items.map (fun album => album.ID) := by
  induction items with
  | nil => intro acc; simp
  | cons a rest ih => intro acc; rw [List.foldl_cons, ih]; simp

theorem foldl_keepTrack (albumID targetArtistID : String) (items : List SimplifiedTrack) :
    ∀ acc : List SimplifiedTrack,
      items.foldl (keepTrack albumID targetArtistID) acc =
        acc ++ (items.map (fun t => { t with AlbumID := albumID })).filter
          (fun t => containsArtist targetArtistID t.Artists) := by
  induction items with
  | nil => intro acc; simp
  | cons t rest ih =>
    intro acc
    rw [List.foldl_cons, ih]
    unfold keepTrack
    simp only [List.map_cons, List.filter_cons]
    split <;> simp

theorem foldl_playlistItems (items : List PlaylistItem) :
    ∀ acc : List SimplifiedTrack,
      items.foldl (fun acc item => if item.Track.ID ≠ "" then acc ++ [item.Track] else acc)
          acc =
        acc ++ (items.map (fun item => item.Track)).filter (fun t => decide (t.ID ≠ "")) := by
  induction items with
  | nil => intro acc; simp
  | cons t rest ih =>
    intro acc
    rw [List.foldl_cons, ih]
    simp only [List.map_cons, List.filter_cons]
    by_cases h : t.Track.ID = "" <;> simp [h]

/-- A traversal by `getArtistAlbumIDs` along a finite chain of pages. -/
theorem getArtistAlbumIDsLoop_pages (env : Env) (token : String) :
    ∀ (pages : List ArtistAlbumsResponse) (url : String) (acc : List String) (w : World)
      (fuel : Nat),
      pagesFrom env.requestError env.artistAlbums (fun p => p.Next) token url pages →
      pages.length < fuel →
      getArtistAlbumIDsLoop env token fuel url acc w =
        some (Except.ok
            (acc ++ (pages.map (fun p => p.Items.map (fun album => album.ID))).flatten),
          World.mk w.redis (w.trace ++
            getEvents Target.artistAlbums token (pageURLs (fun p => p.Next) url pages))) := by
  intro pages
  induction pages with
  | nil =>
    intro url acc w fuel h hf
    obtain ⟨f, rfl⟩ : ∃ f, fuel = f + 1 := ⟨fuel - 1, by simp at hf; omega⟩
    simp only [pagesFrom] at h
    simp [getArtistAlbumIDsLoop, h, pageURLs, getEvents]
  | cons p rest ih =>
    intro url acc w fuel h hf
    obtain ⟨f, rfl⟩ : ∃ f, fuel = f + 1 := ⟨fuel - 1, by simp at hf; omega⟩
    obtain ⟨hne, hreq, hfetch, hrest⟩ := h
    unfold getArtistAlbumIDsLoop
    simp only [if_neg hne, makeAPIRequest, hreq, hfetch]
    rw [ih _ _ _ f hrest (by simp at hf; omega), foldl_albumIDs]
    simp [pageURLs, getEvents]

/-- A traversal by `getArtistAlbumIDs` that meets a GET that fails. -/
theorem getArtistAlbumIDsLoop_error (env : Env) (token : String) (err : String) :
    ∀ (pages : List ArtistAlbumsResponse) (url : String) (acc : List String) (w : World)
      (fuel : Nat),
      pagesThenError env.requestError env.artistAlbums (fun p => p.Next) token url pages err →
      pages.length < fuel →
      getArtistAlbumIDsLoop env token fuel url acc w =
        some (Except.error err,
          World.mk w.redis (w.trace ++
            getEvents Target.artistAlbums token
              (pageURLs (fun p => p.Next) url pages ++
                [urlAfter (fun p => p.Next) url pages]))) := by
  intro pages
  induction pages with
  | nil =>
    intro url acc w fuel h hf
    obtain ⟨f, rfl⟩ : ∃ f, fuel = f + 1 := ⟨fuel - 1, by simp at hf; omega⟩
    obtain ⟨hne, hreq, hfetch⟩ := h
    simp [getArtistAlbumIDsLoop, hne, makeAPIRequest, hreq, hfetch, pageURLs, urlAfter, getEvents]
  | cons p rest ih =>
    intro url acc w fuel h hf
    obtain ⟨f, rfl⟩ : ∃ f, fuel = f + 1 := ⟨fuel - 1, by simp at hf; omega⟩
    obtain ⟨hne, hreq, hfetch, hrest⟩ := h
    unfold getArtistAlbumIDsLoop
    simp only [if_neg hne, makeAPIRequest, hreq, hfetch]
    rw [ih _ _ _ f hrest (by simp at hf; omega)]
    simp [pageURLs, urlAfter, getEvents]

/-- A traversal by `getArtistAlbumIDs` that meets a URL for which no request can be
built: nothing is sent for that URL. -/
theorem getArtistAlbumIDsLoop_rejected (env : Env) (token : String) (err : String) :
    ∀ (pages : List ArtistAlbumsResponse) (url : String) (acc : List String) (w : World)
      (fuel : Nat),
      pagesThenRejected env.requestError env.artistAlbums (fun p => p.Next) token url pages err →
      pages.length < fuel →
      getArtistAlbumIDsLoop env token fuel url acc w =
        some (Except.error err,
          World.mk w.redis (w.trace ++
            getEvents Target.artistAlbums token (pageURLs (fun p => p.Next) url pages))) := by
  intro pages
  induction pages with
  | nil =>
    intro url acc w fuel h hf
    obtain ⟨f, rfl⟩ : ∃ f, fuel = f + 1 := ⟨fuel - 1, by simp at hf; omega⟩
    obtain ⟨hne, hreq⟩ := h
    simp [getArtistAlbumIDsLoop, hne, makeAPIRequest, hreq, pageURLs, getEvents]
  | cons p rest ih =>
    intro url acc w fuel h hf
    obtain ⟨f, rfl⟩ : ∃ f, fuel = f + 1 := ⟨fuel - 1, by simp at hf; omega⟩
    obtain ⟨hne, hreq, hfetch, hrest⟩ := h
    unfold getArtistAlbumIDsLoop
    simp only [if_neg hne, makeAPIRequest, hreq, hfetch]
    rw [ih _ _ _ f hrest (by simp at hf; omega)]
    simp [pageURLs, getEvents]

/-- A traversal by `getAlbumTracksWithAlbumID` along a finite chain of pages. -/
theorem getAlbumTracksWithAlbumIDLoop_pages (env : Env) (albumID token targetArtistID : String) :
    ∀ (pages : List AlbumTracksResponse) (url : String) (acc : List SimplifiedTrack) (w : World)
      (fuel : Nat),
      pagesFrom env.requestError env.albumTracks (fun p => p.Next) token url pages →
      pages.length < fuel →
      getAlbumTracksWithAlbumIDLoop env albumID token targetArtistID fuel url acc w =
        some (Except.ok
            (acc ++ (pages.map (fun p => (p.Items.map (fun t => { t with AlbumID := albumID })).filter
              (fun t => containsArtist targetArtistID t.Artists))).flatten),
          World.mk w.redis (w.trace ++
            getEvents Target.albumTracks token (pageURLs (fun p => p.Next) url pages))) := by
  intro pages
  induction pages with
  | nil =>
    intro url acc w fuel h hf
    obtain ⟨f, rfl⟩ : ∃ f, fuel = f + 1 := ⟨fuel - 1, by simp at hf; omega⟩
    simp only [pagesFrom] at h
    simp [getAlbumTracksWithAlbumIDLoop, h, pageURLs, getEvents]
  | cons p rest ih =>
    intro url acc w fuel h hf
    obtain ⟨f, rfl⟩ : ∃ f, fuel = f + 1 := ⟨fuel - 1, by simp at hf; omega⟩
    obtain ⟨hne, hreq, hfetch, hrest⟩ := h
    unfold getAlbumTracksWithAlbumIDLoop
    simp only [if_neg hne, makeAPIRequest, hreq, hfetch]
    rw [ih _ _ _ f hrest (by simp at hf; omega), foldl_keepTrack]
    simp [pageURLs, getEvents]

/-- A traversal by `getAlbumTracksWithAlbumID` that meets a GET that fails. -/
theorem getAlbumTracksWithAlbumIDLoop_error (env : Env) (albumID token targetArtistID : String) (err : String) :
    ∀ (pages : List AlbumTracksResponse) (url : String) (acc : List SimplifiedTrack) (w : World)
      (fuel : Nat),
      pagesThenError env.requestError env.albumTracks (fun p => p.Next) token url pages err →
      pages.length < fuel →
      getAlbumTracksWithAlbumIDLoop env albumID token targetArtistID fuel url acc w =
        some (Except.error err,
          World.mk w.redis (w.trace ++
            getEvents Target.albumTracks token
              (pageURLs (fun p => p.Next) url pages ++
                [urlAfter (fun p => p.Next) url pages]))) := by
  intro pages
  induction pages with
  | nil =>
    intro url acc w fuel h hf
    obtain ⟨f, rfl⟩ : ∃ f, fuel = f + 1 := ⟨fuel - 1, by simp at hf; omega⟩
    obtain ⟨hne, hreq, hfetch⟩ := h
    simp [getAlbumTracksWithAlbumIDLoop, hne, makeAPIRequest, hreq, hfetch, pageURLs, urlAfter, getEvents]
  | cons p rest ih =>
    intro url acc w fuel h hf
    obtain ⟨f, rfl⟩ : ∃ f, fuel = f + 1 := ⟨fuel - 1, by simp at hf; omega⟩
    obtain ⟨hne, hreq, hfetch, hrest⟩ := h
    unfold getAlbumTracksWithAlbumIDLoop
    simp only [if_neg hne, makeAPIRequest, hreq, hfetch]
    rw [ih _ _ _ f hrest (by simp at hf; omega)]
    simp [pageURLs, urlAfter, getEvents]

/-- A traversal by `getAlbumTracksWithAlbumID` that meets a URL for which no request can be
built: nothing is sent for that URL. -/
theorem getAlbumTracksWithAlbumIDLoop_rejected (env : Env) (albumID token targetArtistID : String) (err : String) :
    ∀ (pages : List AlbumTracksResponse) (url : String) (acc : List SimplifiedTrack) (w : World)
      (fuel : Nat),
      pagesThenRejected env.requestError env.albumTracks (fun p => p.Next) token url pages err →
      pages.length < fuel →
      getAlbumTracksWithAlbumIDLoop env albumID token targetArtistID fuel url acc w =
        some (Except.error err,
          World.mk w.redis (w.trace ++
            getEvents Target.albumTracks token (pageURLs (fun p => p.Next) url pages))) := by
  intro pages
  induction pages with
  | nil =>
    intro url acc w fuel h hf
    obtain ⟨f, rfl⟩ : ∃ f, fuel = f + 1 := ⟨fuel - 1, by simp at hf; omega⟩
    obtain ⟨hne, hreq⟩ := h
    simp [getAlbumTracksWithAlbumIDLoop, hne, makeAPIRequest, hreq, pageURLs, getEvents]
  | cons p rest ih =>
    intro url acc w fuel h hf
    obtain ⟨f, rfl⟩ : ∃ f, fuel = f + 1 := ⟨fuel - 1, by simp at hf; omega⟩
    obtain ⟨hne, hreq, hfetch, hrest⟩ := h
    unfold getAlbumTracksWithAlbumIDLoop
    simp only [if_neg hne, makeAPIRequest, hreq, hfetch]
    rw [ih _ _ _ f hrest (by simp at hf; omega)]
    simp [pageURLs, getEvents]

/-- A traversal by `getPlaylistTracks` along a finite chain of pages. -/
theorem getPlaylistTracksLoop_pages (env : Env) (token : String) :
    ∀ (pages : List PlaylistTracksResponse) (url : String) (acc : List SimplifiedTrack) (w : World)
      (fuel : Nat),
      pagesFrom env.requestError env.playlistTracks (fun p => p.Next) token url pages →
      pages.length < fuel →
      getPlaylistTracksLoop env token fuel url acc w =
        some (Except.ok
            (acc ++ (pages.map (fun p => (p.Items.map (fun item => item.Track)).filter
              (fun t => decide (t.ID ≠ "")))).flatten),
          World.mk w.redis (w.trace ++
            getEvents Target.playlistTracks token (pageURLs (fun p => p.Next) url pages))) := by
  intro pages
  induction pages with
  | nil =>
    intro url acc w fuel h hf
    obtain ⟨f, rfl⟩ : ∃ f, fuel = f + 1 := ⟨fuel - 1, by simp at hf; omega⟩
    simp only [pagesFrom] at h
    simp [getPlaylistTracksLoop, h, pageURLs, getEvents]
  | cons p rest ih =>
    intro url acc w fuel h hf
    obtain ⟨f, rfl⟩ : ∃ f, fuel = f + 1 := ⟨fuel - 1, by simp at hf; omega⟩
    obtain ⟨hne, hreq, hfetch, hrest⟩ := h
    unfold getPlaylistTracksLoop
    simp only [if_neg hne, makeAPIRequest, hreq, hfetch]
    rw [ih _ _ _ f hrest (by simp at hf; omega), foldl_playlistItems]
    simp [pageURLs, getEvents]

/-- A traversal by `getPlaylistTracks` that meets a GET that fails. -/
theorem getPlaylistTracksLoop_error (env : Env) (token : String) (err : String) :
    ∀ (pages : List PlaylistTracksResponse) (url : String) (acc : List SimplifiedTrack) (w : World)
      (fuel : Nat),
      pagesThenError env.requestError env.playlistTracks (fun p => p.Next) token url pages err →
      pages.length < fuel →
      getPlaylistTracksLoop env token fuel url acc w =
        some (Except.error err,
          World.mk w.redis (w.trace ++
            getEvents Target.playlistTracks token
              (pageURLs (fun p => p.Next) url pages ++
                [urlAfter (fun p => p.Next) url pages]))) := by
  intro pages
  induction pages with
  | nil =>
    intro url acc w fuel h hf
    obtain ⟨f, rfl⟩ : ∃ f, fuel = f + 1 := ⟨fuel - 1, by simp at hf; omega⟩
    obtain ⟨hne, hreq, hfetch⟩ := h
    simp [getPlaylistTracksLoop, hne, makeAPIRequest, hreq, hfetch, pageURLs, urlAfter, getEvents]
  | cons p rest ih =>
    intro url acc w fuel h hf
    obtain ⟨f, rfl⟩ : ∃ f, fuel = f + 1 := ⟨fuel - 1, by simp at hf; omega⟩
    obtain ⟨hne, hreq, hfetch, hrest⟩ := h
    unfold getPlaylistTracksLoop
    simp only [if_neg hne, makeAPIRequest, hreq, hfetch]
    rw [ih _ _ _ f hrest (by simp at hf; omega)]
    simp [pageURLs, urlAfter, getEvents]

/-- A traversal by `getPlaylistTracks` that meets a URL for which no request can be
built: nothing is sent for that URL. -/
theorem getPlaylistTracksLoop_rejected (env : Env) (token : String) (err : String) :
    ∀ (pages : List PlaylistTracksResponse) (url : String) (acc : List SimplifiedTrack) (w : World)
      (fuel : Nat),
      pagesThenRejected env.requestError env.playlistTracks (fun p => p.Next) token url pages err →
      pages.length < fuel →
      getPlaylistTracksLoop env token fuel url acc w =
        some (Except.error err,
          World.mk w.redis (w.trace ++
            getEvents Target.playlistTracks token (pageURLs (fun p => p.Next) url pages))) := by
  intro pages
  induction pages with
  | nil =>
    intro url acc w fuel h hf
    obtain ⟨f, rfl⟩ : ∃ f, fuel = f + 1 := ⟨fuel - 1, by simp at hf; omega⟩
    obtain ⟨hne, hreq⟩ := h
    simp [getPlaylistTracksLoop, hne, makeAPIRequest, hreq, pageURLs, getEvents]
  | cons p rest ih =>
    intro url acc w fuel h hf
    obtain ⟨f, rfl⟩ : ∃ f, fuel = f + 1 := ⟨fuel - 1, by simp at hf; omega⟩
    obtain ⟨hne, hreq, hfetch, hrest⟩ := h
    unfold getPlaylistTracksLoop
    simp only [if_neg hne, makeAPIRequest, hreq, hfetch]
    rw [ih _ _ _ f hrest (by simp at hf; omega)]
    simp [pageURLs, getEvents]

/-- C16. For a remote, a start URL and a finite chain `pages` of pages from it
(each page the successful answer to the GET of the `next` of the one before,
the last with an empty `next`), with fuel for one step more than there are
pages: `getArtistAlbumIDs`, `getAlbumTracksWithAlbumID` and
`getPlaylistTracks` read exactly the URLs of the chain, once each and in
order, and return the items of the pages concatenated in that order (album
IDs; tracks tagged with the album and kept when they credit the artist;
tracks with a non-empty ID). When instead the GET after some pages is made and
fails with `err` (a non-success status or a body that does not decode), the
traversal returns `err`, and its reads are those of the pages before followed
by the one failed read, with nothing after it. When the request for the URL
after some pages cannot be built, the traversal returns that error and its
reads are those of the pages before only. -/
theorem traversals_follow_next_chain (env : Env) (token : String) (fuel : Nat) (w : World) :
    (∀ artistID pages,
      pagesFrom env.requestError env.artistAlbums (fun p => p.Next) token (artistAlbumsURL artistID)
        pages →
      pages.length < fuel →
      getArtistAlbumIDs env artistID token fuel w =
        some (Except.ok
            (pages.map (fun p => p.Items.map (fun album => album.ID))).flatten,
          World.mk w.redis (w.trace ++ getEvents Target.artistAlbums token
            (pageURLs (fun p => p.Next) (artistAlbumsURL artistID) pages)))) ∧
    (∀ artistID pages err,
      pagesThenError env.requestError env.artistAlbums (fun p => p.Next) token
        (artistAlbumsURL artistID) pages err →
      pages.length < fuel →
      getArtistAlbumIDs env artistID token fuel w =
        some (Except.error err,
          World.mk w.redis (w.trace ++ getEvents Target.artistAlbums token
            (pageURLs (fun p => p.Next) (artistAlbumsURL artistID) pages ++
              [urlAfter (fun p => p.Next) (artistAlbumsURL artistID) pages])))) ∧
    (∀ artistID pages err,
      pagesThenRejected env.requestError env.artistAlbums (fun p => p.Next) token
        (artistAlbumsURL artistID) pages err →
      pages.length < fuel →
      getArtistAlbumIDs env artistID token fuel w =
        some (Except.error err,
          World.mk w.redis (w.trace ++ getEvents Target.artistAlbums token
            (pageURLs (fun p => p.Next) (artistAlbumsURL artistID) pages)))) ∧
    (∀ albumID targetArtistID pages,
      pagesFrom env.requestError env.albumTracks (fun p => p.Next) token (albumTracksURL albumID)
        pages →
      pages.length < fuel →
      getAlbumTracksWithAlbumID env albumID token targetArtistID fuel w =
        some (Except.ok
            (pages.map (fun p => (p.Items.map (fun t => { t with AlbumID := albumID })).filter
              (fun t => containsArtist targetArtistID t.Artists))).flatten,
          World.mk w.redis (w.trace ++ getEvents Target.albumTracks token
            (pageURLs (fun p => p.Next) (albumTracksURL albumID) pages)))) ∧
    (∀ albumID targetArtistID pages err,
      pagesThenError env.requestError env.albumTracks (fun p => p.Next) token
        (albumTracksURL albumID) pages err →
      pages.length < fuel →
      getAlbumTracksWithAlbumID env albumID token targetArtistID fuel w =
        some (Except.error err,
          World.mk w.redis (w.trace ++ getEvents Target.albumTracks token
            (pageURLs (fun p => p.Next) (albumTracksURL albumID) pages ++
              [urlAfter (fun p => p.Next) (albumTracksURL albumID) pages])))) ∧
    (∀ albumID targetArtistID pages err,
      pagesThenRejected env.requestError env.albumTracks (fun p => p.Next) token
        (albumTracksURL albumID) pages err →
      pages.length < fuel →
      getAlbumTracksWithAlbumID env albumID token targetArtistID fuel w =
        some (Except.error err,
          World.mk w.redis (w.trace ++ getEvents Target.albumTracks token
            (pageURLs (fun p => p.Next) (albumTracksURL albumID) pages)))) ∧
    (∀ playlistID pages,
      pagesFrom env.requestError env.playlistTracks (fun p => p.Next) token (playlistTracksURL playlistID)
        pages →
      pages.length < fuel →
      getPlaylistTracks env playlistID token fuel w =
        some (Except.ok
            (pages.map (fun p => (p.Items.map (fun item => item.Track)).filter
              (fun t => decide (t.ID ≠ "")))).flatten,
          World.mk w.redis (w.trace ++ getEvents Target.playlistTracks token
            (pageURLs (fun p => p.Next) (playlistTracksURL playlistID) pages)))) ∧
    (∀ playlistID pages err,
      pagesThenError env.requestError env.playlistTracks (fun p => p.Next) token
        (playlistTracksURL playlistID) pages err →
      pages.length < fuel →
      getPlaylistTracks env playlistID token fuel w =
        some (Except.error err,
          World.mk w.redis (w.trace ++ getEvents Target.playlistTracks token
            (pageURLs (fun p => p.Next) (playlistTracksURL playlistID) pages ++
              [urlAfter (fun p => p.Next) (playlistTracksURL playlistID) pages])))) ∧
    (∀ playlistID pages err,
      pagesThenRejected env.requestError env.playlistTracks (fun p => p.Next) token
        (playlistTracksURL playlistID) pages err →
      pages.length < fuel →
      getPlaylistTracks env playlistID token fuel w =
        some (Except.error err,
          World.mk w.redis (w.trace ++ getEvents Target.playlistTracks token
            (pageURLs (fun p => p.Next) (playlistTracksURL playlistID) pages)))) := by
  refine ⟨?_, ?_, ?_, ?_, ?_, ?_, ?_, ?_, ?_⟩
  · intro artistID pages h hf
    have := getArtistAlbumIDsLoop_pages env token pages _ [] w fuel h hf
    simpa [getArtistAlbumIDs] using this
  · intro artistID pages err h hf
    exact getArtistAlbumIDsLoop_error env token err pages _ [] w fuel h hf
  · intro artistID pages err h hf
    exact getArtistAlbumIDsLoop_rejected env token err pages _ [] w fuel h hf
  · intro albumID targetArtistID pages h hf
    have := getAlbumTracksWithAlbumIDLoop_pages env albumID token targetArtistID pages _ []
      w fuel h hf
    simpa [getAlbumTracksWithAlbumID] using this
  · intro albumID targetArtistID pages err h hf
    exact getAlbumTracksWithAlbumIDLoop_error env albumID token targetArtistID err pages _ []
      w fuel h hf
  · intro albumID targetArtistID pages err h hf
    exact getAlbumTracksWithAlbumIDLoop_rejected env albumID token targetArtistID err pages
      _ [] w fuel h hf
  · intro playlistID pages h hf
    have := getPlaylistTracksLoop_pages env token pages _ [] w fuel h hf
    simpa [getPlaylistTracks] using this
  · intro playlistID pages err h hf
    exact getPlaylistTracksLoop_error env token err pages _ [] w fuel h hf
  · intro playlistID pages err h hf
    exact getPlaylistTracksLoop_rejected env token err pages _ [] w fuel h hf

/-- Witness of `traversals_follow_next_chain`: an album listing of two pages,
read in full; the same listing with a failing second page; and an artist
identity for which no request can be built. -/
theorem traversals_follow_next_chain_witness :
    getArtistAlbumIDs pagedEnv "art1" "tok" 3 emptyWorld =
        some (Except.ok ["a2020", "a2019"],
          World.mk [] [Event.apiGet Target.artistAlbums (artistAlbumsURL "art1") "tok",
            Event.apiGet Target.artistAlbums "https://api.spotify.com/page2" "tok"]) ∧
      getArtistAlbumIDs brokenPagedEnv "art1" "tok" 3 emptyWorld =
        some (Except.error "500",
          World.mk [] [Event.apiGet Target.artistAlbums (artistAlbumsURL "art1") "tok",
            Event.apiGet Target.artistAlbums "https://api.spotify.com/page2" "tok"]) ∧
      getArtistAlbumIDs rejectingEnv "100%" "tok" 3 emptyWorld =
        some (Except.error "invalid URL escape", World.mk [] []) :=
  ⟨(traversals_follow_next_chain pagedEnv "tok" 3 emptyWorld).1 "art1"
      [albumPage1, albumPage2] ⟨by decide, rfl, rfl, by decide, rfl, rfl, rfl⟩ (by decide),
    (traversals_follow_next_chain brokenPagedEnv "tok" 3 emptyWorld).2.1 "art1"
      [albumPage1] "500" ⟨by decide, rfl, rfl, by decide, rfl, rfl⟩ (by decide),
    (traversals_follow_next_chain rejectingEnv "tok" 3 emptyWorld).2.2.1 "100%"
      [] "invalid URL escape" ⟨by decide, rfl⟩ (by decide)⟩

/-! ## Failure policy of the catalog build -/

/-- No two entries of a built catalog share an ID. -/
theorem catalog_unique_ids (env : Env) (artistID token : String) (fuel : Nat)
    (w : World) (result : List SimplifiedTrack) (w2 : World)
    (h : getAllArtistTracksWithAlbumID env artistID token fuel w =
      some (Except.ok result, w2)) :
    (result.map (fun t => t.ID)).Nodup := by
  obtain ⟨albumIDs, w1, m, hal, hm, hres⟩ :=
    getAllArtistTracksWithAlbumID_ok env artistID token fuel w result w2 h
  obtain ⟨i1, i2, _, _, _⟩ := mergeAlbums_spec env artistID token fuel albumIDs [] w1 m w2 hm
  have hkeys : ∀ kv ∈ m, kv.1 = kv.2.ID := i2 (fun kv hkv => absurd hkv (List.not_mem_nil kv))
  have hperm := env.range.perm m
  have e : result.map (fun t => t.ID) = (env.range.visit m).map Prod.fst := by
    rw [hres, List.map_map]
    apply List.map_congr_left
    intro kv hkv
    exact (hkeys kv (hperm.mem_iff.mp hkv)).symm
  rw [e]
  exact (hperm.map Prod.fst).nodup_iff.mpr (i1 List.nodup_nil)

/-- Every non-empty ID of a kept track of a fetched listed album has an entry
in the built catalog. -/
theorem catalog_covers_ids (env : Env) (artistID token : String) (fuel : Nat)
    (w : World) (result : List SimplifiedTrack) (w2 : World)
    (h : getAllArtistTracksWithAlbumID env artistID token fuel w =
      some (Except.ok result, w2)) :
    ∀ albumIDs w1, getArtistAlbumIDs env artistID token fuel w =
        some (Except.ok albumIDs, w1) →
      ∀ a ∈ albumIDs, ∀ w0 tracks w3,
        getAlbumTracksWithAlbumID env a token artistID fuel w0 =
          some (Except.ok tracks, w3) →
        ∀ t ∈ tracks, t.ID ≠ "" → ∃ r ∈ result, r.ID = t.ID := by
  obtain ⟨albumIDs, w1, m, hal, hm, hres⟩ :=
    getAllArtistTracksWithAlbumID_ok env artistID token fuel w result w2 h
  obtain ⟨_, i2, _, _, i5⟩ := mergeAlbums_spec env artistID token fuel albumIDs [] w1 m w2 hm
  have hkeys : ∀ kv ∈ m, kv.1 = kv.2.ID := i2 (fun kv hkv => absurd hkv (List.not_mem_nil kv))
  have hperm := env.range.perm m
  intro albumIDs2 w1b hal2 a ha w0 tracks w3 hget t ht hne
  rw [hal] at hal2
  simp only [Option.some.injEq, Prod.mk.injEq, Except.ok.injEq] at hal2
  obtain ⟨rfl, _⟩ := hal2
  have hk := i5 a ha w0 tracks w3 hget t ht hne
  obtain ⟨kv, hkv, hfst⟩ := List.mem_map.mp hk
  refine ⟨kv.2, ?_, ?_⟩
  · rw [hres]
    exact List.mem_map.mpr ⟨kv, hperm.mem_iff.mpr hkv, rfl⟩
  · rw [← hkeys kv hkv, hfst]

theorem getAlbumTracksWithAlbumID_isSome_world (env : Env)
    (albumID token targetArtistID : String) (fuel : Nat) (w w0 : World)
    (h : ∃ r, getAlbumTracksWithAlbumID env albumID token targetArtistID fuel w = some r) :
    ∃ r, getAlbumTracksWithAlbumID env albumID token targetArtistID fuel w0 = some r := by
  obtain ⟨r, hr⟩ := h
  have hw := getAlbumTracksWithAlbumIDLoop_world env albumID token targetArtistID fuel
    (albumTracksURL albumID) [] w w0
  unfold getAlbumTracksWithAlbumID at hr ⊢
  rw [hr] at hw
  cases h0 : getAlbumTracksWithAlbumIDLoop env albumID token targetArtistID fuel
      (albumTracksURL albumID) [] w0 with
  | none => rw [h0] at hw; simp at hw
  | some r0 => exact ⟨r0, rfl⟩

/-- The loop over the albums returns when every album fetch returns. -/
theorem mergeAlbums_returns (env : Env) (artistID token : String) (fuel : Nat) :
    ∀ (albumIDs : List String) (m : List (String × SimplifiedTrack)) (w : World),
      (∀ a ∈ albumIDs, ∀ w0,
        ∃ r, getAlbumTracksWithAlbumID env a token artistID fuel w0 = some r) →
      ∃ m2 w2, mergeAlbums env artistID token fuel albumIDs m w = some (m2, w2) := by
  intro albumIDs
  induction albumIDs with
  | nil => intro m w _; exact ⟨m, w, rfl⟩
  | cons a rest ih =>
    intro m w h
    obtain ⟨r, hr⟩ := h a (List.mem_cons_self _ _) w
    have hrest : ∀ a2 ∈ rest, ∀ w0,
        ∃ r, getAlbumTracksWithAlbumID env a2 token artistID fuel w0 = some r :=
      fun a2 ha2 w0 => h a2 (List.mem_cons_of_mem _ ha2) w0
    unfold mergeAlbums
    obtain ⟨res, w1⟩ := r
    cases res with
    | error err => simp only [hr]; exact ih m w1 hrest
    | ok tracks => simp only [hr]; exact ih _ w1 hrest

/-- C15 as stated fails: the album listing and the only album fetch succeed,
yet a kept track of that album, the one with the empty identity, has no
entry in the result. -/
theorem build_omits_kept_track_without_identity :
    ¬ ∀ (env : Env) (artistID token : String) (fuel : Nat) (w : World)
        (albumIDs : List String) (w1 : World),
      getArtistAlbumIDs env artistID token fuel w = some (Except.ok albumIDs, w1) →
      (∀ a ∈ albumIDs,
        ∃ r, getAlbumTracksWithAlbumID env a token artistID fuel w = some r) →
      ∃ result w2,
        getAllArtistTracksWithAlbumID env artistID token fuel w =
          some (Except.ok result, w2) ∧
        ∀ a ∈ albumIDs, ∀ w0 tracks w3,
          getAlbumTracksWithAlbumID env a token artistID fuel w0 =
            some (Except.ok tracks, w3) →
          ∀ t ∈ tracks, ∃ r ∈ result, r.ID = t.ID := by
  intro h
  obtain ⟨w1, hal⟩ : ∃ w1, getArtistAlbumIDs emptyIDEnv "art1" "tok" 3 emptyWorld =
      some (Except.ok ["a1"], w1) := ⟨_, rfl⟩
  obtain ⟨w3, htr⟩ : ∃ w3, getAlbumTracksWithAlbumID emptyIDEnv "a1" "tok" "art1" 3
      emptyWorld = some (Except.ok [localTrack, oneTrack], w3) := ⟨_, rfl⟩
  obtain ⟨result, w2, hrun, hall⟩ := h emptyIDEnv "art1" "tok" 3 emptyWorld ["a1"] w1 hal (by
    intro a ha
    rw [List.mem_singleton] at ha
    subst ha
    exact ⟨_, htr⟩)
  obtain ⟨w2b, hrun2⟩ : ∃ w2b, getAllArtistTracksWithAlbumID emptyIDEnv "art1" "tok" 3
      emptyWorld = some (Except.ok [oneTrack], w2b) := ⟨_, rfl⟩
  rw [hrun2] at hrun
  simp only [Option.some.injEq, Prod.mk.injEq, Except.ok.injEq] at hrun
  obtain ⟨r, hr, hid⟩ := hall "a1" (List.mem_cons_self _ _) _ _ _ htr localTrack
    (List.mem_cons_self _ _)
  rw [← hrun.1, List.mem_singleton] at hr
  subst hr
  exact absurd hid (by decide)

/-- C15, amended. `getAllArtistTracksWithAlbumID` returns an error exactly
when the album listing does, and then the same one. When the album listing
succeeds and every per-album fetch returns (tracks or an error), the build
succeeds whichever fetches failed; no two entries of its result share an ID,
every entry is among the tracks returned by the successful fetch of the
album it is tagged with, which is a listed album, and every kept track with
a non-empty ID of a successfully fetched listed album has an entry with its
ID; no entry has the empty ID, so a kept track with an empty ID has none. -/
theorem build_fails_only_with_album_listing (env : Env) (artistID token : String)
    (fuel : Nat) (w : World) :
    (∀ err w1,
      getAllArtistTracksWithAlbumID env artistID token fuel w = some (Except.error err, w1) ↔
        getArtistAlbumIDs env artistID token fuel w = some (Except.error err, w1)) ∧
    (∀ albumIDs w1,
      getArtistAlbumIDs env artistID token fuel w = some (Except.ok albumIDs, w1) →
      (∀ a ∈ albumIDs,
        ∃ r, getAlbumTracksWithAlbumID env a token artistID fuel w = some r) →
      ∃ result w2,
        getAllArtistTracksWithAlbumID env artistID token fuel w =
          some (Except.ok result, w2) ∧
        (result.map (fun t => t.ID)).Nodup ∧
        (∀ r ∈ result, r.ID ≠ "") ∧
        (∀ r ∈ result, r.AlbumID ∈ albumIDs ∧
          ∃ w0 tracks w3,
            getAlbumTracksWithAlbumID env r.AlbumID token artistID fuel w0 =
              some (Except.ok tracks, w3) ∧
            r ∈ tracks) ∧
        ∀ a ∈ albumIDs, ∀ w0 tracks w3,
          getAlbumTracksWithAlbumID env a token artistID fuel w0 =
            some (Except.ok tracks, w3) →
          ∀ t ∈ tracks, t.ID ≠ "" → ∃ r ∈ result, r.ID = t.ID) := by
  constructor
  · intro err w1
    constructor
    · intro h
      unfold getAllArtistTracksWithAlbumID at h
      cases h1 : getArtistAlbumIDs env artistID token fuel w with
      | none => simp [h1] at h
      | some r =>
        obtain ⟨res, w2⟩ := r
        cases res with
        | error e =>
          simp only [h1, Option.some.injEq, Prod.mk.injEq, Except.error.injEq] at h
          rw [h.1, h.2]
        | ok albumIDs =>
          simp only [h1] at h
          cases h2 : mergeAlbums env artistID token fuel albumIDs [] w2 with
          | none => simp [h2] at h
          | some r2 => simp [h2] at h
    · intro h
      unfold getAllArtistTracksWithAlbumID
      simp only [h]
  · intro albumIDs w1 hal hret
    have hret2 : ∀ a ∈ albumIDs, ∀ w0,
        ∃ r, getAlbumTracksWithAlbumID env a token artistID fuel w0 = some r :=
      fun a ha w0 =>
        getAlbumTracksWithAlbumID_isSome_world env a token artistID fuel w w0 (hret a ha)
    obtain ⟨m, w2, hm⟩ := mergeAlbums_returns env artistID token fuel albumIDs [] w1 hret2
    have hrun : getAllArtistTracksWithAlbumID env artistID token fuel w =
        some (Except.ok ((env.range.visit m).foldl (fun result kv => result ++ [kv.2]) []),
          w2) := by
      unfold getAllArtistTracksWithAlbumID
      simp only [hal, hm]
    refine ⟨_, w2, hrun, ?_, ?_, ?_, ?_⟩
    · exact (catalog_unique_ids env artistID token fuel w _ w2 hrun)
    · exact catalog_ids_nonempty env artistID token fuel w _ w2 hrun
    · intro r hr
      obtain ⟨albumIDs2, w1b, m2, hal2, hm2, hres⟩ :=
        getAllArtistTracksWithAlbumID_ok env artistID token fuel w _ w2 hrun
      rw [hal] at hal2
      simp only [Option.some.injEq, Prod.mk.injEq, Except.ok.injEq] at hal2
      obtain ⟨rfl, rfl⟩ := hal2
      obtain ⟨_, _, i3, _, _⟩ :=
        mergeAlbums_spec env artistID token fuel albumIDs [] w1 m2 w2 hm2
      rw [hres] at hr
      obtain ⟨kv, hkv, hsnd⟩ := List.mem_map.mp hr
      have hkv2 : kv ∈ m2 := (env.range.perm m2).mem_iff.mp hkv
      rcases i3 kv hkv2 with h1 | ⟨a, ha, w0, tracks, w3, hget, hin⟩
      · exact absurd h1 (List.not_mem_nil kv)
      · rw [hsnd] at hin
        obtain ⟨h1, _⟩ := getAlbumTracksWithAlbumID_mem env a token artistID fuel w0
          tracks w3 hget r hin
        rw [h1]
        exact ⟨ha, w0, tracks, w3, hget, hin⟩
    · intro a ha w0 tracks w3 hget t ht hne
      exact catalog_covers_ids env artistID token fuel w _ w2 hrun albumIDs w1 hal a ha
        w0 tracks w3 hget t ht hne

/-- Witness of `build_fails_only_with_album_listing`: two listed albums, the
tracks of the first cannot be fetched, the second gives the 2019 track and a
kept track with the empty ID. -/
theorem build_fails_only_with_album_listing_witness :
    (∃ w3, getAlbumTracksWithAlbumID oneAlbumFailsEnv "a2020" "tok" "art1" 3 emptyWorld =
        some (Except.error "500", w3)) ∧
      (∃ w2, getAllArtistTracksWithAlbumID oneAlbumFailsEnv "art1" "tok" 3 emptyWorld =
        some (Except.ok [track2019], w2)) ∧
      ∃ result w2,
        getAllArtistTracksWithAlbumID oneAlbumFailsEnv "art1" "tok" 3 emptyWorld =
          some (Except.ok result, w2) ∧
        (result.map (fun t => t.ID)).Nodup ∧
        (∀ r ∈ result, r.ID ≠ "") ∧
        (∀ r ∈ result, r.AlbumID ∈ ["a2020", "a2019"] ∧
          ∃ w0 tracks w3,
            getAlbumTracksWithAlbumID oneAlbumFailsEnv r.AlbumID "tok" "art1" 3 w0 =
              some (Except.ok tracks, w3) ∧
            r ∈ tracks) ∧
        ∀ a ∈ ["a2020", "a2019"], ∀ w0 tracks w3,
          getAlbumTracksWithAlbumID oneAlbumFailsEnv a "tok" "art1" 3 w0 =
            some (Except.ok tracks, w3) →
          ∀ t ∈ tracks, t.ID ≠ "" → ∃ r ∈ result, r.ID = t.ID :=
  ⟨⟨_, rfl⟩, ⟨_, rfl⟩,
    (build_fails_only_with_album_listing oneAlbumFailsEnv "art1" "tok" 3 emptyWorld).2
      ["a2020", "a2019"] _ rfl (by
        intro a ha
        simp only [List.mem_cons, List.mem_singleton, List.not_mem_nil, or_false] at ha
        rcases ha with rfl | rfl
        · exact ⟨_, rfl⟩
        · exact ⟨_, rfl⟩)⟩

end Playmaker
